import Mathlib

/-!
# Tiled out-of-place transpose kernels

A shallow embedding of `library/src/device/kernels/transpose.h`.

* Device memory is a function from element offsets to values; a pointer is an
  element offset into its buffer.  The source and destination buffers are
  distinct (the kernels are out-of-place), the source buffer is read-only.
* A kernel body is embedded as the execution of one work-group: every worker
  runs the code up to the barrier, then every worker runs the code after it.
  Workers and work-groups are executed in index order.  The results on final
  buffers are derived from one fact about the stores of a run, namely that all
  stores to an address carry the same value, which no reordering of workers or
  work-groups changes.
* The staging buffer is not initialised: a work-group starts with whatever the
  state holds, and every statement is for an arbitrary initial state.
* Index arithmetic (`int`, `size_t`, and the HIP index variables, whose types
  are declared outside the sources) is over unbounded naturals; the
  `unsigned int` offset accumulators of `transpose_kernel_outplace` are reduced
  modulo `2^32` explicitly.  Division by zero, undefined in the source, follows
  Lean (`x / 0 = 0`, `x % 0 = x`) and is excluded by the hypotheses where it
  could occur.
* Every global load, every global store and every staging-buffer access is
  recorded in the state, so that statements about which worker touches which
  address are statements about the run itself.
* The arrays `lengths`, `stride_in` and `stride_out` are functions from indices
  to entries.  Where the extent of an array matters, the batch-offset resolver
  is also given over lists, with every read checked against the extent; it
  agrees with the resolver over functions whenever no read is out of range.
-/

set_option autoImplicit false

namespace Transpose

/-! ## Execution model -/

/-- Hardware indices of one worker: `hipThreadIdx_*`, `hipBlockIdx_*`, `hipBlockDim_*`. -/
structure Worker where
  hipThreadIdx_x : Nat
  hipThreadIdx_y : Nat
  hipBlockIdx_x : Nat
  hipBlockIdx_y : Nat
  hipBlockIdx_z : Nat
  hipBlockDim_x : Nat
  hipBlockDim_y : Nat
  deriving DecidableEq, Repr

/-- Linear thread id `tid = hipThreadIdx_x + hipThreadIdx_y * hipBlockDim_x`. -/
def Worker.tid (w : Worker) : Nat := w.hipThreadIdx_x + w.hipThreadIdx_y * w.hipBlockDim_x

/-- Column `tx1 = tid % DIM_X` of a worker in the square staging coordinate system. -/
def Worker.tx1 (w : Worker) (DIM_X : Nat) : Nat := w.tid % DIM_X

/-- Row `ty1 = tid / DIM_X` of a worker in the square staging coordinate system. -/
def Worker.ty1 (w : Worker) (DIM_X : Nat) : Nat := w.tid / DIM_X

/-- One global-memory access: the worker, the loop pass and the element offset touched. -/
structure Access where
  who : Worker
  pass : Nat
  addr : Nat
  deriving DecidableEq, Repr

/-- Machine state seen by a kernel: the staging buffer of the running work-group, the
destination buffer, and the record of accesses performed so far. -/
structure State (T : Type) where
  shared : Nat → Nat → T
  output : Nat → T
  loads : List Access
  stores : List (Access × T)
  staged : List (Nat × Nat)

/-- The macros `TWIDDLE_STEP_MUL_FWD(TWLstep<k>, table, index, value)` and
`TWIDDLE_STEP_MUL_INV(...)` live in `common.h`, which is not part of the sources; they are
taken as parameters.  `FWD k table index value` is the value the forward macro of level `k`
leaves in `value`.  The table pointer is `none` when null. -/
structure TwiddleMul (Tbl T : Type) where
  FWD : Nat → Option Tbl → Nat → T → T
  INV : Nat → Option Tbl → Nat → T → T

/-- Store to a linear buffer. -/
def write {T : Type} (mem : Nat → T) (a : Nat) (v : T) : Nat → T :=
  fun k => if k = a then v else mem k

/-- Store to a two-dimensional on-chip array. -/
def write2 {T : Type} (mem : Nat → Nat → T) (a b : Nat) (v : T) : Nat → Nat → T :=
  fun x y => if x = a ∧ y = b then v else mem x y

/-- The loop `for (i = i0; i < bound; i += step) body`, started at `i0` with a bound `fuel`
on the number of passes. -/
def forLoop {σ : Type} (body : Nat → σ → σ) (bound step : Nat) : Nat → Nat → σ → σ
  | 0, _, s => s
  | fuel + 1, i, s =>
    if i < bound then forLoop body bound step fuel (i + step) (body i s) else s

/-- The values the loop variable of `forLoop` takes, in order. -/
def loopIdx (bound step : Nat) : Nat → Nat → List Nat
  | 0, _ => []
  | fuel + 1, i => if i < bound then i :: loopIdx bound step fuel (i + step) else []

/-- All (worker, pass) pairs of a phase in execution order. -/
def microsteps (ws : List Worker) (ps : List Nat) : List (Worker × Nat) :=
  ws.flatMap fun w => ps.map fun i => (w, i)

/-- The workers of work-group `(blkX, blkY, blkZ)` for a block of `dimX` by `dimY` threads. -/
def workers (blkX blkY blkZ dimX dimY : Nat) : List Worker :=
  (List.range dimY).flatMap fun ty =>
    (List.range dimX).map fun tx => ⟨tx, ty, blkX, blkY, blkZ, dimX, dimY⟩

/-- The work-groups of a launch: `gridX` by `gridY` work-groups for every batch index in `zs`. -/
def grid (gridX gridY : Nat) (zs : List Nat) : List (Nat × Nat × Nat) :=
  zs.flatMap fun z => (List.range gridY).flatMap fun y => (List.range gridX).map fun x => (x, y, z)

/-- Number of tiles of extent `d` needed to cover `len` elements. -/
def ceilDiv (len d : Nat) : Nat := (len + d - 1) / d

/-! ## Batch-offset resolver -/

/-- Inner loop `for (j = base; j < i; j++) currentLength *= lengths[j]`. -/
def currentLength (base : Nat) (lengths : Nat → Nat) (i : Nat) : Nat :=
  forLoop (fun j cl => cl * lengths j) i 1 i base 1

/-- Outer loop `for (i = dim; i > base; i--)` of the resolver, with `cnt = i - base` passes
left; the state is `(counter_mod, iOffset, oOffset)`.  `wrap` is the reduction applied when
an accumulator is assigned. -/
def batchLoop (wrap : Nat → Nat) (base : Nat) (lengths stride_in stride_out : Nat → Nat) :
    Nat → Nat × Nat × Nat → Nat × Nat × Nat
  | 0, st => st
  | cnt + 1, (counter_mod, iOffset, oOffset) =>
    let i := base + cnt + 1
    let cl := currentLength base lengths i
    batchLoop wrap base lengths stride_in stride_out cnt
      (counter_mod % cl,
       wrap (iOffset + counter_mod / cl * stride_in i),
       wrap (oOffset + counter_mod / cl * stride_out i))

/-- The batch-offset resolver: the loop followed by
`iOffset += counter_mod * stride_in[base]; oOffset += counter_mod * stride_out[base]`. -/
def batchOffsets (wrap : Nat → Nat) (base dim : Nat) (lengths stride_in stride_out : Nat → Nat)
    (counter : Nat) : Nat × Nat :=
  let st := batchLoop wrap base lengths stride_in stride_out (dim - base) (counter, 0, 0)
  (wrap (st.2.1 + st.1 * stride_in base), wrap (st.2.2 + st.1 * stride_out base))

/-- Specification side of the resolver: the weight `∏ lengths[k]`, `2 ≤ k < j`, of batch
coordinate `j` in the flat batch index. -/
def spec_radix (lengths : Nat → Nat) (j : Nat) : Nat := ∏ k ∈ Finset.Ico 2 j, lengths k

/-- Specification side of the resolver: the flat index `∑ c_j * ∏ lengths[k]` of the batch
coordinate `c_2 .. c_dim`. -/
def spec_flatIndex (lengths c : Nat → Nat) (dim : Nat) : Nat :=
  ∑ j ∈ Finset.Icc 2 dim, c j * spec_radix lengths j

/-- Specification side of the resolver: the linear offset `∑ c_j * stride[j]` of the batch
coordinate `c_2 .. c_dim`. -/
def spec_offset (stride c : Nat → Nat) (dim : Nat) : Nat :=
  ∑ j ∈ Finset.Icc 2 dim, c j * stride j

/-! ## Tile transfer primitive -/

section Kernels

variable {T Tbl : Type}

/-- The `twl` / `dir` dispatch around the twiddle macros in `transpose_tile_device`. -/
def twiddle_step (tw : TwiddleMul Tbl T) (twiddles_large : Option Tbl) (twl dir : Int)
    (idx : Nat) (tmp : T) : T :=
  if twl = 2 then
    if dir = -1 then tw.FWD 2 twiddles_large idx tmp else tw.INV 2 twiddles_large idx tmp
  else if twl = 3 then
    if dir = -1 then tw.FWD 3 twiddles_large idx tmp else tw.INV 3 twiddles_large idx tmp
  else if twl = 4 then
    if dir = -1 then tw.FWD 4 twiddles_large idx tmp else tw.INV 4 twiddles_large idx tmp
  else tmp

/-- Body of the load loop of `transpose_tile_device` for worker `w` in pass `i`. -/
def tile_load (tw : TwiddleMul Tbl T) (DIM_X : Nat) (input : Nat → T)
    (inp m n gx gy ld_in : Nat) (twiddles_large : Option Tbl) (twl dir : Int)
    (w : Worker) (i : Nat) (s : State T) : State T :=
  let tx1 := w.tx1 DIM_X
  let ty1 := w.ty1 DIM_X
  if tx1 < n ∧ ty1 + i < m then
    let tmp := input (inp + (tx1 + (ty1 + i) * ld_in))
    let tmp := twiddle_step tw twiddles_large twl dir ((gx + tx1) * (gy + ty1 + i)) tmp
    { s with
      shared := write2 s.shared tx1 (ty1 + i) tmp
      loads := s.loads ++ [⟨w, i, inp + (tx1 + (ty1 + i) * ld_in)⟩]
      staged := s.staged ++ [(tx1, ty1 + i)] }
  else s

/-- Body of the write-back loop of `transpose_tile_device` for worker `w` in pass `i`. -/
def tile_store (DIM_X : Nat) (outp m n ld_out : Nat) (w : Worker) (i : Nat) (s : State T) :
    State T :=
  let tx1 := w.tx1 DIM_X
  let ty1 := w.ty1 DIM_X
  if tx1 < m ∧ ty1 + i < n then
    { s with
      output := write s.output (outp + (tx1 + (i + ty1) * ld_out)) (s.shared (ty1 + i) tx1)
      stores := s.stores ++
        [(⟨w, i, outp + (tx1 + (i + ty1) * ld_out)⟩, s.shared (ty1 + i) tx1)]
      staged := s.staged ++ [(ty1 + i, tx1)] }
  else s

/-- Load phase of `transpose_tile_device`: every worker of `ws` runs
`for (i = 0; i < m; i += DIM_Y)`. -/
def tile_load_phase (tw : TwiddleMul Tbl T) (DIM_X DIM_Y : Nat) (input : Nat → T)
    (inp m n gx gy ld_in : Nat) (twiddles_large : Option Tbl) (twl dir : Int)
    (ws : List Worker) (s : State T) : State T :=
  ws.foldl (fun s w =>
    forLoop (tile_load tw DIM_X input inp m n gx gy ld_in twiddles_large twl dir w) m DIM_Y m 0 s) s

/-- Write-back phase of `transpose_tile_device`: every worker of `ws` runs
`for (i = 0; i < n; i += DIM_Y)`. -/
def tile_store_phase (DIM_X DIM_Y : Nat) (outp m n ld_out : Nat)
    (ws : List Worker) (s : State T) : State T :=
  ws.foldl (fun s w => forLoop (tile_store DIM_X outp m n ld_out w) n DIM_Y n 0 s) s

/-- `transpose_tile_device<T, DIM_X, DIM_Y>` run by the workers `ws` of one work-group:
load phase, `__syncthreads()`, write-back phase.  `inp` and `outp` are the `input` and
`output` pointers as offsets into the source buffer `input` and the destination buffer. -/
def transpose_tile_device (tw : TwiddleMul Tbl T) (DIM_X DIM_Y : Nat) (input : Nat → T)
    (inp outp m n gx gy ld_in ld_out : Nat) (twiddles_large : Option Tbl) (twl dir : Int)
    (ws : List Worker) (s : State T) : State T :=
  tile_store_phase DIM_X DIM_Y outp m n ld_out ws
    (tile_load_phase tw DIM_X DIM_Y input inp m n gx gy ld_in twiddles_large twl dir ws s)

/-- The value `transpose_tile_device` stages for column `x`, row `y` of the tile: the source
element, passed through the twiddle dispatch at index `(gx + x) * (gy + y)`. -/
def tile_value (tw : TwiddleMul Tbl T) (input : Nat → T) (inp gx gy ld_in : Nat)
    (twiddles_large : Option Tbl) (twl dir : Int) (x y : Nat) : T :=
  twiddle_step tw twiddles_large twl dir ((gx + x) * (gy + y)) (input (inp + (x + y * ld_in)))

/-- Bounds check of the load loop. -/
def tile_load_guard (DIM_X m n : Nat) (p : Worker × Nat) : Prop :=
  p.1.tx1 DIM_X < n ∧ p.1.ty1 DIM_X + p.2 < m

/-- Bounds check of the write-back loop. -/
def tile_store_guard (DIM_X m n : Nat) (p : Worker × Nat) : Prop :=
  p.1.tx1 DIM_X < m ∧ p.1.ty1 DIM_X + p.2 < n

instance (DIM_X m n : Nat) (p : Worker × Nat) : Decidable (tile_load_guard DIM_X m n p) := by
  unfold tile_load_guard; infer_instance

instance (DIM_X m n : Nat) (p : Worker × Nat) : Decidable (tile_store_guard DIM_X m n p) := by
  unfold tile_store_guard; infer_instance

/-- The global load a (worker, pass) pair performs in the load loop, if any. -/
def tile_load_ev (DIM_X inp m n ld_in : Nat) (p : Worker × Nat) : List Access :=
  if tile_load_guard DIM_X m n p then
    [⟨p.1, p.2, inp + (p.1.tx1 DIM_X + (p.1.ty1 DIM_X + p.2) * ld_in)⟩]
  else []

/-- The global store a (worker, pass) pair performs in the write-back loop, if any, given
the staging buffer `sh` left by the load phase. -/
def tile_store_ev (sh : Nat → Nat → T) (DIM_X outp m n ld_out : Nat) (p : Worker × Nat) :
    List (Access × T) :=
  if tile_store_guard DIM_X m n p then
    [(⟨p.1, p.2, outp + (p.1.tx1 DIM_X + (p.2 + p.1.ty1 DIM_X) * ld_out)⟩,
      sh (p.1.ty1 DIM_X + p.2) (p.1.tx1 DIM_X))]
  else []

/-- The access part of `tile_store_ev`: it does not depend on the staged values. -/
def tile_store_acc (DIM_X outp m n ld_out : Nat) (p : Worker × Nat) : List Access :=
  if tile_store_guard DIM_X m n p then
    [⟨p.1, p.2, outp + (p.1.tx1 DIM_X + (p.2 + p.1.ty1 DIM_X) * ld_out)⟩]
  else []

/-- The cells of the staging buffer a (worker, pass) pair writes in the load loop. -/
def tile_load_cell (DIM_X m n : Nat) (p : Worker × Nat) : List (Nat × Nat) :=
  if tile_load_guard DIM_X m n p then [(p.1.tx1 DIM_X, p.1.ty1 DIM_X + p.2)] else []

/-- The cells of the staging buffer a (worker, pass) pair reads in the write-back loop. -/
def tile_store_cell (DIM_X m n : Nat) (p : Worker × Nat) : List (Nat × Nat) :=
  if tile_store_guard DIM_X m n p then [(p.1.ty1 DIM_X + p.2, p.1.tx1 DIM_X)] else []

/-! ## Scheme A: `transpose_kernel2` -/

/-- Tile extent `mm = min(m - hipBlockIdx_y * DIM_X, DIM_X)` of `transpose_kernel2`.  The
subtraction is truncated at `0`; on a covering grid `hipBlockIdx_y * DIM_X < m` and no borrow
occurs. -/
def kernel2_mm (DIM_X : Nat) (lengths : Nat → Nat) (blkY : Nat) : Nat :=
  min (lengths 1 - blkY * DIM_X) DIM_X

/-- Tile extent `nn = min(n - hipBlockIdx_x * DIM_X, DIM_X)` of `transpose_kernel2`, with the
same truncated subtraction as `kernel2_mm`. -/
def kernel2_nn (DIM_X : Nat) (lengths : Nat → Nat) (blkX : Nat) : Nat :=
  min (lengths 0 - blkX * DIM_X) DIM_X

/-- Source offset `iOffset` the resolver of `transpose_kernel2` yields for batch index `z`. -/
def kernel2_iOffset (dim : Nat) (lengths stride_in stride_out : Nat → Nat) (z : Nat) : Nat :=
  (batchOffsets id 2 dim lengths stride_in stride_out z).1

/-- Destination offset `oOffset` the resolver of `transpose_kernel2` yields for batch index
`z`. -/
def kernel2_oOffset (dim : Nat) (lengths stride_in stride_out : Nat → Nat) (z : Nat) : Nat :=
  (batchOffsets id 2 dim lengths stride_in stride_out z).2

/-- The value `transpose_kernel2` stages for source row `R`, column `C` of the plane at
`iOff`: the source element, passed through the twiddle dispatch at index `C * R`. -/
def kernel2_value (tw : TwiddleMul Tbl T) (input : Nat → T) (twiddles_large : Option Tbl)
    (twl dir : Int) (ld_in iOff R C : Nat) : T :=
  twiddle_step tw twiddles_large twl dir (C * R) (input (iOff + R * ld_in + C))

/-- `transpose_kernel2<T, DIM_X, DIM_Y>` run by work-group `(blkX, blkY, blkZ)` of
`dimX * dimY` workers. -/
def transpose_kernel2 (tw : TwiddleMul Tbl T) (DIM_X DIM_Y : Nat) (input : Nat → T)
    (twiddles_large : Option Tbl) (dim : Nat) (lengths stride_in stride_out : Nat → Nat)
    (twl dir : Int) (blkX blkY blkZ dimX dimY : Nat) (s : State T) : State T :=
  let ld_in := stride_in 1
  let ld_out := stride_out 1
  let off := batchOffsets id 2 dim lengths stride_in stride_out blkZ
  let inp := blkX * DIM_X + blkY * DIM_X * ld_in + off.1
  let outp := blkX * DIM_X * ld_out + blkY * DIM_X + off.2
  let mm := kernel2_mm DIM_X lengths blkY
  let nn := kernel2_nn DIM_X lengths blkX
  transpose_tile_device tw DIM_X DIM_Y input inp outp mm nn (blkX * DIM_X) (blkY * DIM_X)
    ld_in ld_out twiddles_large twl dir (workers blkX blkY blkZ dimX dimY) s

/-- The global loads work-group `b` of `transpose_kernel2` performs, in order. -/
def kernel2_loads (DIM_X DIM_Y dim : Nat) (lengths stride_in stride_out : Nat → Nat)
    (dimX dimY : Nat) (b : Nat × Nat × Nat) : List Access :=
  (microsteps (workers b.1 b.2.1 b.2.2 dimX dimY)
    (loopIdx (kernel2_mm DIM_X lengths b.2.1) DIM_Y (kernel2_mm DIM_X lengths b.2.1) 0)).flatMap
    (tile_load_ev DIM_X
      (b.1 * DIM_X + b.2.1 * DIM_X * stride_in 1 +
        kernel2_iOffset dim lengths stride_in stride_out b.2.2)
      (kernel2_mm DIM_X lengths b.2.1) (kernel2_nn DIM_X lengths b.1) (stride_in 1))

/-- The global stores work-group `b` of `transpose_kernel2` performs, in order. -/
def kernel2_stores (DIM_X DIM_Y dim : Nat) (lengths stride_in stride_out : Nat → Nat)
    (dimX dimY : Nat) (b : Nat × Nat × Nat) : List Access :=
  (microsteps (workers b.1 b.2.1 b.2.2 dimX dimY)
    (loopIdx (kernel2_nn DIM_X lengths b.1) DIM_Y (kernel2_nn DIM_X lengths b.1) 0)).flatMap
    (tile_store_acc DIM_X
      (b.1 * DIM_X * stride_out 1 + b.2.1 * DIM_X +
        kernel2_oOffset dim lengths stride_in stride_out b.2.2)
      (kernel2_mm DIM_X lengths b.2.1) (kernel2_nn DIM_X lengths b.1) (stride_out 1))

/-- The staging-buffer cells work-group `b` of `transpose_kernel2` touches, in order. -/
def kernel2_staged (DIM_X DIM_Y : Nat) (lengths : Nat → Nat) (dimX dimY : Nat)
    (b : Nat × Nat × Nat) : List (Nat × Nat) :=
  (microsteps (workers b.1 b.2.1 b.2.2 dimX dimY)
    (loopIdx (kernel2_mm DIM_X lengths b.2.1) DIM_Y (kernel2_mm DIM_X lengths b.2.1) 0)).flatMap
    (tile_load_cell DIM_X (kernel2_mm DIM_X lengths b.2.1) (kernel2_nn DIM_X lengths b.1)) ++
  (microsteps (workers b.1 b.2.1 b.2.2 dimX dimY)
    (loopIdx (kernel2_nn DIM_X lengths b.1) DIM_Y (kernel2_nn DIM_X lengths b.1) 0)).flatMap
    (tile_store_cell DIM_X (kernel2_mm DIM_X lengths b.2.1) (kernel2_nn DIM_X lengths b.1))

/-- A launch of `transpose_kernel2` on `gridX` by `gridY` work-groups for each batch index
of `zs`. -/
def transpose_kernel2_launch (tw : TwiddleMul Tbl T) (DIM_X DIM_Y : Nat) (input : Nat → T)
    (twiddles_large : Option Tbl) (dim : Nat) (lengths stride_in stride_out : Nat → Nat)
    (twl dir : Int) (gridX gridY : Nat) (zs : List Nat) (dimX dimY : Nat) (s : State T) :
    State T :=
  (grid gridX gridY zs).foldl (fun s b =>
    transpose_kernel2 tw DIM_X DIM_Y input twiddles_large dim lengths stride_in stride_out
      twl dir b.1 b.2.1 b.2.2 dimX dimY s) s

/-! ## Scheme B: `transpose_kernel_outplace` -/

/-- Body of the load loop of `transpose_kernel_outplace` for worker `w` in pass `i`;
`inp` is the `input_matrix` pointer after both increments. -/
def outplace_load (tw : TwiddleMul Tbl T) (input_matrix : Nat → T) (twiddles_large : Option Tbl)
    (inp input_leading_dim_size reshape_factor : Nat) (w : Worker) (i : Nat) (s : State T) :
    State T :=
  let local_idx_0 := w.hipThreadIdx_x
  let local_idx_1 := w.hipThreadIdx_y
  let block_dim_0 := w.hipBlockDim_x
  let block_dim_1 := w.hipBlockDim_y
  let subblock_idx_0 := local_idx_0 + (local_idx_1 % reshape_factor) * block_dim_0
  let subblock_idx_1 := local_idx_1 / reshape_factor + i * (block_dim_1 / reshape_factor)
  let tmp := input_matrix (inp + (subblock_idx_1 * input_leading_dim_size + subblock_idx_0))
  let tmp := if twiddles_large.isSome
    then tw.FWD 3 twiddles_large (subblock_idx_0 * subblock_idx_1) tmp else tmp
  { s with
    shared := write2 s.shared subblock_idx_0 subblock_idx_1 tmp
    loads := s.loads ++
      [⟨w, i, inp + (subblock_idx_1 * input_leading_dim_size + subblock_idx_0)⟩]
    staged := s.staged ++ [(subblock_idx_0, subblock_idx_1)] }

/-- Body of the store loop of `transpose_kernel_outplace` for worker `w` in pass `i`;
`outp` is the `output_matrix` pointer after both increments. -/
def outplace_store (outp output_leading_dim_size reshape_factor : Nat) (w : Worker) (i : Nat)
    (s : State T) : State T :=
  let local_idx_0 := w.hipThreadIdx_x
  let local_idx_1 := w.hipThreadIdx_y
  let block_dim_0 := w.hipBlockDim_x
  let block_dim_1 := w.hipBlockDim_y
  let subblock_idx_0 := local_idx_0 + (local_idx_1 % reshape_factor) * block_dim_0
  let subblock_idx_1 := local_idx_1 / reshape_factor + i * (block_dim_1 / reshape_factor)
  let temp := s.shared subblock_idx_1 subblock_idx_0
  { s with
    output := write s.output
      (outp + (subblock_idx_1 * output_leading_dim_size + subblock_idx_0)) temp
    stores := s.stores ++
      [(⟨w, i, outp + (subblock_idx_1 * output_leading_dim_size + subblock_idx_0)⟩, temp)]
    staged := s.staged ++ [(subblock_idx_1, subblock_idx_0)] }

/-- Source offset the `unsigned int` resolver of `transpose_kernel_outplace` yields for flat
batch index `b`. -/
def outplace_iOffset (dim : Nat) (lengths stride_in stride_out : Nat → Nat) (b : Nat) : Nat :=
  (batchOffsets (fun x => x % 2 ^ 32) 2 dim lengths stride_in stride_out b).1

/-- Destination offset the `unsigned int` resolver of `transpose_kernel_outplace` yields for
flat batch index `b`. -/
def outplace_oOffset (dim : Nat) (lengths stride_in stride_out : Nat → Nat) (b : Nat) : Nat :=
  (batchOffsets (fun x => x % 2 ^ 32) 2 dim lengths stride_in stride_out b).2

/-- The value `transpose_kernel_outplace` stages in `lds[x][y]`: the element at row `y`,
column `x` of the tile at `inp`, multiplied by the level-3 forward twiddle at index `x * y`
when a table is supplied. -/
def outplace_value (tw : TwiddleMul Tbl T) (input_matrix : Nat → T)
    (twiddles_large : Option Tbl) (inp input_leading_dim_size x y : Nat) : T :=
  if twiddles_large.isSome
    then tw.FWD 3 twiddles_large (x * y) (input_matrix (inp + (y * input_leading_dim_size + x)))
    else input_matrix (inp + (y * input_leading_dim_size + x))

/-- `transpose_kernel_outplace<T, micro_tile_col_size, micro_tile_row_size, wg_col_size,
wg_row_size>` run by work-group `(blkX, blkY)` of `dimX` by `dimY` workers. -/
def transpose_kernel_outplace (tw : TwiddleMul Tbl T)
    (micro_tile_col_size micro_tile_row_size wg_col_size wg_row_size : Nat)
    (input_matrix : Nat → T) (twiddles_large : Option Tbl) (dim : Nat)
    (lengths stride_in stride_out : Nat → Nat) (blkX blkY dimX dimY : Nat) (s : State T) :
    State T :=
  let input_col_size := lengths 0
  let input_leading_dim_size := stride_in 1
  let output_leading_dim_size := stride_out 1
  let block_idx_0 := blkX
  let block_idx_1 := blkY
  let block_dim_0 := dimX
  let block_dim_1 := dimY
  let macro_tile_col_size := micro_tile_col_size * wg_col_size
  let macro_tile_row_size := micro_tile_row_size * wg_row_size
  let reshape_factor := macro_tile_col_size / block_dim_0
  let unroll_factor := macro_tile_row_size / (block_dim_1 / reshape_factor)
  let blocks_per_matrix := input_col_size / macro_tile_col_size
  let counter_mod := block_idx_0 / blocks_per_matrix
  let iOffset := outplace_iOffset dim lengths stride_in stride_out counter_mod
  let oOffset := outplace_oOffset dim lengths stride_in stride_out counter_mod
  let input_offset := input_leading_dim_size * block_idx_1 * macro_tile_row_size +
    (block_idx_0 % blocks_per_matrix) * macro_tile_col_size
  let output_offset :=
    output_leading_dim_size * (block_idx_0 % blocks_per_matrix) * macro_tile_row_size +
    block_idx_1 * macro_tile_col_size
  let s1 := (workers blkX blkY 0 dimX dimY).foldl (fun s w =>
    forLoop (outplace_load tw input_matrix twiddles_large (iOffset + input_offset)
      input_leading_dim_size reshape_factor w) unroll_factor 1 unroll_factor 0 s) s
  (workers blkX blkY 0 dimX dimY).foldl (fun s w =>
    forLoop (outplace_store (oOffset + output_offset) output_leading_dim_size reshape_factor w)
      unroll_factor 1 unroll_factor 0 s) s1

/-- A launch of `transpose_kernel_outplace` on a `gridX` by `gridY` grid. -/
def transpose_kernel_outplace_launch (tw : TwiddleMul Tbl T)
    (micro_tile_col_size micro_tile_row_size wg_col_size wg_row_size : Nat)
    (input_matrix : Nat → T) (twiddles_large : Option Tbl) (dim : Nat)
    (lengths stride_in stride_out : Nat → Nat) (gridX gridY dimX dimY : Nat) (s : State T) :
    State T :=
  (grid gridX gridY [0]).foldl (fun s b =>
    transpose_kernel_outplace tw micro_tile_col_size micro_tile_row_size wg_col_size
      wg_row_size input_matrix twiddles_large dim lengths stride_in stride_out
      b.1 b.2.1 dimX dimY s) s

/-! ## Scheme C: `transpose_var1` -/

/-- Modelled from the spec: the enumeration `TransTileDir` is declared outside the sources;
the kernel only tests `ttd == TTD_IP_HOR`, and the spec speaks of `TTD_IP_HOR` and its
complement. -/
inductive TransTileDir where
  | TTD_IP_HOR
  | TTD_IP_VER
  deriving DecidableEq, Repr

/-- Extent `TWIDTH = 64 / (sizeof(T) / 8)` of the staging buffer of `transpose_var1`. -/
def var1_TWIDTH (sizeofT : Nat) : Nat := 64 / (sizeofT / 8)

/-- The `twl` / `dir` dispatch around the twiddle macros in `transpose_var1`. -/
def var1_twiddle (tw : TwiddleMul Tbl T) (twiddles_large : Option Tbl) (twl dir : Int)
    (idx : Nat) (tmp : T) : T :=
  if twl = 3 then
    if dir = -1 then tw.FWD 3 twiddles_large idx tmp else tw.INV 3 twiddles_large idx tmp
  else if twl = 4 then
    if dir = -1 then tw.FWD 4 twiddles_large idx tmp else tw.INV 4 twiddles_large idx tmp
  else tmp

/-- Body of the load loop of `transpose_var1` for worker `w` in pass `t`; `iOffset` locates
`tileIn`, `currDimIndex` is `groupIndex.y % numGroupsY`. -/
def var1_load (tw : TwiddleMul Tbl T) (dir twl : Int) (ttd : TransTileDir)
    (twiddles_large : Option Tbl) (pmComplexIn : Nat → T)
    (iOffset rowSizeinUnits currDimIndex : Nat) (w : Worker) (t : Nat) (s : State T) :
    State T :=
  let reShapeFactor := 4
  let wgUnroll := 16
  let wgTileExtent_x := w.hipBlockDim_x * reShapeFactor
  let wgTileExtent_y := w.hipBlockDim_y / reShapeFactor
  let xInd := w.hipThreadIdx_x + w.hipBlockDim_x * (w.hipThreadIdx_y % wgTileExtent_y)
  let yInd := w.hipThreadIdx_y / wgTileExtent_y + t * wgTileExtent_y
  let gInd := xInd + rowSizeinUnits * yInd
  let tmp := pmComplexIn (iOffset + gInd)
  let tmp :=
    if ttd = TransTileDir.TTD_IP_HOR then
      var1_twiddle tw twiddles_large twl dir
        ((w.hipBlockIdx_x * wgTileExtent_x + xInd) *
          (currDimIndex * wgTileExtent_y * wgUnroll + yInd)) tmp
    else
      var1_twiddle tw twiddles_large twl dir
        ((w.hipBlockIdx_x * wgTileExtent_y * wgUnroll + yInd) *
          (currDimIndex * wgTileExtent_x + xInd)) tmp
  { s with
    shared := write2 s.shared xInd yInd tmp
    loads := s.loads ++ [⟨w, t, iOffset + gInd⟩]
    staged := s.staged ++ [(xInd, yInd)] }

/-- Body of the write-back loop of `transpose_var1` for worker `w` in pass `t`; `oOffset`
locates `tileOut`. -/
def var1_store (oOffset rowSizeinUnits : Nat) (w : Worker) (t : Nat) (s : State T) : State T :=
  let reShapeFactor := 4
  let wgUnroll := 16
  let wgTileExtent_x := w.hipBlockDim_x * reShapeFactor
  let wgTileExtent_y := w.hipBlockDim_y / reShapeFactor
  let transposeRatio := wgTileExtent_x / (wgTileExtent_y * wgUnroll)
  let groupingPerY := wgUnroll / wgTileExtent_y
  let xInd := w.hipThreadIdx_x + w.hipBlockDim_x * (w.hipThreadIdx_y % groupingPerY)
  let yInd := w.hipThreadIdx_y / groupingPerY + t * (wgTileExtent_y * transposeRatio)
  let tmp := s.shared yInd xInd
  let gInd := xInd + rowSizeinUnits * yInd
  { s with
    output := write s.output (oOffset + gInd) tmp
    stores := s.stores ++ [(⟨w, t, oOffset + gInd⟩, tmp)]
    staged := s.staged ++ [(yInd, xInd)] }

/-- Offset `iOffset` of `tileIn` in `transpose_var1`. -/
def var1_iOffset (ttd : TransTileDir) (numGroupsY stride_i dist_i blkX blkY dimX dimY : Nat) :
    Nat :=
  let reShapeFactor := 4
  let wgUnroll := 16
  let wgTileExtent_x := dimX * reShapeFactor
  let wgTileExtent_y := dimY / reShapeFactor
  let currDimIndex := blkY % numGroupsY
  let rowSizeinUnits := stride_i
  if ttd = TransTileDir.TTD_IP_HOR then
    blkY / numGroupsY * dist_i + rowSizeinUnits * wgTileExtent_y * wgUnroll * currDimIndex +
      blkX * wgTileExtent_x
  else
    blkY / numGroupsY * dist_i + rowSizeinUnits * wgTileExtent_y * wgUnroll * blkX +
      currDimIndex * wgTileExtent_x

/-- Offset `oOffset` of `tileOut` in `transpose_var1`. -/
def var1_oOffset (ttd : TransTileDir) (numGroupsY stride_o dist_o blkX blkY dimX dimY : Nat) :
    Nat :=
  let reShapeFactor := 4
  let wgUnroll := 16
  let wgTileExtent_x := dimX * reShapeFactor
  let wgTileExtent_y := dimY / reShapeFactor
  let currDimIndex := blkY % numGroupsY
  let rowSizeinUnits := stride_o
  if ttd = TransTileDir.TTD_IP_HOR then
    blkY / numGroupsY * dist_o + rowSizeinUnits * wgTileExtent_x * blkX +
      currDimIndex * wgTileExtent_y * wgUnroll
  else
    blkY / numGroupsY * dist_o + rowSizeinUnits * wgTileExtent_x * currDimIndex +
      blkX * wgTileExtent_y * wgUnroll

/-- `transpose_var1<T, dir, twl, ttd>` run by work-group `(blkX, blkY)` of `dimX` by `dimY`
workers. -/
def transpose_var1 (tw : TwiddleMul Tbl T) (dir twl : Int) (ttd : TransTileDir)
    (twiddles_large : Option Tbl) (pmComplexIn : Nat → T)
    (numGroupsY stride_i stride_o dist_i dist_o : Nat) (blkX blkY dimX dimY : Nat)
    (s : State T) : State T :=
  let wgUnroll := 16
  let iOffset := var1_iOffset ttd numGroupsY stride_i dist_i blkX blkY dimX dimY
  let s1 := (workers blkX blkY 0 dimX dimY).foldl (fun s w =>
    forLoop (var1_load tw dir twl ttd twiddles_large pmComplexIn iOffset stride_i
      (blkY % numGroupsY) w) wgUnroll 1 wgUnroll 0 s) s
  let oOffset := var1_oOffset ttd numGroupsY stride_o dist_o blkX blkY dimX dimY
  (workers blkX blkY 0 dimX dimY).foldl (fun s w =>
    forLoop (var1_store oOffset stride_o w) wgUnroll 1 wgUnroll 0 s) s1

/-- The work-groups `blocks` of `transpose_var1`, run one after the other. -/
def transpose_var1_run (tw : TwiddleMul Tbl T) (dir twl : Int) (ttd : TransTileDir)
    (twiddles_large : Option Tbl) (pmComplexIn : Nat → T)
    (numGroupsY stride_i stride_o dist_i dist_o : Nat) (blocks : List (Nat × Nat × Nat))
    (dimX dimY : Nat) (s : State T) : State T :=
  blocks.foldl (fun s b =>
    transpose_var1 tw dir twl ttd twiddles_large pmComplexIn numGroupsY stride_i stride_o
      dist_i dist_o b.1 b.2.1 dimX dimY s) s

/-- A launch of `transpose_var1` on a `gridX` by `gridY` grid. -/
def transpose_var1_launch (tw : TwiddleMul Tbl T) (dir twl : Int) (ttd : TransTileDir)
    (twiddles_large : Option Tbl) (pmComplexIn : Nat → T)
    (numGroupsY stride_i stride_o dist_i dist_o : Nat) (gridX gridY dimX dimY : Nat)
    (s : State T) : State T :=
  transpose_var1_run tw dir twl ttd twiddles_large pmComplexIn numGroupsY stride_i stride_o
    dist_i dist_o (grid gridX gridY [0]) dimX dimY s

/-- Specification side of Scheme C: the destination address of element `(a, b)` of the tile
of work-group `(gx, gy)`, with `q = gy / numGroupsY` and `k = gy % numGroupsY`:
`q * dist_o + (64 * gx + a) * stride_o + 64 * k + b` for `TTD_IP_HOR`, and
`q * dist_o + (64 * k + a) * stride_o + 64 * gx + b` otherwise. -/
def spec_var1_dest (ttd : TransTileDir) (numGroupsY stride_o dist_o gx gy a b : Nat) : Nat :=
  if ttd = TransTileDir.TTD_IP_HOR then
    gy / numGroupsY * dist_o + (64 * gx + a) * stride_o + 64 * (gy % numGroupsY) + b
  else
    gy / numGroupsY * dist_o + (64 * (gy % numGroupsY) + a) * stride_o + 64 * gx + b

/-- Specification side of Scheme C: the source address whose element lands at
`spec_var1_dest`: `q * dist_i + (64 * k + b) * stride_i + 64 * gx + a` for `TTD_IP_HOR`, and
`q * dist_i + (64 * gx + b) * stride_i + 64 * k + a` otherwise. -/
def spec_var1_src (ttd : TransTileDir) (numGroupsY stride_i dist_i gx gy a b : Nat) : Nat :=
  if ttd = TransTileDir.TTD_IP_HOR then
    gy / numGroupsY * dist_i + (64 * (gy % numGroupsY) + b) * stride_i + 64 * gx + a
  else
    gy / numGroupsY * dist_i + (64 * gx + b) * stride_i + 64 * (gy % numGroupsY) + a

end Kernels

/-! ## Scheme A with a scheme selector: `transpose_kernel2_scheme` -/

section Scheme

variable {T Tbl : Type}

/-- Effective row count `m = scheme == 1 ? lengths[2] : lengths[1] * lengths[2]` of
`transpose_kernel2_scheme`. -/
def scheme_m (scheme : Int) (lengths : Nat → Nat) : Nat :=
  if scheme = 1 then lengths 2 else lengths 1 * lengths 2

/-- Effective column count `n = scheme == 1 ? lengths[0] * lengths[1] : lengths[0]` of
`transpose_kernel2_scheme`. -/
def scheme_n (scheme : Int) (lengths : Nat → Nat) : Nat :=
  if scheme = 1 then lengths 0 * lengths 1 else lengths 0

/-- Source leading dimension `ld_in = scheme == 1 ? stride_in[2] : stride_in[1]`. -/
def scheme_ld_in (scheme : Int) (stride_in : Nat → Nat) : Nat :=
  if scheme = 1 then stride_in 2 else stride_in 1

/-- Destination leading dimension `ld_out = scheme == 1 ? stride_out[1] : stride_out[2]`. -/
def scheme_ld_out (scheme : Int) (stride_out : Nat → Nat) : Nat :=
  if scheme = 1 then stride_out 1 else stride_out 2

/-- Source offset `iOffset` the resolver of `transpose_kernel2_scheme` yields for batch index
`z`: the loops start at dimension 3. -/
def scheme_iOffset (dim : Nat) (lengths stride_in stride_out : Nat → Nat) (z : Nat) : Nat :=
  (batchOffsets id 3 dim lengths stride_in stride_out z).1

/-- Destination offset `oOffset` the resolver of `transpose_kernel2_scheme` yields for batch
index `z`. -/
def scheme_oOffset (dim : Nat) (lengths stride_in stride_out : Nat → Nat) (z : Nat) : Nat :=
  (batchOffsets id 3 dim lengths stride_in stride_out z).2

/-- `transpose_kernel2_scheme<T, DIM_X, DIM_Y>` run by work-group `(blkX, blkY, blkZ)` of
`dimX * dimY` workers.  The tile transfer primitive is called with `twl = 0`, `dir = 0` and
the table pointer as it is. -/
def transpose_kernel2_scheme (tw : TwiddleMul Tbl T) (DIM_X DIM_Y : Nat) (input : Nat → T)
    (twiddles_large : Option Tbl) (dim : Nat) (lengths stride_in stride_out : Nat → Nat)
    (scheme : Int) (blkX blkY blkZ dimX dimY : Nat) (s : State T) : State T :=
  let m := scheme_m scheme lengths
  let n := scheme_n scheme lengths
  let ld_in := scheme_ld_in scheme stride_in
  let ld_out := scheme_ld_out scheme stride_out
  let off := batchOffsets id 3 dim lengths stride_in stride_out blkZ
  let inp := blkX * DIM_X + blkY * DIM_X * ld_in + off.1
  let outp := blkX * DIM_X * ld_out + blkY * DIM_X + off.2
  let mm := min (m - blkY * DIM_X) DIM_X
  let nn := min (n - blkX * DIM_X) DIM_X
  transpose_tile_device tw DIM_X DIM_Y input inp outp mm nn (blkX * DIM_X) (blkY * DIM_X)
    ld_in ld_out twiddles_large 0 0 (workers blkX blkY blkZ dimX dimY) s

end Scheme

/-- Specification side of the resolver started at dimension `base`: the weight
`∏ lengths[k]`, `base ≤ k < j`, of batch coordinate `j`. -/
def spec_radix_from (base : Nat) (lengths : Nat → Nat) (j : Nat) : Nat :=
  ∏ k ∈ Finset.Ico base j, lengths k

/-- Specification side of the resolver started at dimension `base`: the flat index
`∑ c_j * ∏ lengths[k]` of the batch coordinate `c_base .. c_dim`. -/
def spec_flatIndex_from (base : Nat) (lengths c : Nat → Nat) (dim : Nat) : Nat :=
  ∑ j ∈ Finset.Icc base dim, c j * spec_radix_from base lengths j

/-- Specification side of the resolver started at dimension `base`: the linear offset
`∑ c_j * stride[j]` of the batch coordinate `c_base .. c_dim`. -/
def spec_offset_from (base : Nat) (stride c : Nat → Nat) (dim : Nat) : Nat :=
  ∑ j ∈ Finset.Icc base dim, c j * stride j

/-! ## The resolver over arrays of known extent -/

/-- The read `a[i]` of an array that holds exactly the entries of `a`: an index past the end
is reported instead of a value. -/
def readAt (a : List Nat) (i : Nat) : Except Nat Nat :=
  match a[i]? with
  | some v => Except.ok v
  | none => Except.error i

/-- The inner loop `for (j = base; j < i; j++) currentLength *= lengths[j]` with every read
of `lengths` checked. -/
def currentLength_checked (base : Nat) (lengths : List Nat) (i : Nat) : Except Nat Nat :=
  forLoop (fun j cl => cl.bind fun c => (readAt lengths j).map fun l => c * l) i 1 i base
    (Except.ok 1)

/-- The outer loop of the resolver with every read of `lengths`, `stride_in` and `stride_out`
checked, in the order of the source: the inner loop, then `stride_in[i]`, then
`stride_out[i]`. -/
def batchLoop_checked (wrap : Nat → Nat) (base : Nat) (lengths stride_in stride_out : List Nat) :
    Nat → Nat × Nat × Nat → Except Nat (Nat × Nat × Nat)
  | 0, st => Except.ok st
  | cnt + 1, (counter_mod, iOffset, oOffset) =>
    let i := base + cnt + 1
    (currentLength_checked base lengths i).bind fun cl =>
    (readAt stride_in i).bind fun si =>
    (readAt stride_out i).bind fun so =>
    batchLoop_checked wrap base lengths stride_in stride_out cnt
      (counter_mod % cl,
       wrap (iOffset + counter_mod / cl * si),
       wrap (oOffset + counter_mod / cl * so))

/-- The batch-offset resolver with every array read checked: the loop, then
`stride_in[base]` and `stride_out[base]`.  The result is the pair of offsets, or the first
index read out of range. -/
def batchOffsets_checked (wrap : Nat → Nat) (base dim : Nat)
    (lengths stride_in stride_out : List Nat) (counter : Nat) : Except Nat (Nat × Nat) :=
  (batchLoop_checked wrap base lengths stride_in stride_out (dim - base) (counter, 0, 0)).bind
    fun st =>
    (readAt stride_in base).bind fun si =>
    (readAt stride_out base).bind fun so =>
    Except.ok (wrap (st.2.1 + st.1 * si), wrap (st.2.2 + st.1 * so))

/-- The resolver of `transpose_kernel2` over arrays of known extent. -/
def kernel2_offsets_checked (dim : Nat) (lengths stride_in stride_out : List Nat) (z : Nat) :
    Except Nat (Nat × Nat) :=
  batchOffsets_checked id 2 dim lengths stride_in stride_out z

/-- The resolver of `transpose_kernel_outplace` over arrays of known extent. -/
def outplace_offsets_checked (dim : Nat) (lengths stride_in stride_out : List Nat) (b : Nat) :
    Except Nat (Nat × Nat) :=
  batchOffsets_checked (fun x => x % 2 ^ 32) 2 dim lengths stride_in stride_out b

/-- Source offset of the resolver of `transpose_kernel2` with its `size_t` accumulators
reduced modulo `2^64`. -/
def kernel2_iOffset64 (dim : Nat) (lengths stride_in stride_out : Nat → Nat) (z : Nat) : Nat :=
  (batchOffsets (fun x => x % 2 ^ 64) 2 dim lengths stride_in stride_out z).1

/-- Destination offset of the resolver of `transpose_kernel2` with its `size_t` accumulators
reduced modulo `2^64`. -/
def kernel2_oOffset64 (dim : Nat) (lengths stride_in stride_out : Nat → Nat) (z : Nat) : Nat :=
  (batchOffsets (fun x => x % 2 ^ 64) 2 dim lengths stride_in stride_out z).2

/-! ## Reshape coordinates of Schemes B and C -/

/-- The constant `reshape_factor = macro_tile_col_size / block_dim_0` of
`transpose_kernel_outplace`. -/
def outplace_reshape_factor (micro_tile_col_size wg_col_size block_dim_0 : Nat) : Nat :=
  micro_tile_col_size * wg_col_size / block_dim_0

/-- The constant `unroll_factor = macro_tile_row_size / (block_dim_1 / reshape_factor)` of
`transpose_kernel_outplace`. -/
def outplace_unroll_factor (micro_tile_col_size micro_tile_row_size wg_col_size wg_row_size
    block_dim_0 block_dim_1 : Nat) : Nat :=
  micro_tile_row_size * wg_row_size /
    (block_dim_1 / outplace_reshape_factor micro_tile_col_size wg_col_size block_dim_0)

/-- The pair `(subblock_idx_0, subblock_idx_1)` of worker `w` in pass `i` of either loop of
`transpose_kernel_outplace`. -/
def outplace_subblock (reshape_factor : Nat) (w : Worker) (i : Nat) : Nat × Nat :=
  (w.hipThreadIdx_x + (w.hipThreadIdx_y % reshape_factor) * w.hipBlockDim_x,
    w.hipThreadIdx_y / reshape_factor + i * (w.hipBlockDim_y / reshape_factor))

/-- The constant `groupingPerY = wgUnroll / wgTileExtent.y` of `transpose_var1`. -/
def var1_groupingPerY (localExtent_y : Nat) : Nat := 16 / (localExtent_y / 4)

/-- The constant `transposeRatio = wgTileExtent.x / (wgTileExtent.y * wgUnroll)` of
`transpose_var1`. -/
def var1_transposeRatio (localExtent_x localExtent_y : Nat) : Nat :=
  localExtent_x * 4 / (localExtent_y / 4 * 16)

/-- The pair `(xInd, yInd)` worker `w` computes in pass `t` of the load loop of
`transpose_var1`. -/
def var1_load_ind (w : Worker) (t : Nat) : Nat × Nat :=
  let reShapeFactor := 4
  let wgTileExtent_y := w.hipBlockDim_y / reShapeFactor
  (w.hipThreadIdx_x + w.hipBlockDim_x * (w.hipThreadIdx_y % wgTileExtent_y),
    w.hipThreadIdx_y / wgTileExtent_y + t * wgTileExtent_y)

/-- The pair `(xInd, yInd)` worker `w` computes in pass `t` of the write-back loop of
`transpose_var1`. -/
def var1_store_ind (w : Worker) (t : Nat) : Nat × Nat :=
  let reShapeFactor := 4
  let wgTileExtent_y := w.hipBlockDim_y / reShapeFactor
  let transposeRatio := var1_transposeRatio w.hipBlockDim_x w.hipBlockDim_y
  let groupingPerY := var1_groupingPerY w.hipBlockDim_y
  (w.hipThreadIdx_x + w.hipBlockDim_x * (w.hipThreadIdx_y % groupingPerY),
    w.hipThreadIdx_y / groupingPerY + t * (wgTileExtent_y * transposeRatio))

/-- The value `transpose_var1` stages in `lds[x][y]` for work-group column `gx` and
`currDimIndex = cdi`, on a 16 by 16 work-group (`wgTileExtent = (64, 4)`): the source element
passed through the twiddle dispatch at the index of the source. -/
def var1_value {T Tbl : Type} (tw : TwiddleMul Tbl T) (dir twl : Int) (ttd : TransTileDir)
    (twiddles_large : Option Tbl) (pmComplexIn : Nat → T) (iOffset rowSizeinUnits gx cdi : Nat)
    (x y : Nat) : T :=
  if ttd = TransTileDir.TTD_IP_HOR then
    var1_twiddle tw twiddles_large twl dir ((gx * (16 * 4) + x) * (cdi * (16 / 4) * 16 + y))
      (pmComplexIn (iOffset + (x + rowSizeinUnits * y)))
  else
    var1_twiddle tw twiddles_large twl dir ((gx * (16 / 4) * 16 + y) * (cdi * (16 * 4) + x))
      (pmComplexIn (iOffset + (x + rowSizeinUnits * y)))

/-! ## Concrete data for evaluation -/

/-- An array given by its leading entries; entries past the end read as `0`. -/
def arr (l : List Nat) : Nat → Nat := fun j => l.getD j 0

/-- A row-major buffer holding the given matrix rows back to back. -/
def matrixBuf (rows : List (List Int)) : Nat → Int := fun k => rows.flatten.getD k 0

/-- The `rows` by `cols` matrix stored row-major with leading dimension `ld` in `buf`. -/
def readMatrix {T : Type} (buf : Nat → T) (rows cols ld : Nat) : List (List T) :=
  (List.range rows).map fun i => (List.range cols).map fun j => buf (i * ld + j)

/-- A sample twiddle multiplier on integers. -/
def twEx : TwiddleMul Unit Int :=
  ⟨fun k _ idx v => v * (2 * (k : Int) + idx) + 1, fun k _ idx v => v * (2 * (k : Int) + idx) - 1⟩

/-- A sample source buffer with pairwise distinct entries. -/
def inEx : Nat → Int := fun k => 3 * (k : Int) + 7

/-- A second source buffer: it agrees with `inEx` on the first six elements only. -/
def inEx2 : Nat → Int := fun k => if k < 6 then inEx k else 0

/-- A sample initial state: cleared staging buffer and destination, empty access record. -/
def stEx : State Int := ⟨fun _ _ => 0, fun _ => 0, [], [], []⟩

/-- A twiddle multiplier that returns the table index it is given. -/
def twIdx : TwiddleMul Unit Int := ⟨fun _ _ idx _ => (idx : Int), fun _ _ idx _ => (idx : Int)⟩

/-! ## Loops and folds -/

theorem forLoop_eq_foldl {σ : Type} (body : Nat → σ → σ) (bound step : Nat) :
    ∀ (fuel i : Nat) (s : σ),
      forLoop body bound step fuel i s =
        (loopIdx bound step fuel i).foldl (fun s i => body i s) s := by
  intro fuel
  induction fuel with
  | zero => intro i s; rfl
  | succ fuel ih =>
    intro i s
    by_cases h : i < bound
    · simp [forLoop, loopIdx, h, ih]
    · simp [forLoop, loopIdx, h]

theorem mem_loopIdx (bound step : Nat) :
    ∀ (fuel i j : Nat),
      j ∈ loopIdx bound step fuel i ↔ ∃ k, k < fuel ∧ j = i + k * step ∧ j < bound := by
  intro fuel
  induction fuel with
  | zero => intro i j; simp [loopIdx]
  | succ fuel ih =>
    intro i j
    by_cases h : i < bound
    · simp only [loopIdx, h, if_true, List.mem_cons, ih]
      constructor
      · rintro (rfl | ⟨k, hk, rfl, hj⟩)
        · exact ⟨0, by omega, by simp, h⟩
        · exact ⟨k + 1, by omega, by rw [Nat.succ_mul]; omega, hj⟩
      · rintro ⟨k, hk, rfl, hj⟩
        cases k with
        | zero => left; simp
        | succ k =>
          right
          refine ⟨k, by omega, by rw [Nat.succ_mul]; omega, hj⟩
    · simp only [loopIdx, h, if_false, List.not_mem_nil, false_iff]
      rintro ⟨k, _, rfl, hj⟩
      have : i ≤ i + k * step := Nat.le_add_right _ _
      omega

/-- The passes of `for (i = 0; i < bound; i += step)`: the multiples of `step` below `bound`. -/
theorem mem_passes {bound step : Nat} (hstep : 0 < step) (j : Nat) :
    j ∈ loopIdx bound step bound 0 ↔ j < bound ∧ step ∣ j := by
  rw [mem_loopIdx]
  constructor
  · rintro ⟨k, _, rfl, hj⟩
    exact ⟨hj, by simp⟩
  · rintro ⟨hj, k, rfl⟩
    refine ⟨k, ?_, by rw [Nat.mul_comm]; simp, hj⟩
    have : k * 1 ≤ k * step := Nat.mul_le_mul_left k hstep
    have : step * k = k * step := Nat.mul_comm _ _
    omega

theorem foldl_inv {σ α : Type} (step : σ → α → σ) (I : σ → Prop) :
    ∀ (l : List α), (∀ s a, a ∈ l → I s → I (step s a)) → ∀ s, I s → I (l.foldl step s) := by
  intro l
  induction l with
  | nil => intro _ s hs; exact hs
  | cons a l ih =>
    intro hI s hs
    exact ih (fun s b hb => hI s b (List.mem_cons_of_mem _ hb)) _
      (hI s a (List.mem_cons_self _ _) hs)

theorem foldl_frame {σ α V : Type} (step : σ → α → σ) (get : σ → V) (I : σ → Prop)
    (l : List α) (hI : ∀ s a, a ∈ l → I s → I (step s a))
    (hF : ∀ s a, a ∈ l → I s → get (step s a) = get s) (s : σ) (hs : I s) :
    get (l.foldl step s) = get s :=
  (foldl_inv step (fun t => I t ∧ get t = get s) l
    (fun t a ha ht => ⟨hI t a ha ht.1, (hF t a ha ht.1).trans ht.2⟩) s ⟨hs, rfl⟩).2

theorem foldl_write {σ α V : Type} (step : σ → α → σ) (get : σ → V) (I : σ → Prop)
    (W : α → Prop) (v : V) :
    ∀ (l : List α), (∀ s a, a ∈ l → I s → I (step s a)) →
      (∀ s a, a ∈ l → I s → W a → get (step s a) = v) →
      (∀ s a, a ∈ l → I s → ¬ W a → get (step s a) = get s) →
      ∀ s, I s → ((∃ a ∈ l, W a) ∨ get s = v) → get (l.foldl step s) = v := by
  intro l
  induction l with
  | nil =>
    intro _ _ _ s _ h
    rcases h with ⟨a, ha, _⟩ | h
    · cases ha
    · exact h
  | cons a l ih =>
    intro hI hW hF s hs h
    refine ih (fun s b hb => hI s b (List.mem_cons_of_mem _ hb))
      (fun s b hb => hW s b (List.mem_cons_of_mem _ hb))
      (fun s b hb => hF s b (List.mem_cons_of_mem _ hb)) _
      (hI s a (List.mem_cons_self _ _) hs) ?_
    by_cases hwa : W a
    · exact Or.inr (hW s a (List.mem_cons_self _ _) hs hwa)
    · rcases h with ⟨b, hb, hwb⟩ | h
      · rcases List.mem_cons.1 hb with rfl | hb
        · exact absurd hwb hwa
        · exact Or.inl ⟨b, hb, hwb⟩
      · exact Or.inr ((hF s a (List.mem_cons_self _ _) hs hwa).trans h)

theorem foldl_log {σ α E : Type} (step : σ → α → σ) (log : σ → List E) (I : σ → Prop)
    (e : α → List E) :
    ∀ (l : List α), (∀ s a, a ∈ l → I s → I (step s a)) →
      (∀ s a, a ∈ l → I s → log (step s a) = log s ++ e a) →
      ∀ s, I s → log (l.foldl step s) = log s ++ l.flatMap e := by
  intro l
  induction l with
  | nil => intro _ _ s _; simp
  | cons a l ih =>
    intro hI hL s hs
    rw [List.foldl_cons, ih (fun s b hb => hI s b (List.mem_cons_of_mem _ hb))
      (fun s b hb => hL s b (List.mem_cons_of_mem _ hb)) _
      (hI s a (List.mem_cons_self _ _) hs), hL s a (List.mem_cons_self _ _) hs]
    simp [List.append_assoc]

theorem nodup_flatMap_of {α β : Type} (L : List α) (f : α → List β) (hL : L.Nodup)
    (h1 : ∀ a ∈ L, (f a).Nodup)
    (h2 : ∀ a ∈ L, ∀ a' ∈ L, ∀ x, x ∈ f a → x ∈ f a' → a = a') : (L.flatMap f).Nodup := by
  rw [List.nodup_flatMap]
  refine ⟨h1, List.Nodup.pairwise_of_forall_ne hL ?_⟩
  intro a ha b hb hne x hx hx'
  exact hne (h2 a ha b hb x hx hx')

theorem loopIdx_nodup (bound step : Nat) (hstep : 0 < step) :
    ∀ (fuel i : Nat), (loopIdx bound step fuel i).Nodup := by
  intro fuel
  induction fuel with
  | zero => intro i; simp [loopIdx]
  | succ fuel ih =>
    intro i
    by_cases h : i < bound
    · simp only [loopIdx, h, if_true, List.nodup_cons]
      refine ⟨?_, ih _⟩
      rw [mem_loopIdx]
      rintro ⟨k, _, hk, _⟩
      have : 0 ≤ k * step := Nat.zero_le _
      omega
    · simp [loopIdx, h]

theorem microsteps_nodup (ws : List Worker) (ps : List Nat) (hws : ws.Nodup) (hps : ps.Nodup) :
    (microsteps ws ps).Nodup := by
  unfold microsteps
  apply nodup_flatMap_of _ _ hws
  · intro w _
    exact hps.map (fun i j h => (Prod.mk.inj h).2)
  · intro w _ w' _ x hx hx'
    rw [List.mem_map] at hx hx'
    obtain ⟨i, _, rfl⟩ := hx
    obtain ⟨j, _, h⟩ := hx'
    exact ((Prod.mk.inj h).1).symm

theorem workers_nodup (blkX blkY blkZ dimX dimY : Nat) :
    (workers blkX blkY blkZ dimX dimY).Nodup := by
  unfold workers
  apply nodup_flatMap_of _ _ (List.nodup_range _)
  · intro ty _
    refine (List.nodup_range _).map ?_
    intro a b h
    exact congrArg Worker.hipThreadIdx_x h
  · intro ty _ ty' _ x hx hx'
    rw [List.mem_map] at hx hx'
    obtain ⟨a, _, rfl⟩ := hx
    obtain ⟨b, _, h⟩ := hx'
    exact (congrArg Worker.hipThreadIdx_y h).symm

theorem grid_nodup (gridX gridY : Nat) (zs : List Nat) (hzs : zs.Nodup) :
    (grid gridX gridY zs).Nodup := by
  unfold grid
  apply nodup_flatMap_of _ _ hzs
  · intro z _
    apply nodup_flatMap_of _ _ (List.nodup_range _)
    · intro y _
      refine (List.nodup_range _).map ?_
      intro a b h
      exact (Prod.mk.inj h).1
    · intro y _ y' _ x hx hx'
      rw [List.mem_map] at hx hx'
      obtain ⟨a, _, rfl⟩ := hx
      obtain ⟨b, _, h⟩ := hx'
      exact ((Prod.mk.inj (Prod.mk.inj h).2).1).symm
  · intro z _ z' _ x hx hx'
    simp only [List.mem_flatMap, List.mem_map] at hx hx'
    obtain ⟨y, _, a, _, rfl⟩ := hx
    obtain ⟨y', _, a', _, h⟩ := hx'
    exact ((Prod.mk.inj (Prod.mk.inj h).2).2).symm

/-! ## The tile transfer primitive, phase by phase -/

section TileLemmas

variable {T Tbl : Type}

theorem mem_microsteps (ws : List Worker) (ps : List Nat) (p : Worker × Nat) :
    p ∈ microsteps ws ps ↔ p.1 ∈ ws ∧ p.2 ∈ ps := by
  obtain ⟨w, i⟩ := p
  simp only [microsteps, List.mem_flatMap, List.mem_map, Prod.mk.injEq]
  constructor
  · rintro ⟨a, ha, b, hb, rfl, rfl⟩
    exact ⟨ha, hb⟩
  · rintro ⟨ha, hb⟩
    exact ⟨w, ha, i, hb, rfl, rfl⟩

theorem foldl_microsteps {σ : Type} (body : Worker → Nat → σ → σ) (ps : List Nat) :
    ∀ (ws : List Worker) (s : σ),
      ws.foldl (fun s w => ps.foldl (fun s i => body w i s) s) s =
        (microsteps ws ps).foldl (fun s p => body p.1 p.2 s) s := by
  intro ws
  induction ws with
  | nil => intro s; rfl
  | cons w ws ih =>
    intro s
    simp only [microsteps, List.flatMap_cons, List.foldl_cons, List.foldl_append,
      List.foldl_map] at ih ⊢
    exact ih _

theorem tile_load_phase_eq (tw : TwiddleMul Tbl T) (DIM_X DIM_Y : Nat) (input : Nat → T)
    (inp m n gx gy ld_in : Nat) (tl : Option Tbl) (twl dir : Int)
    (ws : List Worker) (s : State T) :
    tile_load_phase tw DIM_X DIM_Y input inp m n gx gy ld_in tl twl dir ws s =
      (microsteps ws (loopIdx m DIM_Y m 0)).foldl
        (fun s p => tile_load tw DIM_X input inp m n gx gy ld_in tl twl dir p.1 p.2 s) s := by
  unfold tile_load_phase
  simp only [forLoop_eq_foldl]
  exact foldl_microsteps _ _ ws s

theorem tile_store_phase_eq (DIM_X DIM_Y outp m n ld_out : Nat) (ws : List Worker)
    (s : State T) :
    tile_store_phase DIM_X DIM_Y outp m n ld_out ws s =
      (microsteps ws (loopIdx n DIM_Y n 0)).foldl
        (fun s p => tile_store DIM_X outp m n ld_out p.1 p.2 s) s := by
  unfold tile_store_phase
  simp only [forLoop_eq_foldl]
  exact foldl_microsteps _ _ ws s

/-! ### One pass of the load loop -/

theorem tile_load_output (tw : TwiddleMul Tbl T) (DIM_X : Nat) (input : Nat → T)
    (inp m n gx gy ld_in : Nat) (tl : Option Tbl) (twl dir : Int) (w : Worker) (i : Nat)
    (s : State T) :
    (tile_load tw DIM_X input inp m n gx gy ld_in tl twl dir w i s).output = s.output := by
  unfold tile_load
  dsimp only
  split <;> rfl

theorem tile_load_stores (tw : TwiddleMul Tbl T) (DIM_X : Nat) (input : Nat → T)
    (inp m n gx gy ld_in : Nat) (tl : Option Tbl) (twl dir : Int) (w : Worker) (i : Nat)
    (s : State T) :
    (tile_load tw DIM_X input inp m n gx gy ld_in tl twl dir w i s).stores = s.stores := by
  unfold tile_load
  dsimp only
  split <;> rfl

theorem tile_load_loads (tw : TwiddleMul Tbl T) (DIM_X : Nat) (input : Nat → T)
    (inp m n gx gy ld_in : Nat) (tl : Option Tbl) (twl dir : Int) (w : Worker) (i : Nat)
    (s : State T) :
    (tile_load tw DIM_X input inp m n gx gy ld_in tl twl dir w i s).loads =
      s.loads ++ tile_load_ev DIM_X inp m n ld_in (w, i) := by
  unfold tile_load tile_load_ev tile_load_guard
  dsimp only
  split <;> simp

theorem tile_load_staged (tw : TwiddleMul Tbl T) (DIM_X : Nat) (input : Nat → T)
    (inp m n gx gy ld_in : Nat) (tl : Option Tbl) (twl dir : Int) (w : Worker) (i : Nat)
    (s : State T) :
    (tile_load tw DIM_X input inp m n gx gy ld_in tl twl dir w i s).staged =
      s.staged ++ (if tile_load_guard DIM_X m n (w, i)
        then [(w.tx1 DIM_X, w.ty1 DIM_X + i)] else []) := by
  unfold tile_load tile_load_guard
  dsimp only
  split <;> simp

theorem tile_load_shared_hit (tw : TwiddleMul Tbl T) (DIM_X : Nat) (input : Nat → T)
    (inp m n gx gy ld_in : Nat) (tl : Option Tbl) (twl dir : Int) (w : Worker) (i : Nat)
    (s : State T) (h : tile_load_guard DIM_X m n (w, i)) :
    (tile_load tw DIM_X input inp m n gx gy ld_in tl twl dir w i s).shared
        (w.tx1 DIM_X) (w.ty1 DIM_X + i) =
      tile_value tw input inp gx gy ld_in tl twl dir (w.tx1 DIM_X) (w.ty1 DIM_X + i) := by
  unfold tile_load_guard at h
  unfold tile_load tile_value
  dsimp only at h ⊢
  rw [if_pos h]
  simp [write2, Nat.add_assoc]

theorem tile_load_shared_miss (tw : TwiddleMul Tbl T) (DIM_X : Nat) (input : Nat → T)
    (inp m n gx gy ld_in : Nat) (tl : Option Tbl) (twl dir : Int) (w : Worker) (i : Nat)
    (s : State T) (x y : Nat)
    (h : ¬ (tile_load_guard DIM_X m n (w, i) ∧ w.tx1 DIM_X = x ∧ w.ty1 DIM_X + i = y)) :
    (tile_load tw DIM_X input inp m n gx gy ld_in tl twl dir w i s).shared x y =
      s.shared x y := by
  unfold tile_load_guard at h
  unfold tile_load
  dsimp only at h ⊢
  split
  · rename_i hg
    have hne : ¬ (x = w.tx1 DIM_X ∧ y = w.ty1 DIM_X + i) := by
      rintro ⟨rfl, rfl⟩
      exact h ⟨hg, rfl, rfl⟩
    simp [write2, hne]
  · rfl

/-! ### One pass of the write-back loop -/

theorem tile_store_shared (DIM_X outp m n ld_out : Nat) (w : Worker) (i : Nat) (s : State T) :
    (tile_store DIM_X outp m n ld_out w i s).shared = s.shared := by
  unfold tile_store
  dsimp only
  split <;> rfl

theorem tile_store_loads (DIM_X outp m n ld_out : Nat) (w : Worker) (i : Nat) (s : State T) :
    (tile_store DIM_X outp m n ld_out w i s).loads = s.loads := by
  unfold tile_store
  dsimp only
  split <;> rfl

theorem tile_store_stores (DIM_X outp m n ld_out : Nat) (w : Worker) (i : Nat) (s : State T) :
    (tile_store DIM_X outp m n ld_out w i s).stores =
      s.stores ++ tile_store_ev s.shared DIM_X outp m n ld_out (w, i) := by
  unfold tile_store tile_store_ev tile_store_guard
  dsimp only
  split <;> simp

theorem tile_store_staged (DIM_X outp m n ld_out : Nat) (w : Worker) (i : Nat) (s : State T) :
    (tile_store DIM_X outp m n ld_out w i s).staged =
      s.staged ++ (if tile_store_guard DIM_X m n (w, i)
        then [(w.ty1 DIM_X + i, w.tx1 DIM_X)] else []) := by
  unfold tile_store tile_store_guard
  dsimp only
  split <;> simp

theorem tile_store_output_hit (DIM_X outp m n ld_out : Nat) (w : Worker) (i : Nat)
    (s : State T) (h : tile_store_guard DIM_X m n (w, i)) :
    (tile_store DIM_X outp m n ld_out w i s).output
        (outp + (w.tx1 DIM_X + (i + w.ty1 DIM_X) * ld_out)) =
      s.shared (w.ty1 DIM_X + i) (w.tx1 DIM_X) := by
  unfold tile_store_guard at h
  unfold tile_store
  dsimp only at h ⊢
  rw [if_pos h]
  simp [write]

theorem tile_store_output_miss (DIM_X outp m n ld_out : Nat) (w : Worker) (i : Nat)
    (s : State T) (k : Nat)
    (h : ¬ (tile_store_guard DIM_X m n (w, i) ∧
      outp + (w.tx1 DIM_X + (i + w.ty1 DIM_X) * ld_out) = k)) :
    (tile_store DIM_X outp m n ld_out w i s).output k = s.output k := by
  unfold tile_store_guard at h
  unfold tile_store
  dsimp only at h ⊢
  split
  · rename_i hg
    have hne : ¬ (k = outp + (w.tx1 DIM_X + (i + w.ty1 DIM_X) * ld_out)) := by
      rintro rfl
      exact h ⟨hg, rfl⟩
    simp [write, hne]
  · rfl

/-! ### The load phase -/

theorem load_phase_output (tw : TwiddleMul Tbl T) (DIM_X DIM_Y : Nat) (input : Nat → T)
    (inp m n gx gy ld_in : Nat) (tl : Option Tbl) (twl dir : Int)
    (ws : List Worker) (s : State T) :
    (tile_load_phase tw DIM_X DIM_Y input inp m n gx gy ld_in tl twl dir ws s).output =
      s.output := by
  rw [tile_load_phase_eq]
  exact foldl_frame _ (fun t => t.output) (fun _ => True) _ (fun _ _ _ _ => trivial)
    (fun t (p : Worker × Nat) _ _ => tile_load_output tw DIM_X input inp m n gx gy ld_in tl twl dir p.1 p.2 t)
    s trivial

theorem load_phase_stores (tw : TwiddleMul Tbl T) (DIM_X DIM_Y : Nat) (input : Nat → T)
    (inp m n gx gy ld_in : Nat) (tl : Option Tbl) (twl dir : Int)
    (ws : List Worker) (s : State T) :
    (tile_load_phase tw DIM_X DIM_Y input inp m n gx gy ld_in tl twl dir ws s).stores =
      s.stores := by
  rw [tile_load_phase_eq]
  exact foldl_frame _ (fun t => t.stores) (fun _ => True) _ (fun _ _ _ _ => trivial)
    (fun t (p : Worker × Nat) _ _ => tile_load_stores tw DIM_X input inp m n gx gy ld_in tl twl dir p.1 p.2 t)
    s trivial

theorem load_phase_loads (tw : TwiddleMul Tbl T) (DIM_X DIM_Y : Nat) (input : Nat → T)
    (inp m n gx gy ld_in : Nat) (tl : Option Tbl) (twl dir : Int)
    (ws : List Worker) (s : State T) :
    (tile_load_phase tw DIM_X DIM_Y input inp m n gx gy ld_in tl twl dir ws s).loads =
      s.loads ++ (microsteps ws (loopIdx m DIM_Y m 0)).flatMap
        (tile_load_ev DIM_X inp m n ld_in) := by
  rw [tile_load_phase_eq]
  exact foldl_log _ (fun t => t.loads) (fun _ => True) _ _ (fun _ _ _ _ => trivial)
    (fun t (p : Worker × Nat) _ _ => tile_load_loads tw DIM_X input inp m n gx gy ld_in tl twl dir p.1 p.2 t)
    s trivial

theorem load_phase_staged (tw : TwiddleMul Tbl T) (DIM_X DIM_Y : Nat) (input : Nat → T)
    (inp m n gx gy ld_in : Nat) (tl : Option Tbl) (twl dir : Int)
    (ws : List Worker) (s : State T) :
    (tile_load_phase tw DIM_X DIM_Y input inp m n gx gy ld_in tl twl dir ws s).staged =
      s.staged ++ (microsteps ws (loopIdx m DIM_Y m 0)).flatMap
        (fun p => if tile_load_guard DIM_X m n p
          then [(p.1.tx1 DIM_X, p.1.ty1 DIM_X + p.2)] else []) := by
  rw [tile_load_phase_eq]
  exact foldl_log _ (fun t => t.staged) (fun _ => True) _ _ (fun _ _ _ _ => trivial)
    (fun t (p : Worker × Nat) _ _ => tile_load_staged tw DIM_X input inp m n gx gy ld_in tl twl dir p.1 p.2 t)
    s trivial

/-- After the load phase, a staging cell targeted by some (worker, pass) pair that passes the
bounds check holds the source element of that coordinate, passed through the twiddle. -/
theorem load_phase_shared (tw : TwiddleMul Tbl T) (DIM_X DIM_Y : Nat) (input : Nat → T)
    (inp m n gx gy ld_in : Nat) (tl : Option Tbl) (twl dir : Int)
    (ws : List Worker) (s : State T) (x y : Nat)
    (h : ∃ p ∈ microsteps ws (loopIdx m DIM_Y m 0),
      tile_load_guard DIM_X m n p ∧ p.1.tx1 DIM_X = x ∧ p.1.ty1 DIM_X + p.2 = y) :
    (tile_load_phase tw DIM_X DIM_Y input inp m n gx gy ld_in tl twl dir ws s).shared x y =
      tile_value tw input inp gx gy ld_in tl twl dir x y := by
  rw [tile_load_phase_eq]
  refine foldl_write _ (fun t => t.shared x y) (fun _ => True)
    (fun p => tile_load_guard DIM_X m n p ∧ p.1.tx1 DIM_X = x ∧ p.1.ty1 DIM_X + p.2 = y)
    _ _ (fun _ _ _ _ => trivial) ?_ ?_ s trivial (Or.inl h)
  · rintro t ⟨w, i⟩ _ _ ⟨hg, rfl, rfl⟩
    exact tile_load_shared_hit tw DIM_X input inp m n gx gy ld_in tl twl dir w i t hg
  · rintro t ⟨w, i⟩ _ _ hn
    exact tile_load_shared_miss tw DIM_X input inp m n gx gy ld_in tl twl dir w i t x y hn

/-! ### The write-back phase -/

theorem store_phase_shared (DIM_X DIM_Y outp m n ld_out : Nat) (ws : List Worker)
    (s : State T) :
    (tile_store_phase DIM_X DIM_Y outp m n ld_out ws s).shared = s.shared := by
  rw [tile_store_phase_eq]
  exact foldl_frame _ (fun t => t.shared) (fun _ => True) _ (fun _ _ _ _ => trivial)
    (fun t (p : Worker × Nat) _ _ => tile_store_shared DIM_X outp m n ld_out p.1 p.2 t) s trivial

theorem store_phase_loads (DIM_X DIM_Y outp m n ld_out : Nat) (ws : List Worker)
    (s : State T) :
    (tile_store_phase DIM_X DIM_Y outp m n ld_out ws s).loads = s.loads := by
  rw [tile_store_phase_eq]
  exact foldl_frame _ (fun t => t.loads) (fun _ => True) _ (fun _ _ _ _ => trivial)
    (fun t (p : Worker × Nat) _ _ => tile_store_loads DIM_X outp m n ld_out p.1 p.2 t) s trivial

theorem store_phase_stores (DIM_X DIM_Y outp m n ld_out : Nat) (ws : List Worker)
    (s : State T) :
    (tile_store_phase DIM_X DIM_Y outp m n ld_out ws s).stores =
      s.stores ++ (microsteps ws (loopIdx n DIM_Y n 0)).flatMap
        (tile_store_ev s.shared DIM_X outp m n ld_out) := by
  rw [tile_store_phase_eq]
  refine foldl_log _ (fun t => t.stores) (fun t => t.shared = s.shared) _ _
    (fun t (p : Worker × Nat) _ ht => (tile_store_shared DIM_X outp m n ld_out p.1 p.2 t).trans ht)
    (fun t (p : Worker × Nat) _ ht => ?_) s rfl
  have := tile_store_stores DIM_X outp m n ld_out p.1 p.2 t
  rw [ht] at this
  exact this

theorem store_phase_staged (DIM_X DIM_Y outp m n ld_out : Nat) (ws : List Worker)
    (s : State T) :
    (tile_store_phase DIM_X DIM_Y outp m n ld_out ws s).staged =
      s.staged ++ (microsteps ws (loopIdx n DIM_Y n 0)).flatMap
        (fun p => if tile_store_guard DIM_X m n p
          then [(p.1.ty1 DIM_X + p.2, p.1.tx1 DIM_X)] else []) := by
  rw [tile_store_phase_eq]
  exact foldl_log _ (fun t => t.staged) (fun _ => True) _ _ (fun _ _ _ _ => trivial)
    (fun t (p : Worker × Nat) _ _ => tile_store_staged DIM_X outp m n ld_out p.1 p.2 t) s trivial

/-- After the write-back phase, an address stored to by some (worker, pass) pair holds `v`
when every pair storing to it stores `v`. -/
theorem store_phase_output_hit (DIM_X DIM_Y outp m n ld_out : Nat) (ws : List Worker)
    (s : State T) (k : Nat) (v : T)
    (hex : ∃ p ∈ microsteps ws (loopIdx n DIM_Y n 0), tile_store_guard DIM_X m n p ∧
      outp + (p.1.tx1 DIM_X + (p.2 + p.1.ty1 DIM_X) * ld_out) = k)
    (hall : ∀ p ∈ microsteps ws (loopIdx n DIM_Y n 0), tile_store_guard DIM_X m n p →
      outp + (p.1.tx1 DIM_X + (p.2 + p.1.ty1 DIM_X) * ld_out) = k →
      s.shared (p.1.ty1 DIM_X + p.2) (p.1.tx1 DIM_X) = v) :
    (tile_store_phase DIM_X DIM_Y outp m n ld_out ws s).output k = v := by
  rw [tile_store_phase_eq]
  refine foldl_write _ (fun t => t.output k) (fun t => t.shared = s.shared)
    (fun p => tile_store_guard DIM_X m n p ∧
      outp + (p.1.tx1 DIM_X + (p.2 + p.1.ty1 DIM_X) * ld_out) = k)
    v _ (fun t (p : Worker × Nat) _ ht => (tile_store_shared DIM_X outp m n ld_out p.1 p.2 t).trans ht)
    ?_ ?_ s rfl (Or.inl hex)
  · rintro t ⟨w, i⟩ hp ht ⟨hg, hk⟩
    have := tile_store_output_hit DIM_X outp m n ld_out w i t hg
    rw [hk, ht] at this
    exact this.trans (hall (w, i) hp hg hk)
  · rintro t ⟨w, i⟩ _ _ hn
    exact tile_store_output_miss DIM_X outp m n ld_out w i t k hn

theorem store_phase_output_miss (DIM_X DIM_Y outp m n ld_out : Nat) (ws : List Worker)
    (s : State T) (k : Nat)
    (h : ∀ p ∈ microsteps ws (loopIdx n DIM_Y n 0), tile_store_guard DIM_X m n p →
      outp + (p.1.tx1 DIM_X + (p.2 + p.1.ty1 DIM_X) * ld_out) ≠ k) :
    (tile_store_phase DIM_X DIM_Y outp m n ld_out ws s).output k = s.output k := by
  rw [tile_store_phase_eq]
  refine foldl_frame _ (fun t => t.output k) (fun _ => True) _ (fun _ _ _ _ => trivial)
    (fun t (p : Worker × Nat) hp _ => ?_) s trivial
  exact tile_store_output_miss DIM_X outp m n ld_out p.1 p.2 t k
    (fun hh => h p hp hh.1 hh.2)

/-! ### The workers of a work-group -/

theorem mem_workers (blkX blkY blkZ dimX dimY : Nat) (w : Worker) :
    w ∈ workers blkX blkY blkZ dimX dimY ↔
      w.hipThreadIdx_x < dimX ∧ w.hipThreadIdx_y < dimY ∧ w.hipBlockIdx_x = blkX ∧
      w.hipBlockIdx_y = blkY ∧ w.hipBlockIdx_z = blkZ ∧ w.hipBlockDim_x = dimX ∧
      w.hipBlockDim_y = dimY := by
  simp only [workers, List.mem_flatMap, List.mem_map, List.mem_range]
  constructor
  · rintro ⟨ty, hty, tx, htx, rfl⟩
    exact ⟨htx, hty, rfl, rfl, rfl, rfl, rfl⟩
  · rintro ⟨htx, hty, rfl, rfl, rfl, rfl, rfl⟩
    exact ⟨w.hipThreadIdx_y, hty, w.hipThreadIdx_x, htx, rfl⟩

theorem addr_inj {a b a' b' L : Nat} (ha : a < L) (ha' : a' < L)
    (h : a + b * L = a' + b' * L) : a = a' ∧ b = b' := by
  have h1 : (a + b * L) % L = (a' + b' * L) % L := by rw [h]
  rw [Nat.add_mul_mod_self_right, Nat.add_mul_mod_self_right, Nat.mod_eq_of_lt ha,
    Nat.mod_eq_of_lt ha'] at h1
  subst h1
  have h2 : b * L = b' * L := Nat.add_left_cancel h
  exact ⟨rfl, Nat.eq_of_mul_eq_mul_right (by omega) h2⟩

/-- A work-group of exactly `DIM_X * DIM_Y` workers reaches every column `x < DIM_X` and every
row `y` of the square coordinate system in exactly the pass `i = DIM_Y * (y / DIM_Y)`. -/
theorem workers_cover (DIM_X DIM_Y blkX blkY blkZ dimX dimY : Nat) (hX : 0 < DIM_X)
    (hY : 0 < DIM_Y) (hwg : dimX * dimY = DIM_X * DIM_Y) (x y : Nat) (hx : x < DIM_X) :
    ∃ w ∈ workers blkX blkY blkZ dimX dimY, ∃ i, DIM_Y ∣ i ∧ i ≤ y ∧
      w.tx1 DIM_X = x ∧ w.ty1 DIM_X + i = y := by
  have hq : y % DIM_Y < DIM_Y := Nat.mod_lt _ hY
  have ht : x + (y % DIM_Y) * DIM_X < dimX * dimY := by
    rw [hwg]
    have h1 : (y % DIM_Y + 1) * DIM_X ≤ DIM_Y * DIM_X := Nat.mul_le_mul_right _ hq
    have h2 : (y % DIM_Y + 1) * DIM_X = y % DIM_Y * DIM_X + DIM_X := by ring
    have h3 : DIM_Y * DIM_X = DIM_X * DIM_Y := Nat.mul_comm _ _
    omega
  have hdx : 0 < dimX := by
    rcases Nat.eq_zero_or_pos dimX with h | h
    · rw [h] at ht; simp at ht
    · exact h
  refine ⟨⟨(x + (y % DIM_Y) * DIM_X) % dimX, (x + (y % DIM_Y) * DIM_X) / dimX,
    blkX, blkY, blkZ, dimX, dimY⟩, ?_, DIM_Y * (y / DIM_Y), Dvd.intro _ rfl, ?_, ?_, ?_⟩
  · rw [mem_workers]
    exact ⟨Nat.mod_lt _ hdx, Nat.div_lt_of_lt_mul ht, rfl, rfl, rfl, rfl, rfl⟩
  · have := Nat.mod_add_div y DIM_Y
    omega
  · simp only [Worker.tx1, Worker.tid]
    rw [Nat.mod_add_div', Nat.add_mul_mod_self_right, Nat.mod_eq_of_lt hx]
  · simp only [Worker.ty1, Worker.tid]
    rw [Nat.mod_add_div', Nat.add_mul_div_right _ _ hX, Nat.div_eq_of_lt hx, Nat.zero_add]
    exact Nat.mod_add_div y DIM_Y

theorem worker_coords {DIM_X DIM_Y blkX blkY blkZ dimX dimY : Nat} {w : Worker}
    (hX : 0 < DIM_X) (hwg : dimX * dimY = DIM_X * DIM_Y)
    (hw : w ∈ workers blkX blkY blkZ dimX dimY) :
    w.tx1 DIM_X < DIM_X ∧ w.ty1 DIM_X < DIM_Y ∧ w.tid = w.tx1 DIM_X + w.ty1 DIM_X * DIM_X := by
  rw [mem_workers] at hw
  obtain ⟨h1, h2, _, _, _, h6, _⟩ := hw
  have htid : w.tid < DIM_X * DIM_Y := by
    rw [← hwg]
    unfold Worker.tid
    rw [h6]
    have : (w.hipThreadIdx_y + 1) * dimX ≤ dimY * dimX := Nat.mul_le_mul_right _ h2
    have e1 : (w.hipThreadIdx_y + 1) * dimX = w.hipThreadIdx_y * dimX + dimX := by ring
    have e2 : dimY * dimX = dimX * dimY := Nat.mul_comm _ _
    omega
  refine ⟨Nat.mod_lt _ hX, ?_, ?_⟩
  · unfold Worker.ty1
    rw [Nat.div_lt_iff_lt_mul hX, Nat.mul_comm]
    exact htid
  · unfold Worker.tx1 Worker.ty1
    exact (Nat.mod_add_div' _ _).symm

/-- Within a work-group of exactly `DIM_X * DIM_Y` workers, a (worker, pass) pair is determined
by the staging coordinate it addresses. -/
theorem triple_inj {DIM_X DIM_Y blkX blkY blkZ dimX dimY : Nat} {w w' : Worker} {i i' : Nat}
    (hX : 0 < DIM_X) (hwg : dimX * dimY = DIM_X * DIM_Y)
    (hw : w ∈ workers blkX blkY blkZ dimX dimY) (hw' : w' ∈ workers blkX blkY blkZ dimX dimY)
    (hi : DIM_Y ∣ i) (hi' : DIM_Y ∣ i') (hx : w.tx1 DIM_X = w'.tx1 DIM_X)
    (hy : w.ty1 DIM_X + i = w'.ty1 DIM_X + i') : w = w' ∧ i = i' := by
  obtain ⟨_, c2, c3⟩ := worker_coords hX hwg hw
  obtain ⟨_, c2', c3'⟩ := worker_coords hX hwg hw'
  obtain ⟨k, rfl⟩ := hi
  obtain ⟨k', rfl⟩ := hi'
  rw [Nat.mul_comm DIM_Y k, Nat.mul_comm DIM_Y k'] at hy
  obtain ⟨e1, e2⟩ := addr_inj c2 c2' hy
  have htid : w.tid = w'.tid := by rw [c3, c3', hx, e1]
  rw [mem_workers] at hw hw'
  obtain ⟨h1, _, h3, h4, h5, h6, h7⟩ := hw
  obtain ⟨h1', _, h3', h4', h5', h6', h7'⟩ := hw'
  unfold Worker.tid at htid
  rw [h6, h6'] at htid
  obtain ⟨t1, t2⟩ := addr_inj h1 h1' htid
  refine ⟨?_, by rw [e2]⟩
  cases w
  cases w'
  simp only [Worker.mk.injEq] at *
  omega

/-! ### The tile transfer primitive as a whole -/

/-- Addresses outside the destination tile are left alone by `transpose_tile_device`. -/
theorem tile_device_frame (tw : TwiddleMul Tbl T) (DIM_X DIM_Y : Nat) (input : Nat → T)
    (inp outp m n gx gy ld_in ld_out : Nat) (tl : Option Tbl) (twl dir : Int)
    (ws : List Worker) (s : State T) (k : Nat)
    (hk : ∀ r c, r < m → c < n → k ≠ outp + (r + c * ld_out)) :
    (transpose_tile_device tw DIM_X DIM_Y input inp outp m n gx gy ld_in ld_out tl twl dir
      ws s).output k = s.output k := by
  unfold transpose_tile_device
  rw [store_phase_output_miss, load_phase_output]
  rintro ⟨w, i⟩ _ hg heq
  unfold tile_store_guard at hg
  exact hk (w.tx1 DIM_X) (i + w.ty1 DIM_X) hg.1 (by have := hg.2; dsimp only at this ⊢; omega)
    heq.symm

/-- Functional behaviour of `transpose_tile_device` on a work-group of exactly
`DIM_X * DIM_Y` workers: an address that is the destination of some tile element ends up
holding `v` when every tile element destined for it stages `v`. -/
theorem tile_device_output_of (tw : TwiddleMul Tbl T) (DIM_X DIM_Y : Nat) (input : Nat → T)
    (inp outp m n gx gy ld_in ld_out : Nat) (tl : Option Tbl) (twl dir : Int)
    (blkX blkY blkZ dimX dimY : Nat) (s : State T)
    (hX : 0 < DIM_X) (hY : 0 < DIM_Y) (hwg : dimX * dimY = DIM_X * DIM_Y)
    (hm : m ≤ DIM_X) (hn : n ≤ DIM_X) (k : Nat) (v : T)
    (hex : ∃ r c, r < m ∧ c < n ∧ k = outp + (r + c * ld_out))
    (hall : ∀ r c, r < m → c < n → k = outp + (r + c * ld_out) →
      tile_value tw input inp gx gy ld_in tl twl dir c r = v) :
    (transpose_tile_device tw DIM_X DIM_Y input inp outp m n gx gy ld_in ld_out tl twl dir
      (workers blkX blkY blkZ dimX dimY) s).output k = v := by
  unfold transpose_tile_device
  apply store_phase_output_hit
  · obtain ⟨r, c, hr, hc, rfl⟩ := hex
    obtain ⟨w, hw, i, hdvd, hle, hx, hy⟩ :=
      workers_cover DIM_X DIM_Y blkX blkY blkZ dimX dimY hX hY hwg r c (by omega)
    refine ⟨(w, i), ?_, ⟨?_, ?_⟩, ?_⟩
    · rw [mem_microsteps, mem_passes hY]
      exact ⟨hw, by dsimp only; omega, hdvd⟩
    · dsimp only; omega
    · dsimp only; omega
    · dsimp only
      rw [hx, Nat.add_comm i, hy]
  · rintro ⟨w, i⟩ _ hg heq
    unfold tile_store_guard at hg
    dsimp only at hg heq ⊢
    rw [← hall (w.tx1 DIM_X) (w.ty1 DIM_X + i) hg.1 hg.2 (by rw [← heq, Nat.add_comm i])]
    apply load_phase_shared
    obtain ⟨w', hw', i', hdvd', hle', hx', hy'⟩ :=
      workers_cover DIM_X DIM_Y blkX blkY blkZ dimX dimY hX hY hwg (w.ty1 DIM_X + i)
        (w.tx1 DIM_X) (by omega)
    refine ⟨(w', i'), ?_, ⟨?_, ?_⟩, hx', hy'⟩
    · rw [mem_microsteps, mem_passes hY]
      exact ⟨hw', by dsimp only; omega, hdvd'⟩
    · dsimp only; omega
    · dsimp only; omega

/-- With a destination leading dimension of at least `m`, destination element `(c, r)` of the
tile receives the staged value of source element `(r, c)`. -/
theorem tile_device_output (tw : TwiddleMul Tbl T) (DIM_X DIM_Y : Nat) (input : Nat → T)
    (inp outp m n gx gy ld_in ld_out : Nat) (tl : Option Tbl) (twl dir : Int)
    (blkX blkY blkZ dimX dimY : Nat) (s : State T)
    (hX : 0 < DIM_X) (hY : 0 < DIM_Y) (hwg : dimX * dimY = DIM_X * DIM_Y)
    (hm : m ≤ DIM_X) (hn : n ≤ DIM_X) (hld : m ≤ ld_out)
    (r c : Nat) (hr : r < m) (hc : c < n) :
    (transpose_tile_device tw DIM_X DIM_Y input inp outp m n gx gy ld_in ld_out tl twl dir
      (workers blkX blkY blkZ dimX dimY) s).output (outp + (r + c * ld_out)) =
      tile_value tw input inp gx gy ld_in tl twl dir c r := by
  apply tile_device_output_of tw DIM_X DIM_Y input inp outp m n gx gy ld_in ld_out tl twl dir
    blkX blkY blkZ dimX dimY s hX hY hwg hm hn
  · exact ⟨r, c, hr, hc, rfl⟩
  · intro r' c' hr' _ heq
    obtain ⟨h1, h2⟩ := addr_inj (L := ld_out) (by omega) (by omega) (Nat.add_left_cancel heq)
    rw [h1, h2]

theorem mem_tile_load_ev (DIM_X inp m n ld_in : Nat) (p : Worker × Nat) (e : Access) :
    e ∈ tile_load_ev DIM_X inp m n ld_in p ↔ tile_load_guard DIM_X m n p ∧
      e = ⟨p.1, p.2, inp + (p.1.tx1 DIM_X + (p.1.ty1 DIM_X + p.2) * ld_in)⟩ := by
  unfold tile_load_ev
  split <;> simp [*]

theorem mem_tile_store_ev (sh : Nat → Nat → T) (DIM_X outp m n ld_out : Nat)
    (p : Worker × Nat) (e : Access × T) :
    e ∈ tile_store_ev sh DIM_X outp m n ld_out p ↔ tile_store_guard DIM_X m n p ∧
      e = (⟨p.1, p.2, outp + (p.1.tx1 DIM_X + (p.2 + p.1.ty1 DIM_X) * ld_out)⟩,
        sh (p.1.ty1 DIM_X + p.2) (p.1.tx1 DIM_X)) := by
  unfold tile_store_ev
  split <;> simp [*]

theorem tile_store_ev_fst (sh : Nat → Nat → T) (DIM_X outp m n ld_out : Nat)
    (p : Worker × Nat) :
    (tile_store_ev sh DIM_X outp m n ld_out p).map Prod.fst =
      tile_store_acc DIM_X outp m n ld_out p := by
  unfold tile_store_ev tile_store_acc
  split <;> rfl

theorem mem_tile_store_acc (DIM_X outp m n ld_out : Nat) (p : Worker × Nat) (e : Access) :
    e ∈ tile_store_acc DIM_X outp m n ld_out p ↔ tile_store_guard DIM_X m n p ∧
      e = ⟨p.1, p.2, outp + (p.1.tx1 DIM_X + (p.2 + p.1.ty1 DIM_X) * ld_out)⟩ := by
  unfold tile_store_acc
  split <;> simp [*]

/-- The global loads of `transpose_tile_device`. -/
theorem tile_device_loads (tw : TwiddleMul Tbl T) (DIM_X DIM_Y : Nat) (input : Nat → T)
    (inp outp m n gx gy ld_in ld_out : Nat) (tl : Option Tbl) (twl dir : Int)
    (ws : List Worker) (s : State T) :
    (transpose_tile_device tw DIM_X DIM_Y input inp outp m n gx gy ld_in ld_out tl twl dir
      ws s).loads = s.loads ++ (microsteps ws (loopIdx m DIM_Y m 0)).flatMap
        (tile_load_ev DIM_X inp m n ld_in) := by
  unfold transpose_tile_device
  rw [store_phase_loads, load_phase_loads]

/-- The global stores of `transpose_tile_device`, with the values taken from the staging
buffer as it stands at the barrier. -/
theorem tile_device_stores (tw : TwiddleMul Tbl T) (DIM_X DIM_Y : Nat) (input : Nat → T)
    (inp outp m n gx gy ld_in ld_out : Nat) (tl : Option Tbl) (twl dir : Int)
    (ws : List Worker) (s : State T) :
    (transpose_tile_device tw DIM_X DIM_Y input inp outp m n gx gy ld_in ld_out tl twl dir
      ws s).stores = s.stores ++ (microsteps ws (loopIdx n DIM_Y n 0)).flatMap
        (tile_store_ev (tile_load_phase tw DIM_X DIM_Y input inp m n gx gy ld_in tl twl dir
          ws s).shared DIM_X outp m n ld_out) := by
  unfold transpose_tile_device
  rw [store_phase_stores, load_phase_stores]

/-- The staging-buffer accesses of `transpose_tile_device`. -/
theorem tile_device_staged (tw : TwiddleMul Tbl T) (DIM_X DIM_Y : Nat) (input : Nat → T)
    (inp outp m n gx gy ld_in ld_out : Nat) (tl : Option Tbl) (twl dir : Int)
    (ws : List Worker) (s : State T) :
    (transpose_tile_device tw DIM_X DIM_Y input inp outp m n gx gy ld_in ld_out tl twl dir
      ws s).staged = s.staged ++
        ((microsteps ws (loopIdx m DIM_Y m 0)).flatMap
          (fun p => if tile_load_guard DIM_X m n p
            then [(p.1.tx1 DIM_X, p.1.ty1 DIM_X + p.2)] else []) ++
        (microsteps ws (loopIdx n DIM_Y n 0)).flatMap
          (fun p => if tile_store_guard DIM_X m n p
            then [(p.1.ty1 DIM_X + p.2, p.1.tx1 DIM_X)] else [])) := by
  unfold transpose_tile_device
  rw [store_phase_staged, load_phase_staged, List.append_assoc]

/-- At the barrier, a work-group of exactly `DIM_X * DIM_Y` workers has staged every element
of the tile. -/
theorem tile_shared_at_barrier (tw : TwiddleMul Tbl T) (DIM_X DIM_Y : Nat) (input : Nat → T)
    (inp m n gx gy ld_in : Nat) (tl : Option Tbl) (twl dir : Int)
    (blkX blkY blkZ dimX dimY : Nat) (s : State T)
    (hX : 0 < DIM_X) (hY : 0 < DIM_Y) (hwg : dimX * dimY = DIM_X * DIM_Y)
    (hn : n ≤ DIM_X) (r c : Nat) (hr : r < m) (hc : c < n) :
    (tile_load_phase tw DIM_X DIM_Y input inp m n gx gy ld_in tl twl dir
      (workers blkX blkY blkZ dimX dimY) s).shared c r =
      tile_value tw input inp gx gy ld_in tl twl dir c r := by
  apply load_phase_shared
  obtain ⟨w, hw, i, hdvd, hle, hx, hy⟩ :=
    workers_cover DIM_X DIM_Y blkX blkY blkZ dimX dimY hX hY hwg c r (by omega)
  refine ⟨(w, i), ?_, ⟨?_, ?_⟩, hx, hy⟩
  · rw [mem_microsteps, mem_passes hY]
    exact ⟨hw, by dsimp only; omega, hdvd⟩
  · dsimp only; omega
  · dsimp only; omega

theorem twiddle_step_on (tw : TwiddleMul Tbl T) (tl : Option Tbl) (twl dir : Int)
    (idx : Nat) (v : T) (lvl : Nat) (hlvl : lvl = 2 ∨ lvl = 3 ∨ lvl = 4) (htwl : twl = lvl) :
    twiddle_step tw tl twl dir idx v =
      if dir = -1 then tw.FWD lvl tl idx v else tw.INV lvl tl idx v := by
  subst htwl
  rcases hlvl with rfl | rfl | rfl <;> simp [twiddle_step]

theorem twiddle_step_off (tw : TwiddleMul Tbl T) (tl : Option Tbl) (twl dir : Int)
    (idx : Nat) (v : T) (h2 : twl ≠ 2) (h3 : twl ≠ 3) (h4 : twl ≠ 4) :
    twiddle_step tw tl twl dir idx v = v := by
  simp [twiddle_step, h2, h3, h4]

end TileLemmas

/-! ## Scheme A: the grid of `transpose_kernel2` -/

theorem mem_grid (gridX gridY : Nat) (zs : List Nat) (b : Nat × Nat × Nat) :
    b ∈ grid gridX gridY zs ↔ b.1 < gridX ∧ b.2.1 < gridY ∧ b.2.2 ∈ zs := by
  obtain ⟨x, y, z⟩ := b
  simp only [grid, List.mem_flatMap, List.mem_map, List.mem_range, Prod.mk.injEq]
  constructor
  · rintro ⟨z', hz, y', hy, x', hx, rfl, rfl, rfl⟩
    exact ⟨hx, hy, hz⟩
  · rintro ⟨hx, hy, hz⟩
    exact ⟨z, hz, y, hy, x, hx, rfl, rfl, rfl⟩

theorem div_lt_ceilDiv {len d C : Nat} (hd : 0 < d) (hC : C < len) : C / d < ceilDiv len d := by
  unfold ceilDiv
  rw [Nat.div_lt_iff_lt_mul hd]
  have h1 := Nat.div_add_mod (len + d - 1) d
  have h2 := Nat.mod_lt (len + d - 1) hd
  have h3 : (len + d - 1) / d * d = d * ((len + d - 1) / d) := Nat.mul_comm _ _
  have h4 := Nat.div_mul_le_self C d
  omega

theorem mul_lt_of_lt_ceilDiv {len d b : Nat} (hb : b < ceilDiv len d) : b * d < len := by
  unfold ceilDiv at hb
  rcases Nat.eq_zero_or_pos d with hd | hd
  · subst hd; simp at hb
  · have h1 := Nat.div_add_mod (len + d - 1) d
    have h2 := Nat.mod_lt (len + d - 1) hd
    have h3 : (b + 1) * d ≤ (len + d - 1) / d * d := Nat.mul_le_mul_right _ hb
    have h4 : (len + d - 1) / d * d = d * ((len + d - 1) / d) := Nat.mul_comm _ _
    have h5 : (b + 1) * d = b * d + d := by ring
    omega

section Kernel2Lemmas

variable {T Tbl : Type}

/-- A work-group of `transpose_kernel2` leaves every address outside its destination tile
alone. -/
theorem kernel2_block_frame (tw : TwiddleMul Tbl T) (DIM_X DIM_Y : Nat) (input : Nat → T)
    (tl : Option Tbl) (dim : Nat) (lengths stride_in stride_out : Nat → Nat)
    (twl dir : Int) (blkX blkY blkZ dimX dimY : Nat) (s : State T) (k : Nat)
    (hk : ∀ r c, r < kernel2_mm DIM_X lengths blkY → c < kernel2_nn DIM_X lengths blkX →
      k ≠ blkX * DIM_X * stride_out 1 + blkY * DIM_X +
        kernel2_oOffset dim lengths stride_in stride_out blkZ + (r + c * stride_out 1)) :
    (transpose_kernel2 tw DIM_X DIM_Y input tl dim lengths stride_in stride_out twl dir
      blkX blkY blkZ dimX dimY s).output k = s.output k := by
  unfold transpose_kernel2
  exact tile_device_frame tw DIM_X DIM_Y input _ _ _ _ _ _ _ _ tl twl dir _ s k hk

theorem kernel2_mm_lt {DIM_X : Nat} {lengths : Nat → Nat} {blkY r : Nat}
    (h : r < kernel2_mm DIM_X lengths blkY) : r < DIM_X ∧ blkY * DIM_X + r < lengths 1 := by
  unfold kernel2_mm at h
  omega

theorem kernel2_nn_lt {DIM_X : Nat} {lengths : Nat → Nat} {blkX c : Nat}
    (h : c < kernel2_nn DIM_X lengths blkX) : c < DIM_X ∧ blkX * DIM_X + c < lengths 0 := by
  unfold kernel2_nn at h
  omega

/-- The tile-local staged value is the plane-global one. -/
theorem tile_value_kernel2 (tw : TwiddleMul Tbl T) (DIM_X : Nat) (input : Nat → T)
    (tl : Option Tbl) (twl dir : Int) (ld_in iOff blkX blkY r c : Nat) :
    tile_value tw input (blkX * DIM_X + blkY * DIM_X * ld_in + iOff) (blkX * DIM_X)
        (blkY * DIM_X) ld_in tl twl dir c r =
      kernel2_value tw input tl twl dir ld_in iOff (blkY * DIM_X + r) (blkX * DIM_X + c) := by
  unfold tile_value kernel2_value
  congr 2
  ring

/-- Functional behaviour of a launch of `transpose_kernel2` on the covering grid: an address
that is the destination of some plane element of some launched batch ends up holding `v` when
every plane element destined for it stages `v`. -/
theorem kernel2_launch_output_of (tw : TwiddleMul Tbl T) (DIM_X DIM_Y : Nat) (input : Nat → T)
    (tl : Option Tbl) (dim : Nat) (lengths stride_in stride_out : Nat → Nat)
    (twl dir : Int) (zs : List Nat) (dimX dimY : Nat) (s : State T)
    (hX : 0 < DIM_X) (hY : 0 < DIM_Y) (hwg : dimX * dimY = DIM_X * DIM_Y) (k : Nat) (v : T)
    (hex : ∃ z ∈ zs, ∃ R C, R < lengths 1 ∧ C < lengths 0 ∧
      k = kernel2_oOffset dim lengths stride_in stride_out z + C * stride_out 1 + R)
    (hall : ∀ z ∈ zs, ∀ R C, R < lengths 1 → C < lengths 0 →
      k = kernel2_oOffset dim lengths stride_in stride_out z + C * stride_out 1 + R →
      kernel2_value tw input tl twl dir (stride_in 1)
        (kernel2_iOffset dim lengths stride_in stride_out z) R C = v) :
    (transpose_kernel2_launch tw DIM_X DIM_Y input tl dim lengths stride_in stride_out twl dir
      (ceilDiv (lengths 0) DIM_X) (ceilDiv (lengths 1) DIM_X) zs dimX dimY s).output k = v := by
  unfold transpose_kernel2_launch
  refine foldl_write _ (fun t => t.output k) (fun _ => True)
    (fun b : Nat × Nat × Nat => ∃ r c, r < kernel2_mm DIM_X lengths b.2.1 ∧
      c < kernel2_nn DIM_X lengths b.1 ∧
      k = b.1 * DIM_X * stride_out 1 + b.2.1 * DIM_X +
        kernel2_oOffset dim lengths stride_in stride_out b.2.2 + (r + c * stride_out 1))
    v _ (fun _ _ _ _ => trivial) ?_ ?_ s trivial (Or.inl ?_)
  · rintro t ⟨bx, bj, bz⟩ hb _ ⟨r, c, hr, hc, hk⟩
    rw [mem_grid] at hb
    dsimp only at hb hr hc hk ⊢
    unfold transpose_kernel2
    apply tile_device_output_of tw DIM_X DIM_Y input _ _ _ _ _ _ _ _ tl twl dir
      bx bj bz dimX dimY t hX hY hwg (Nat.min_le_right _ _) (Nat.min_le_right _ _)
    · exact ⟨r, c, hr, hc, hk⟩
    · intro r' c' hr' hc' hk'
      have e := tile_value_kernel2 tw DIM_X input tl twl dir (stride_in 1)
        (kernel2_iOffset dim lengths stride_in stride_out bz) bx bj r' c'
      unfold kernel2_iOffset at e
      rw [e]
      apply hall bz hb.2.2 _ _ (kernel2_mm_lt hr').2 (kernel2_nn_lt hc').2
      rw [hk']
      unfold kernel2_oOffset
      ring
  · rintro t ⟨bx, bj, bz⟩ _ _ hn
    apply kernel2_block_frame
    intro r c hr hc heq
    exact hn ⟨r, c, hr, hc, heq⟩
  · obtain ⟨z, hz, R, C, hR, hC, hk⟩ := hex
    refine ⟨(C / DIM_X, R / DIM_X, z), ?_, R % DIM_X, C % DIM_X, ?_, ?_, ?_⟩
    · rw [mem_grid]
      exact ⟨div_lt_ceilDiv hX hC, div_lt_ceilDiv hX hR, hz⟩
    · unfold kernel2_mm
      have h1 := Nat.div_add_mod R DIM_X
      have h2 := Nat.mod_lt R hX
      have h3 : R / DIM_X * DIM_X = DIM_X * (R / DIM_X) := Nat.mul_comm _ _
      dsimp only
      omega
    · unfold kernel2_nn
      have h1 := Nat.div_add_mod C DIM_X
      have h2 := Nat.mod_lt C hX
      have h3 : C / DIM_X * DIM_X = DIM_X * (C / DIM_X) := Nat.mul_comm _ _
      dsimp only
      omega
    · dsimp only
      rw [hk]
      have h1 := Nat.div_add_mod R DIM_X
      have h2 := Nat.div_add_mod C DIM_X
      have h3 : C * stride_out 1 =
          C / DIM_X * DIM_X * stride_out 1 + C % DIM_X * stride_out 1 := by
        conv_lhs => rw [← h2]
        ring
      rw [h3]
      have h4 : R / DIM_X * DIM_X = DIM_X * (R / DIM_X) := Nat.mul_comm _ _
      omega

/-- A launch of `transpose_kernel2` leaves every address outside the destination planes of
its batches alone. -/
theorem kernel2_launch_frame (tw : TwiddleMul Tbl T) (DIM_X DIM_Y : Nat) (input : Nat → T)
    (tl : Option Tbl) (dim : Nat) (lengths stride_in stride_out : Nat → Nat)
    (twl dir : Int) (gridX gridY : Nat) (zs : List Nat) (dimX dimY : Nat) (s : State T)
    (k : Nat)
    (hk : ∀ z ∈ zs, ∀ R C, R < lengths 1 → C < lengths 0 →
      k ≠ kernel2_oOffset dim lengths stride_in stride_out z + C * stride_out 1 + R) :
    (transpose_kernel2_launch tw DIM_X DIM_Y input tl dim lengths stride_in stride_out twl dir
      gridX gridY zs dimX dimY s).output k = s.output k := by
  unfold transpose_kernel2_launch
  refine foldl_frame _ (fun t => t.output k) (fun _ => True) _ (fun _ _ _ _ => trivial)
    ?_ s trivial
  rintro t ⟨bx, bj, bz⟩ hb _
  rw [mem_grid] at hb
  apply kernel2_block_frame
  intro r c hr hc heq
  refine hk bz hb.2.2 _ _ (kernel2_mm_lt hr).2 (kernel2_nn_lt hc).2 ?_
  rw [heq]
  ring

/-- The access record of one work-group of `transpose_kernel2`. -/
theorem kernel2_block_record (tw : TwiddleMul Tbl T) (DIM_X DIM_Y : Nat) (input : Nat → T)
    (tl : Option Tbl) (dim : Nat) (lengths stride_in stride_out : Nat → Nat)
    (twl dir : Int) (blkX blkY blkZ dimX dimY : Nat) (s : State T) :
    (transpose_kernel2 tw DIM_X DIM_Y input tl dim lengths stride_in stride_out twl dir
      blkX blkY blkZ dimX dimY s).loads =
      s.loads ++ kernel2_loads DIM_X DIM_Y dim lengths stride_in stride_out dimX dimY
        (blkX, blkY, blkZ) ∧
    (transpose_kernel2 tw DIM_X DIM_Y input tl dim lengths stride_in stride_out twl dir
      blkX blkY blkZ dimX dimY s).stores.map Prod.fst =
      s.stores.map Prod.fst ++
        kernel2_stores DIM_X DIM_Y dim lengths stride_in stride_out dimX dimY
          (blkX, blkY, blkZ) ∧
    (transpose_kernel2 tw DIM_X DIM_Y input tl dim lengths stride_in stride_out twl dir
      blkX blkY blkZ dimX dimY s).staged =
      s.staged ++ kernel2_staged DIM_X DIM_Y lengths dimX dimY (blkX, blkY, blkZ) := by
  unfold transpose_kernel2
  refine ⟨?_, ?_, ?_⟩
  · rw [tile_device_loads]
    rfl
  · rw [tile_device_stores, List.map_append, List.map_flatMap]
    congr 1
    unfold kernel2_stores kernel2_oOffset
    congr 1
    funext p
    exact tile_store_ev_fst _ DIM_X _ _ _ _ p
  · rw [tile_device_staged]
    rfl

/-- The access record of a launch of `transpose_kernel2`. -/
theorem kernel2_launch_record (tw : TwiddleMul Tbl T) (DIM_X DIM_Y : Nat) (input : Nat → T)
    (tl : Option Tbl) (dim : Nat) (lengths stride_in stride_out : Nat → Nat)
    (twl dir : Int) (gridX gridY : Nat) (zs : List Nat) (dimX dimY : Nat) (s : State T) :
    (transpose_kernel2_launch tw DIM_X DIM_Y input tl dim lengths stride_in stride_out twl dir
      gridX gridY zs dimX dimY s).loads =
      s.loads ++ (grid gridX gridY zs).flatMap
        (kernel2_loads DIM_X DIM_Y dim lengths stride_in stride_out dimX dimY) ∧
    (transpose_kernel2_launch tw DIM_X DIM_Y input tl dim lengths stride_in stride_out twl dir
      gridX gridY zs dimX dimY s).stores.map Prod.fst =
      s.stores.map Prod.fst ++ (grid gridX gridY zs).flatMap
        (kernel2_stores DIM_X DIM_Y dim lengths stride_in stride_out dimX dimY) ∧
    (transpose_kernel2_launch tw DIM_X DIM_Y input tl dim lengths stride_in stride_out twl dir
      gridX gridY zs dimX dimY s).staged =
      s.staged ++ (grid gridX gridY zs).flatMap
        (kernel2_staged DIM_X DIM_Y lengths dimX dimY) := by
  unfold transpose_kernel2_launch
  refine ⟨?_, ?_, ?_⟩
  · exact foldl_log _ (fun t => t.loads) (fun _ => True) _ _ (fun _ _ _ _ => trivial)
      (fun t (b : Nat × Nat × Nat) _ _ => (kernel2_block_record tw DIM_X DIM_Y input tl dim lengths stride_in
        stride_out twl dir b.1 b.2.1 b.2.2 dimX dimY t).1) s trivial
  · exact foldl_log _ (fun t => t.stores.map Prod.fst) (fun _ => True) _ _
      (fun _ _ _ _ => trivial)
      (fun t (b : Nat × Nat × Nat) _ _ => (kernel2_block_record tw DIM_X DIM_Y input tl dim lengths stride_in
        stride_out twl dir b.1 b.2.1 b.2.2 dimX dimY t).2.1) s trivial
  · exact foldl_log _ (fun t => t.staged) (fun _ => True) _ _ (fun _ _ _ _ => trivial)
      (fun t (b : Nat × Nat × Nat) _ _ => (kernel2_block_record tw DIM_X DIM_Y input tl dim lengths stride_in
        stride_out twl dir b.1 b.2.1 b.2.2 dimX dimY t).2.2) s trivial

theorem mem_kernel2_loads (DIM_X DIM_Y dim : Nat) (lengths stride_in stride_out : Nat → Nat)
    (dimX dimY : Nat) (b : Nat × Nat × Nat) (e : Access) :
    e ∈ kernel2_loads DIM_X DIM_Y dim lengths stride_in stride_out dimX dimY b ↔
      e.who ∈ workers b.1 b.2.1 b.2.2 dimX dimY ∧
      e.pass ∈ loopIdx (kernel2_mm DIM_X lengths b.2.1) DIM_Y (kernel2_mm DIM_X lengths b.2.1) 0 ∧
      (e.who.tx1 DIM_X < kernel2_nn DIM_X lengths b.1 ∧
        e.who.ty1 DIM_X + e.pass < kernel2_mm DIM_X lengths b.2.1) ∧
      e.addr = kernel2_iOffset dim lengths stride_in stride_out b.2.2 +
        (b.2.1 * DIM_X + (e.who.ty1 DIM_X + e.pass)) * stride_in 1 +
        (b.1 * DIM_X + e.who.tx1 DIM_X) := by
  unfold kernel2_loads
  rw [List.mem_flatMap]
  constructor
  · rintro ⟨⟨w, i⟩, hp, he⟩
    rw [mem_microsteps] at hp
    rw [mem_tile_load_ev] at he
    obtain ⟨hg, rfl⟩ := he
    refine ⟨hp.1, hp.2, hg, ?_⟩
    dsimp only
    ring
  · rintro ⟨hw, hi, hg, ha⟩
    refine ⟨(e.who, e.pass), (mem_microsteps _ _ _).2 ⟨hw, hi⟩, (mem_tile_load_ev _ _ _ _ _ _ _).2
      ⟨hg, ?_⟩⟩
    obtain ⟨w, i, a⟩ := e
    dsimp only at ha ⊢
    rw [ha]
    congr 1
    ring

theorem mem_kernel2_stores (DIM_X DIM_Y dim : Nat) (lengths stride_in stride_out : Nat → Nat)
    (dimX dimY : Nat) (b : Nat × Nat × Nat) (e : Access) :
    e ∈ kernel2_stores DIM_X DIM_Y dim lengths stride_in stride_out dimX dimY b ↔
      e.who ∈ workers b.1 b.2.1 b.2.2 dimX dimY ∧
      e.pass ∈ loopIdx (kernel2_nn DIM_X lengths b.1) DIM_Y (kernel2_nn DIM_X lengths b.1) 0 ∧
      (e.who.tx1 DIM_X < kernel2_mm DIM_X lengths b.2.1 ∧
        e.who.ty1 DIM_X + e.pass < kernel2_nn DIM_X lengths b.1) ∧
      e.addr = kernel2_oOffset dim lengths stride_in stride_out b.2.2 +
        (b.1 * DIM_X + (e.who.ty1 DIM_X + e.pass)) * stride_out 1 +
        (b.2.1 * DIM_X + e.who.tx1 DIM_X) := by
  unfold kernel2_stores
  rw [List.mem_flatMap]
  constructor
  · rintro ⟨⟨w, i⟩, hp, he⟩
    rw [mem_microsteps] at hp
    rw [mem_tile_store_acc] at he
    obtain ⟨hg, rfl⟩ := he
    refine ⟨hp.1, hp.2, hg, ?_⟩
    dsimp only
    ring
  · rintro ⟨hw, hi, hg, ha⟩
    refine ⟨(e.who, e.pass), (mem_microsteps _ _ _).2 ⟨hw, hi⟩, (mem_tile_store_acc _ _ _ _ _ _ _).2
      ⟨hg, ?_⟩⟩
    obtain ⟨w, i, a⟩ := e
    dsimp only at ha ⊢
    rw [ha]
    congr 1
    ring

/-- Two loads of one batch that hit the same address are the same load of the same
work-group. -/
theorem kernel2_load_inj {DIM_X DIM_Y dim : Nat} {lengths stride_in stride_out : Nat → Nat}
    {dimX dimY : Nat} (hX : 0 < DIM_X) (hY : 0 < DIM_Y) (hwg : dimX * dimY = DIM_X * DIM_Y)
    (hin : lengths 0 ≤ stride_in 1) {b b' : Nat × Nat × Nat} {e e' : Access}
    (hz : b.2.2 = b'.2.2)
    (he : e ∈ kernel2_loads DIM_X DIM_Y dim lengths stride_in stride_out dimX dimY b)
    (he' : e' ∈ kernel2_loads DIM_X DIM_Y dim lengths stride_in stride_out dimX dimY b')
    (ha : e.addr = e'.addr) : b = b' ∧ e = e' := by
  rw [mem_kernel2_loads] at he he'
  obtain ⟨hw, hi, ⟨g1, g2⟩, hadr⟩ := he
  obtain ⟨hw', hi', ⟨g1', g2'⟩, hadr'⟩ := he'
  obtain ⟨bx, bj, bz⟩ := b
  obtain ⟨bx', bj', bz'⟩ := b'
  dsimp only at hz hw hw' hi hi' g1 g2 g1' g2' hadr hadr'
  subst hz
  rw [mem_passes hY] at hi hi'
  have c1 := (kernel2_nn_lt g1)
  have c1' := (kernel2_nn_lt g1')
  have c2 := (kernel2_mm_lt g2)
  have c2' := (kernel2_mm_lt g2')
  rw [hadr, hadr'] at ha
  have h := addr_inj (L := stride_in 1) (by omega) (by omega)
    (show (bx * DIM_X + e.who.tx1 DIM_X) + (bj * DIM_X + (e.who.ty1 DIM_X + e.pass)) * stride_in 1
      = (bx' * DIM_X + e'.who.tx1 DIM_X) +
        (bj' * DIM_X + (e'.who.ty1 DIM_X + e'.pass)) * stride_in 1 by omega)
  obtain ⟨hC, hR⟩ := h
  obtain ⟨hx, hbx⟩ := addr_inj (L := DIM_X) c1.1 c1'.1
    (show e.who.tx1 DIM_X + bx * DIM_X = e'.who.tx1 DIM_X + bx' * DIM_X by omega)
  obtain ⟨hy, hbj⟩ := addr_inj (L := DIM_X) c2.1 c2'.1
    (show (e.who.ty1 DIM_X + e.pass) + bj * DIM_X =
      (e'.who.ty1 DIM_X + e'.pass) + bj' * DIM_X by omega)
  subst hbx hbj
  obtain ⟨t1, t2⟩ := triple_inj hX hwg hw hw' hi.2 hi'.2 hx hy
  refine ⟨rfl, ?_⟩
  obtain ⟨w, i, a⟩ := e
  obtain ⟨w', i', a'⟩ := e'
  dsimp only at t1 t2 hadr hadr' ⊢
  subst t1 t2
  rw [hadr, hadr']

/-- Two stores of one batch that hit the same address are the same store of the same
work-group. -/
theorem kernel2_store_inj {DIM_X DIM_Y dim : Nat} {lengths stride_in stride_out : Nat → Nat}
    {dimX dimY : Nat} (hX : 0 < DIM_X) (hY : 0 < DIM_Y) (hwg : dimX * dimY = DIM_X * DIM_Y)
    (hout : lengths 1 ≤ stride_out 1) {b b' : Nat × Nat × Nat} {e e' : Access}
    (hz : b.2.2 = b'.2.2)
    (he : e ∈ kernel2_stores DIM_X DIM_Y dim lengths stride_in stride_out dimX dimY b)
    (he' : e' ∈ kernel2_stores DIM_X DIM_Y dim lengths stride_in stride_out dimX dimY b')
    (ha : e.addr = e'.addr) : b = b' ∧ e = e' := by
  rw [mem_kernel2_stores] at he he'
  obtain ⟨hw, hi, ⟨g1, g2⟩, hadr⟩ := he
  obtain ⟨hw', hi', ⟨g1', g2'⟩, hadr'⟩ := he'
  obtain ⟨bx, bj, bz⟩ := b
  obtain ⟨bx', bj', bz'⟩ := b'
  dsimp only at hz hw hw' hi hi' g1 g2 g1' g2' hadr hadr'
  subst hz
  rw [mem_passes hY] at hi hi'
  have c1 := (kernel2_mm_lt g1)
  have c1' := (kernel2_mm_lt g1')
  have c2 := (kernel2_nn_lt g2)
  have c2' := (kernel2_nn_lt g2')
  rw [hadr, hadr'] at ha
  have h := addr_inj (L := stride_out 1) (by omega) (by omega)
    (show (bj * DIM_X + e.who.tx1 DIM_X) + (bx * DIM_X + (e.who.ty1 DIM_X + e.pass)) * stride_out 1
      = (bj' * DIM_X + e'.who.tx1 DIM_X) +
        (bx' * DIM_X + (e'.who.ty1 DIM_X + e'.pass)) * stride_out 1 by omega)
  obtain ⟨hC, hR⟩ := h
  obtain ⟨hx, hbj⟩ := addr_inj (L := DIM_X) c1.1 c1'.1
    (show e.who.tx1 DIM_X + bj * DIM_X = e'.who.tx1 DIM_X + bj' * DIM_X by omega)
  obtain ⟨hy, hbx⟩ := addr_inj (L := DIM_X) c2.1 c2'.1
    (show (e.who.ty1 DIM_X + e.pass) + bx * DIM_X =
      (e'.who.ty1 DIM_X + e'.pass) + bx' * DIM_X by omega)
  subst hbx hbj
  obtain ⟨t1, t2⟩ := triple_inj hX hwg hw hw' hi.2 hi'.2 hx hy
  refine ⟨rfl, ?_⟩
  obtain ⟨w, i, a⟩ := e
  obtain ⟨w', i', a'⟩ := e'
  dsimp only at t1 t2 hadr hadr' ⊢
  subst t1 t2
  rw [hadr, hadr']

theorem nodup_addr_of_inj {α : Type} (L : List α) (f : α → List Access) (hL : L.Nodup)
    (hf : ∀ b ∈ L, (f b).Nodup)
    (hinj : ∀ b ∈ L, ∀ b' ∈ L, ∀ e ∈ f b, ∀ e' ∈ f b', e.addr = e'.addr → b = b' ∧ e = e') :
    ((L.flatMap f).map Access.addr).Nodup := by
  refine List.Nodup.map_on ?_ (nodup_flatMap_of L f hL hf ?_)
  · intro x hx y hy hxy
    rw [List.mem_flatMap] at hx hy
    obtain ⟨b, hb, hx⟩ := hx
    obtain ⟨b', hb', hy⟩ := hy
    exact (hinj b hb b' hb' x hx y hy hxy).2
  · intro b hb b' hb' x hx hx'
    exact (hinj b hb b' hb' x hx x hx' rfl).1

theorem kernel2_loads_nodup (DIM_X DIM_Y dim : Nat) (lengths stride_in stride_out : Nat → Nat)
    (dimX dimY : Nat) (hY : 0 < DIM_Y) (b : Nat × Nat × Nat) :
    (kernel2_loads DIM_X DIM_Y dim lengths stride_in stride_out dimX dimY b).Nodup := by
  unfold kernel2_loads
  apply nodup_flatMap_of _ _
    (microsteps_nodup _ _ (workers_nodup _ _ _ _ _) (loopIdx_nodup _ _ hY _ _))
  · intro p _
    unfold tile_load_ev
    split <;> simp
  · rintro ⟨w, i⟩ _ ⟨w', i'⟩ _ x hx hx'
    rw [mem_tile_load_ev] at hx hx'
    obtain ⟨_, rfl⟩ := hx
    obtain ⟨_, h⟩ := hx'
    simp only [Access.mk.injEq] at h
    exact Prod.ext h.1 h.2.1

theorem kernel2_stores_nodup (DIM_X DIM_Y dim : Nat) (lengths stride_in stride_out : Nat → Nat)
    (dimX dimY : Nat) (hY : 0 < DIM_Y) (b : Nat × Nat × Nat) :
    (kernel2_stores DIM_X DIM_Y dim lengths stride_in stride_out dimX dimY b).Nodup := by
  unfold kernel2_stores
  apply nodup_flatMap_of _ _
    (microsteps_nodup _ _ (workers_nodup _ _ _ _ _) (loopIdx_nodup _ _ hY _ _))
  · intro p _
    unfold tile_store_acc
    split <;> simp
  · rintro ⟨w, i⟩ _ ⟨w', i'⟩ _ x hx hx'
    rw [mem_tile_store_acc] at hx hx'
    obtain ⟨_, rfl⟩ := hx
    obtain ⟨_, h⟩ := hx'
    simp only [Access.mk.injEq] at h
    exact Prod.ext h.1 h.2.1

theorem tile_coord {DIM_X len r : Nat} (hX : 0 < DIM_X) (hr : r < len) :
    r % DIM_X < min (len - r / DIM_X * DIM_X) DIM_X ∧ r / DIM_X * DIM_X + r % DIM_X = r := by
  have h1 := Nat.div_add_mod r DIM_X
  have h2 := Nat.mod_lt r hX
  have h3 : r / DIM_X * DIM_X = DIM_X * (r / DIM_X) := Nat.mul_comm _ _
  omega

/-- On the covering grid of one batch, every source element has a load. -/
theorem kernel2_loads_onto (DIM_X DIM_Y dim : Nat) (lengths stride_in stride_out : Nat → Nat)
    (z dimX dimY : Nat) (hX : 0 < DIM_X) (hY : 0 < DIM_Y) (hwg : dimX * dimY = DIM_X * DIM_Y)
    (r c : Nat) (hr : r < lengths 1) (hc : c < lengths 0) :
    ∃ e ∈ (grid (ceilDiv (lengths 0) DIM_X) (ceilDiv (lengths 1) DIM_X) [z]).flatMap
        (kernel2_loads DIM_X DIM_Y dim lengths stride_in stride_out dimX dimY),
      e.addr = kernel2_iOffset dim lengths stride_in stride_out z + r * stride_in 1 + c := by
  obtain ⟨w, hw, i, hdvd, hle, hx, hy⟩ :=
    workers_cover DIM_X DIM_Y (c / DIM_X) (r / DIM_X) z dimX dimY hX hY hwg (c % DIM_X)
      (r % DIM_X) (Nat.mod_lt _ hX)
  have tr := tile_coord hX hr
  have tc := tile_coord hX hc
  refine ⟨⟨w, i, kernel2_iOffset dim lengths stride_in stride_out z + r * stride_in 1 + c⟩, ?_,
    rfl⟩
  rw [List.mem_flatMap]
  refine ⟨(c / DIM_X, r / DIM_X, z), ?_, ?_⟩
  · rw [mem_grid]
    exact ⟨div_lt_ceilDiv hX hc, div_lt_ceilDiv hX hr, List.mem_singleton.2 rfl⟩
  · rw [mem_kernel2_loads]
    dsimp only
    refine ⟨hw, ?_, ⟨?_, ?_⟩, ?_⟩
    · rw [mem_passes hY]
      refine ⟨?_, hdvd⟩
      unfold kernel2_mm
      omega
    · unfold kernel2_nn
      rw [hx]
      exact tc.1
    · unfold kernel2_mm
      rw [hy]
      exact tr.1
    · rw [hx, hy, tr.2, tc.2]

/-- On the covering grid of one batch, every destination element has a store. -/
theorem kernel2_stores_onto (DIM_X DIM_Y dim : Nat) (lengths stride_in stride_out : Nat → Nat)
    (z dimX dimY : Nat) (hX : 0 < DIM_X) (hY : 0 < DIM_Y) (hwg : dimX * dimY = DIM_X * DIM_Y)
    (r c : Nat) (hr : r < lengths 1) (hc : c < lengths 0) :
    ∃ e ∈ (grid (ceilDiv (lengths 0) DIM_X) (ceilDiv (lengths 1) DIM_X) [z]).flatMap
        (kernel2_stores DIM_X DIM_Y dim lengths stride_in stride_out dimX dimY),
      e.addr = kernel2_oOffset dim lengths stride_in stride_out z + c * stride_out 1 + r := by
  obtain ⟨w, hw, i, hdvd, hle, hx, hy⟩ :=
    workers_cover DIM_X DIM_Y (c / DIM_X) (r / DIM_X) z dimX dimY hX hY hwg (r % DIM_X)
      (c % DIM_X) (Nat.mod_lt _ hX)
  have tr := tile_coord hX hr
  have tc := tile_coord hX hc
  refine ⟨⟨w, i, kernel2_oOffset dim lengths stride_in stride_out z + c * stride_out 1 + r⟩, ?_,
    rfl⟩
  rw [List.mem_flatMap]
  refine ⟨(c / DIM_X, r / DIM_X, z), ?_, ?_⟩
  · rw [mem_grid]
    exact ⟨div_lt_ceilDiv hX hc, div_lt_ceilDiv hX hr, List.mem_singleton.2 rfl⟩
  · rw [mem_kernel2_stores]
    dsimp only
    refine ⟨hw, ?_, ⟨?_, ?_⟩, ?_⟩
    · rw [mem_passes hY]
      refine ⟨?_, hdvd⟩
      unfold kernel2_nn
      omega
    · unfold kernel2_mm
      rw [hx]
      exact tr.1
    · unfold kernel2_nn
      rw [hy]
      exact tc.1
    · rw [hx, hy, tr.2, tc.2]

theorem mem_kernel2_staged (DIM_X DIM_Y : Nat) (lengths : Nat → Nat) (dimX dimY : Nat)
    (b : Nat × Nat × Nat) (q : Nat × Nat)
    (hq : q ∈ kernel2_staged DIM_X DIM_Y lengths dimX dimY b) :
    q.1 < DIM_X ∧ q.2 < DIM_X := by
  unfold kernel2_staged at hq
  rw [List.mem_append, List.mem_flatMap, List.mem_flatMap] at hq
  rcases hq with ⟨p, _, hp⟩ | ⟨p, _, hp⟩
  · unfold tile_load_cell at hp
    split at hp
    · rename_i hg
      rw [List.mem_singleton] at hp
      subst hp
      exact ⟨(kernel2_nn_lt hg.1).1, (kernel2_mm_lt hg.2).1⟩
    · cases hp
  · unfold tile_store_cell at hp
    split at hp
    · rename_i hg
      rw [List.mem_singleton] at hp
      subst hp
      exact ⟨(kernel2_nn_lt hg.2).1, (kernel2_mm_lt hg.1).1⟩
    · cases hp

/-- One batch on the covering grid: with a destination leading dimension of at least `m`,
destination element `(C, R)` of the plane receives the staged value of source element
`(R, C)`. -/
theorem kernel2_plane_output (tw : TwiddleMul Tbl T) (DIM_X DIM_Y : Nat) (input : Nat → T)
    (tl : Option Tbl) (dim : Nat) (lengths stride_in stride_out : Nat → Nat)
    (twl dir : Int) (z dimX dimY : Nat) (s : State T)
    (hX : 0 < DIM_X) (hY : 0 < DIM_Y) (hwg : dimX * dimY = DIM_X * DIM_Y)
    (hout : lengths 1 ≤ stride_out 1) (R C : Nat) (hR : R < lengths 1) (hC : C < lengths 0) :
    (transpose_kernel2_launch tw DIM_X DIM_Y input tl dim lengths stride_in stride_out twl dir
      (ceilDiv (lengths 0) DIM_X) (ceilDiv (lengths 1) DIM_X) [z] dimX dimY s).output
        (kernel2_oOffset dim lengths stride_in stride_out z + C * stride_out 1 + R) =
      kernel2_value tw input tl twl dir (stride_in 1)
        (kernel2_iOffset dim lengths stride_in stride_out z) R C := by
  apply kernel2_launch_output_of tw DIM_X DIM_Y input tl dim lengths stride_in stride_out
    twl dir [z] dimX dimY s hX hY hwg
  · exact ⟨z, List.mem_singleton.2 rfl, R, C, hR, hC, rfl⟩
  · intro z' hz' R' C' hR' _ heq
    rw [List.mem_singleton.1 hz'] at heq ⊢
    have h : R + C * stride_out 1 = R' + C' * stride_out 1 := by omega
    obtain ⟨e1, e2⟩ := addr_inj (L := stride_out 1) (by omega) (by omega) h
    rw [← e1, ← e2]

theorem kernel2_value_off (tw : TwiddleMul Tbl T) (input : Nat → T) (tl : Option Tbl)
    (twl dir : Int) (ld_in iOff R C : Nat) (h2 : twl ≠ 2) (h3 : twl ≠ 3) (h4 : twl ≠ 4) :
    kernel2_value tw input tl twl dir ld_in iOff R C = input (iOff + R * ld_in + C) :=
  twiddle_step_off tw tl twl dir _ _ h2 h3 h4

theorem batchOffsets_zero (wrap : Nat → Nat) (hw : wrap 0 = 0) (base : Nat)
    (lengths stride_in stride_out : Nat → Nat) :
    ∀ cnt, batchLoop wrap base lengths stride_in stride_out cnt (0, 0, 0) = (0, 0, 0) := by
  intro cnt
  induction cnt with
  | zero => rfl
  | succ cnt ih =>
    simp only [batchLoop, Nat.zero_mod, Nat.zero_div, Nat.zero_mul, Nat.add_zero, hw]
    exact ih

theorem kernel2_offsets_zero (dim : Nat) (lengths stride_in stride_out : Nat → Nat) :
    kernel2_iOffset dim lengths stride_in stride_out 0 = 0 ∧
      kernel2_oOffset dim lengths stride_in stride_out 0 = 0 := by
  unfold kernel2_iOffset kernel2_oOffset batchOffsets
  rw [batchOffsets_zero id rfl]
  exact ⟨by simp only [Nat.zero_mul, Nat.add_zero, id], by simp only [Nat.zero_mul, Nat.add_zero, id]⟩

end Kernel2Lemmas

/-! ## The batch-offset resolver -/

theorem forLoop_prod (lengths : Nat → Nat) (bound : Nat) :
    ∀ (fuel j acc : Nat), bound ≤ j + fuel → j ≤ bound →
      forLoop (fun j cl => cl * lengths j) bound 1 fuel j acc =
        acc * ∏ k ∈ Finset.Ico j bound, lengths k := by
  intro fuel
  induction fuel with
  | zero =>
    intro j acc h1 h2
    have : j = bound := by omega
    subst this
    simp [forLoop]
  | succ fuel ih =>
    intro j acc h1 h2
    by_cases h : j < bound
    · simp only [forLoop, h, if_true]
      rw [ih (j + 1) _ (by omega) (by omega), Finset.prod_eq_prod_Ico_succ_bot h, Nat.mul_assoc]
    · have : j = bound := by omega
      subst this
      simp [forLoop]

theorem currentLength_eq (lengths : Nat → Nat) (i : Nat) (hi : 2 ≤ i) :
    currentLength 2 lengths i = spec_radix lengths i := by
  unfold currentLength spec_radix
  rw [forLoop_prod lengths i i 2 1 (by omega) hi, Nat.one_mul]

theorem spec_radix_succ (lengths : Nat → Nat) (j : Nat) (hj : 2 ≤ j) :
    spec_radix lengths (j + 1) = spec_radix lengths j * lengths j := by
  unfold spec_radix
  rw [Finset.prod_Ico_succ_top hj]

theorem spec_radix_pos (lengths : Nat → Nat) (dim : Nat)
    (hlen : ∀ j, 2 ≤ j → j < dim → 1 ≤ lengths j) (j : Nat) (hj : j ≤ dim) :
    0 < spec_radix lengths j := by
  unfold spec_radix
  apply Finset.prod_pos
  intro k hk
  rw [Finset.mem_Ico] at hk
  exact hlen k hk.1 (by omega)

theorem spec_flatIndex_succ (lengths c : Nat → Nat) (t : Nat) (ht : 2 ≤ t + 1) :
    spec_flatIndex lengths c (t + 1) =
      spec_flatIndex lengths c t + c (t + 1) * spec_radix lengths (t + 1) := by
  unfold spec_flatIndex
  rw [Finset.sum_Icc_succ_top ht]

theorem spec_offset_succ (stride c : Nat → Nat) (t : Nat) (ht : 2 ≤ t + 1) :
    spec_offset stride c (t + 1) = spec_offset stride c t + c (t + 1) * stride (t + 1) := by
  unfold spec_offset
  rw [Finset.sum_Icc_succ_top ht]

/-- Mixed-radix bound: the digits below position `t + 1` weigh less than its weight. -/
theorem spec_flatIndex_lt (lengths c : Nat → Nat) (dim : Nat)
    (hc : ∀ j, 2 ≤ j → j < dim → c j < lengths j) :
    ∀ u, 2 + u < dim → spec_flatIndex lengths c (2 + u) < spec_radix lengths (2 + u + 1) := by
  intro u
  induction u with
  | zero =>
    intro h
    have h2 := hc 2 (le_refl _) h
    simp [spec_flatIndex, spec_radix]
    exact h2
  | succ u ih =>
    intro h
    have h1 := ih (by omega)
    have h2 := hc (2 + u + 1) (by omega) (by omega)
    rw [show 2 + (u + 1) = 2 + u + 1 from rfl, spec_flatIndex_succ lengths c (2 + u) (by omega),
      spec_radix_succ lengths (2 + u + 1) (by omega)]
    calc spec_flatIndex lengths c (2 + u) + c (2 + u + 1) * spec_radix lengths (2 + u + 1)
        < spec_radix lengths (2 + u + 1) + c (2 + u + 1) * spec_radix lengths (2 + u + 1) := by
          omega
      _ = spec_radix lengths (2 + u + 1) * (c (2 + u + 1) + 1) := by ring
      _ ≤ spec_radix lengths (2 + u + 1) * lengths (2 + u + 1) := Nat.mul_le_mul_left _ h2

theorem batchLoop_spec (lengths stride_in stride_out c : Nat → Nat) (dim : Nat)
    (hc : ∀ j, 2 ≤ j → j < dim → c j < lengths j) :
    ∀ (cnt a b : Nat), 2 + cnt ≤ dim →
      batchLoop id 2 lengths stride_in stride_out cnt (spec_flatIndex lengths c (2 + cnt), a, b) =
        (c 2, a + spec_offset stride_in c (2 + cnt) - c 2 * stride_in 2,
          b + spec_offset stride_out c (2 + cnt) - c 2 * stride_out 2) := by
  intro cnt
  induction cnt with
  | zero =>
    intro a b _
    simp [batchLoop, spec_flatIndex, spec_offset, spec_radix]
  | succ cnt ih =>
    intro a b h
    have hlt := spec_flatIndex_lt lengths c dim hc cnt (by omega)
    have hpos : 0 < spec_radix lengths (2 + cnt + 1) := by omega
    have hdiv : spec_flatIndex lengths c (2 + cnt + 1) / spec_radix lengths (2 + cnt + 1) =
        c (2 + cnt + 1) := by
      rw [spec_flatIndex_succ lengths c (2 + cnt) (by omega), Nat.add_mul_div_right _ _ hpos,
        Nat.div_eq_of_lt hlt, Nat.zero_add]
    have hmod : spec_flatIndex lengths c (2 + cnt + 1) % spec_radix lengths (2 + cnt + 1) =
        spec_flatIndex lengths c (2 + cnt) := by
      rw [spec_flatIndex_succ lengths c (2 + cnt) (by omega), Nat.add_mul_mod_self_right,
        Nat.mod_eq_of_lt hlt]
    rw [show 2 + (cnt + 1) = 2 + cnt + 1 from rfl]
    simp only [batchLoop, id]
    rw [currentLength_eq lengths (2 + cnt + 1) (by omega), hdiv, hmod, ih _ _ (by omega),
      spec_offset_succ stride_in c (2 + cnt) (by omega),
      spec_offset_succ stride_out c (2 + cnt) (by omega)]
    have e1 : c 2 * stride_in 2 ≤ spec_offset stride_in c (2 + cnt) := by
      unfold spec_offset
      exact Finset.single_le_sum (f := fun j => c j * stride_in j) (fun _ _ => Nat.zero_le _)
        (Finset.mem_Icc.2 ⟨le_refl _, by omega⟩)
    have e2 : c 2 * stride_out 2 ≤ spec_offset stride_out c (2 + cnt) := by
      unfold spec_offset
      exact Finset.single_le_sum (f := fun j => c j * stride_out j) (fun _ _ => Nat.zero_le _)
        (Finset.mem_Icc.2 ⟨le_refl _, by omega⟩)
    refine Prod.ext rfl (Prod.ext ?_ ?_) <;> dsimp only <;> omega

/-- The resolver equals mixed-radix flattening of the batch coordinate. -/
theorem batchOffsets_spec (lengths stride_in stride_out c : Nat → Nat) (dim : Nat)
    (hdim : 2 ≤ dim) (hc : ∀ j, 2 ≤ j → j < dim → c j < lengths j) :
    batchOffsets id 2 dim lengths stride_in stride_out (spec_flatIndex lengths c dim) =
      (spec_offset stride_in c dim, spec_offset stride_out c dim) := by
  unfold batchOffsets
  have h := batchLoop_spec lengths stride_in stride_out c dim hc (dim - 2) 0 0 (by omega)
  rw [show 2 + (dim - 2) = dim by omega] at h
  rw [h]
  have e1 : c 2 * stride_in 2 ≤ spec_offset stride_in c dim := by
    unfold spec_offset
    exact Finset.single_le_sum (f := fun j => c j * stride_in j) (fun _ _ => Nat.zero_le _)
      (Finset.mem_Icc.2 ⟨le_refl _, hdim⟩)
  have e2 : c 2 * stride_out 2 ≤ spec_offset stride_out c dim := by
    unfold spec_offset
    exact Finset.single_le_sum (f := fun j => c j * stride_out j) (fun _ _ => Nat.zero_le _)
      (Finset.mem_Icc.2 ⟨le_refl _, hdim⟩)
  refine Prod.ext ?_ ?_ <;> simp only [id] <;> omega

/-! ## Work-groups that stage a full tile without bounds checks -/

section StagedBlock

variable {T : Type}

/-- A work-group whose load loop writes staging cell `cellL` with `valL` and whose store loop
copies staging cell `cellS` to address `addrS`: an address that some (worker, pass) pair
stores to ends up holding `v` when every pair storing to it copies a cell that was staged,
and staged with `v` only. -/
theorem staged_block_output (ld st : Worker → Nat → State T → State T)
    (cellL cellS : Worker × Nat → Nat × Nat) (valL : Worker × Nat → T)
    (addrS : Worker × Nat → Nat)
    (hld_sh : ∀ w i s, (ld w i s).shared =
      write2 s.shared (cellL (w, i)).1 (cellL (w, i)).2 (valL (w, i)))
    (hst_sh : ∀ w i s, (st w i s).shared = s.shared)
    (hst_out : ∀ w i s, (st w i s).output =
      write s.output (addrS (w, i)) (s.shared (cellS (w, i)).1 (cellS (w, i)).2))
    (ws : List Worker) (bound : Nat) (s : State T) (k : Nat) (v : T)
    (hex : ∃ p ∈ microsteps ws (loopIdx bound 1 bound 0), addrS p = k)
    (hall : ∀ p ∈ microsteps ws (loopIdx bound 1 bound 0), addrS p = k →
      (∃ q ∈ microsteps ws (loopIdx bound 1 bound 0), cellL q = cellS p) ∧
      ∀ q ∈ microsteps ws (loopIdx bound 1 bound 0), cellL q = cellS p → valL q = v) :
    (ws.foldl (fun s w => forLoop (st w) bound 1 bound 0 s)
      (ws.foldl (fun s w => forLoop (ld w) bound 1 bound 0 s) s)).output k = v := by
  simp only [forLoop_eq_foldl]
  rw [foldl_microsteps, foldl_microsteps]
  refine foldl_write _ (fun t => t.output k)
    (fun t => t.shared = ((microsteps ws (loopIdx bound 1 bound 0)).foldl
      (fun s p => ld p.1 p.2 s) s).shared)
    (fun p => addrS p = k) v _ (fun t p _ ht => (hst_sh p.1 p.2 t).trans ht) ?_ ?_ _ rfl
    (Or.inl hex)
  · rintro t ⟨w, i⟩ hp ht hk
    show (st w i t).output k = v
    rw [hst_out, ← hk, ht]
    simp only [write, if_true]
    obtain ⟨hq, hv⟩ := hall (w, i) hp hk
    refine foldl_write _ (fun t => t.shared (cellS (w, i)).1 (cellS (w, i)).2) (fun _ => True)
      (fun q => cellL q = cellS (w, i)) v _ (fun _ _ _ _ => trivial) ?_ ?_ s trivial
      (Or.inl hq)
    · rintro t' ⟨w', i'⟩ hq' _ hc
      show (ld w' i' t').shared _ _ = v
      rw [hld_sh, hc]
      simp only [write2, and_self, if_true]
      exact hv (w', i') hq' hc
    · rintro t' ⟨w', i'⟩ _ _ hc
      show (ld w' i' t').shared _ _ = t'.shared _ _
      rw [hld_sh]
      have : ¬ ((cellS (w, i)).1 = (cellL (w', i')).1 ∧ (cellS (w, i)).2 = (cellL (w', i')).2) := by
        rintro ⟨h1, h2⟩
        exact hc (Prod.ext h1.symm h2.symm)
      simp only [write2, this, if_false]
  · rintro t ⟨w, i⟩ _ _ hk
    show (st w i t).output k = t.output k
    rw [hst_out]
    have : ¬ (k = addrS (w, i)) := fun h => hk h.symm
    simp only [write, this, if_false]

/-- Such a work-group leaves every address it does not store to alone. -/
theorem staged_block_frame (ld st : Worker → Nat → State T → State T)
    (addrS : Worker × Nat → Nat) (valS : State T → Worker × Nat → T)
    (hld_out : ∀ w i s, (ld w i s).output = s.output)
    (hst_out : ∀ w i s, (st w i s).output = write s.output (addrS (w, i)) (valS s (w, i)))
    (ws : List Worker) (bound : Nat) (s : State T) (k : Nat)
    (h : ∀ p ∈ microsteps ws (loopIdx bound 1 bound 0), addrS p ≠ k) :
    (ws.foldl (fun s w => forLoop (st w) bound 1 bound 0 s)
      (ws.foldl (fun s w => forLoop (ld w) bound 1 bound 0 s) s)).output k = s.output k := by
  simp only [forLoop_eq_foldl]
  rw [foldl_microsteps, foldl_microsteps]
  have e1 := foldl_frame (fun (s : State T) (p : Worker × Nat) => st p.1 p.2 s)
    (fun t => t.output k) (fun _ => True) (microsteps ws (loopIdx bound 1 bound 0))
    (fun _ _ _ _ => trivial)
    (by
      rintro t ⟨w, i⟩ hp _
      show (st w i t).output k = t.output k
      rw [hst_out]
      have : ¬ (k = addrS (w, i)) := fun hh => h (w, i) hp hh.symm
      simp only [write, this, if_false])
    ((microsteps ws (loopIdx bound 1 bound 0)).foldl (fun s p => ld p.1 p.2 s) s) trivial
  have e2 := foldl_frame (fun (s : State T) (p : Worker × Nat) => ld p.1 p.2 s)
    (fun t => t.output k) (fun _ => True) (microsteps ws (loopIdx bound 1 bound 0))
    (fun _ _ _ _ => trivial)
    (fun t p _ _ => congrFun (hld_out p.1 p.2 t) k) s trivial
  exact e1.trans e2

/-- The 16 by 16 work-group with 16 passes reaches every cell of the 64 by 64 tile through the
reshape `(x + (y % 4) * 16, y / 4 + pass * 4)`. -/
theorem cover64 (blkX blkY : Nat) (x y : Nat) (hx : x < 64) (hy : y < 64) :
    ∃ p ∈ microsteps (workers blkX blkY 0 16 16) (loopIdx 16 1 16 0),
      p.1.hipThreadIdx_x + (p.1.hipThreadIdx_y % 4) * 16 = x ∧
      p.1.hipThreadIdx_y / 4 + p.2 * 4 = y ∧
      p.1.hipBlockIdx_x = blkX ∧ p.1.hipBlockIdx_y = blkY ∧
      p.1.hipBlockDim_x = 16 ∧ p.1.hipBlockDim_y = 16 := by
  refine ⟨(⟨x % 16, (y % 4) * 4 + x / 16, blkX, blkY, 0, 16, 16⟩, y / 4), ?_, ?_, ?_, rfl, rfl,
    rfl, rfl⟩
  · rw [mem_microsteps, mem_workers, mem_passes (by decide)]
    dsimp only
    refine ⟨⟨?_, ?_, rfl, rfl, rfl, rfl, rfl⟩, ?_, one_dvd _⟩ <;> omega
  · dsimp only; omega
  · dsimp only; omega

theorem mem_micro64 (blkX blkY : Nat) (p : Worker × Nat)
    (hp : p ∈ microsteps (workers blkX blkY 0 16 16) (loopIdx 16 1 16 0)) :
    p.1.hipThreadIdx_x + (p.1.hipThreadIdx_y % 4) * 16 < 64 ∧
      p.1.hipThreadIdx_y / 4 + p.2 * 4 < 64 ∧
      p.1.hipBlockIdx_x = blkX ∧ p.1.hipBlockIdx_y = blkY ∧
      p.1.hipBlockDim_x = 16 ∧ p.1.hipBlockDim_y = 16 := by
  rw [mem_microsteps, mem_workers, mem_passes (by decide)] at hp
  obtain ⟨⟨h1, h2, h3, h4, _, h6, h7⟩, h8, _⟩ := hp
  refine ⟨?_, ?_, h3, h4, h6, h7⟩ <;> omega

end StagedBlock

/-! ## Scheme B with a 64 by 64 macro-tile and 16 by 16 work-groups -/

section OutplaceLemmas

variable {T Tbl : Type}

/-- The kernel body at the 64 by 64 instantiation: reshape factor 4, 16 passes. -/
theorem outplace64_eq (tw : TwiddleMul Tbl T) (input : Nat → T) (tl : Option Tbl) (dim : Nat)
    (lengths stride_in stride_out : Nat → Nat) (blkX blkY : Nat) (s : State T) :
    transpose_kernel_outplace tw 4 4 16 16 input tl dim lengths stride_in stride_out
      blkX blkY 16 16 s =
    (workers blkX blkY 0 16 16).foldl (fun s w =>
      forLoop (outplace_store
        (outplace_oOffset dim lengths stride_in stride_out (blkX / (lengths 0 / 64)) +
          (stride_out 1 * (blkX % (lengths 0 / 64)) * 64 + blkY * 64))
        (stride_out 1) 4 w) 16 1 16 0 s)
      ((workers blkX blkY 0 16 16).foldl (fun s w =>
        forLoop (outplace_load tw input tl
          (outplace_iOffset dim lengths stride_in stride_out (blkX / (lengths 0 / 64)) +
            (stride_in 1 * blkY * 64 + blkX % (lengths 0 / 64) * 64))
          (stride_in 1) 4 w) 16 1 16 0 s) s) := rfl

/-- The two phases of a 16 by 16 work-group at reshape factor 4 with 16 passes: the address
of destination cell `(y, x)` ends up holding `v` when every cell stored there was staged
with `v`. -/
theorem outplace64_phases_output_of (tw : TwiddleMul Tbl T) (input : Nat → T)
    (tl : Option Tbl) (inp outp ld_in ld_out blkX blkY : Nat) (s : State T) (k : Nat) (v : T)
    (hex : ∃ x y, x < 64 ∧ y < 64 ∧ k = outp + (y * ld_out + x))
    (hall : ∀ x y, x < 64 → y < 64 → k = outp + (y * ld_out + x) →
      outplace_value tw input tl inp ld_in y x = v) :
    ((workers blkX blkY 0 16 16).foldl (fun s w =>
      forLoop (outplace_store outp ld_out 4 w) 16 1 16 0 s)
      ((workers blkX blkY 0 16 16).foldl (fun s w =>
        forLoop (outplace_load tw input tl inp ld_in 4 w) 16 1 16 0 s) s)).output k = v := by
  refine staged_block_output (outplace_load tw input tl inp ld_in 4)
    (outplace_store outp ld_out 4)
    (fun p => (p.1.hipThreadIdx_x + (p.1.hipThreadIdx_y % 4) * p.1.hipBlockDim_x,
      p.1.hipThreadIdx_y / 4 + p.2 * (p.1.hipBlockDim_y / 4)))
    (fun p => (p.1.hipThreadIdx_y / 4 + p.2 * (p.1.hipBlockDim_y / 4),
      p.1.hipThreadIdx_x + (p.1.hipThreadIdx_y % 4) * p.1.hipBlockDim_x))
    (fun p => outplace_value tw input tl inp ld_in
      (p.1.hipThreadIdx_x + (p.1.hipThreadIdx_y % 4) * p.1.hipBlockDim_x)
      (p.1.hipThreadIdx_y / 4 + p.2 * (p.1.hipBlockDim_y / 4)))
    (fun p => outp +
      ((p.1.hipThreadIdx_y / 4 + p.2 * (p.1.hipBlockDim_y / 4)) * ld_out +
        (p.1.hipThreadIdx_x + (p.1.hipThreadIdx_y % 4) * p.1.hipBlockDim_x)))
    ?_ (fun _ _ _ => rfl) (fun _ _ _ => rfl) _ _ s k v ?_ ?_
  · intro w i t
    unfold outplace_load outplace_value
    rfl
  · obtain ⟨x, y, hx, hy, rfl⟩ := hex
    obtain ⟨p, hp, h1, h2, _, _, h5, h6⟩ := cover64 blkX blkY x y hx hy
    refine ⟨p, hp, ?_⟩
    dsimp only
    rw [h5, h6, h1, h2]
  · intro p hp hk
    obtain ⟨b1, b2, _, _, b5, b6⟩ := mem_micro64 blkX blkY p hp
    dsimp only at hk ⊢
    rw [b5, b6] at hk ⊢
    refine ⟨?_, ?_⟩
    · obtain ⟨q, hq, h1, h2, _, _, h5, h6⟩ := cover64 blkX blkY _ _ b2 b1
      refine ⟨q, hq, ?_⟩
      rw [h5, h6, h1, h2]
    · intro q hq hc
      obtain ⟨_, _, _, _, c5, c6⟩ := mem_micro64 blkX blkY q hq
      rw [c5, c6] at hc ⊢
      have hc1 := (Prod.mk.inj hc).1
      have hc2 := (Prod.mk.inj hc).2
      rw [show (16 / 4 : Nat) = 4 from rfl] at hc1 hc2 hk ⊢
      rw [hc1, hc2]
      exact hall _ _ b1 b2 hk.symm

theorem outplace64_phases_frame (tw : TwiddleMul Tbl T) (input : Nat → T)
    (tl : Option Tbl) (inp outp ld_in ld_out blkX blkY : Nat) (s : State T) (k : Nat)
    (h : ∀ x y, x < 64 → y < 64 → k ≠ outp + (y * ld_out + x)) :
    ((workers blkX blkY 0 16 16).foldl (fun s w =>
      forLoop (outplace_store outp ld_out 4 w) 16 1 16 0 s)
      ((workers blkX blkY 0 16 16).foldl (fun s w =>
        forLoop (outplace_load tw input tl inp ld_in 4 w) 16 1 16 0 s) s)).output k =
      s.output k := by
  refine staged_block_frame (outplace_load tw input tl inp ld_in 4)
    (outplace_store outp ld_out 4)
    (fun p => outp +
      ((p.1.hipThreadIdx_y / 4 + p.2 * (p.1.hipBlockDim_y / 4)) * ld_out +
        (p.1.hipThreadIdx_x + (p.1.hipThreadIdx_y % 4) * p.1.hipBlockDim_x)))
    (fun t p => t.shared (p.1.hipThreadIdx_y / 4 + p.2 * (p.1.hipBlockDim_y / 4))
      (p.1.hipThreadIdx_x + (p.1.hipThreadIdx_y % 4) * p.1.hipBlockDim_x))
    (fun _ _ _ => rfl) (fun _ _ _ => rfl) _ _ s k ?_
  intro p hp hk
  obtain ⟨b1, b2, _, _, b5, b6⟩ := mem_micro64 blkX blkY p hp
  dsimp only at hk
  rw [b5, b6] at hk
  exact h _ _ b1 b2 hk.symm

theorem outplace64_block_output_of (tw : TwiddleMul Tbl T) (input : Nat → T) (tl : Option Tbl)
    (dim : Nat) (lengths stride_in stride_out : Nat → Nat) (blkX blkY : Nat) (s : State T)
    (k : Nat) (v : T)
    (hex : ∃ x y, x < 64 ∧ y < 64 ∧
      k = outplace_oOffset dim lengths stride_in stride_out (blkX / (lengths 0 / 64)) +
        (stride_out 1 * (blkX % (lengths 0 / 64)) * 64 + blkY * 64) + (y * stride_out 1 + x))
    (hall : ∀ x y, x < 64 → y < 64 →
      k = outplace_oOffset dim lengths stride_in stride_out (blkX / (lengths 0 / 64)) +
        (stride_out 1 * (blkX % (lengths 0 / 64)) * 64 + blkY * 64) + (y * stride_out 1 + x) →
      outplace_value tw input tl
        (outplace_iOffset dim lengths stride_in stride_out (blkX / (lengths 0 / 64)) +
          (stride_in 1 * blkY * 64 + blkX % (lengths 0 / 64) * 64)) (stride_in 1) y x = v) :
    (transpose_kernel_outplace tw 4 4 16 16 input tl dim lengths stride_in stride_out
      blkX blkY 16 16 s).output k = v := by
  rw [outplace64_eq]
  exact outplace64_phases_output_of tw input tl _ _ _ _ blkX blkY s k v hex hall

theorem outplace64_block_frame (tw : TwiddleMul Tbl T) (input : Nat → T) (tl : Option Tbl)
    (dim : Nat) (lengths stride_in stride_out : Nat → Nat) (blkX blkY : Nat) (s : State T)
    (k : Nat)
    (h : ∀ x y, x < 64 → y < 64 →
      k ≠ outplace_oOffset dim lengths stride_in stride_out (blkX / (lengths 0 / 64)) +
        (stride_out 1 * (blkX % (lengths 0 / 64)) * 64 + blkY * 64) + (y * stride_out 1 + x)) :
    (transpose_kernel_outplace tw 4 4 16 16 input tl dim lengths stride_in stride_out
      blkX blkY 16 16 s).output k = s.output k := by
  rw [outplace64_eq]
  exact outplace64_phases_frame tw input tl _ _ _ _ blkX blkY s k h

theorem batchLoop_wrap (M base : Nat) (lengths stride_in stride_out : Nat → Nat) :
    ∀ (cnt cm a b : Nat),
      batchLoop (fun x => x % M) base lengths stride_in stride_out cnt (cm, a % M, b % M) =
        ((batchLoop id base lengths stride_in stride_out cnt (cm, a, b)).1,
          (batchLoop id base lengths stride_in stride_out cnt (cm, a, b)).2.1 % M,
          (batchLoop id base lengths stride_in stride_out cnt (cm, a, b)).2.2 % M) := by
  intro cnt
  induction cnt with
  | zero => intro cm a b; rfl
  | succ cnt ih =>
    intro cm a b
    simp only [batchLoop, id, Nat.mod_add_mod]
    exact ih _ _ _

/-- The `unsigned int` accumulators hold the unbounded offsets reduced modulo `2^32`. -/
theorem outplace_offsets_mod (dim : Nat) (lengths stride_in stride_out : Nat → Nat) (b : Nat) :
    outplace_iOffset dim lengths stride_in stride_out b =
        kernel2_iOffset dim lengths stride_in stride_out b % 2 ^ 32 ∧
      outplace_oOffset dim lengths stride_in stride_out b =
        kernel2_oOffset dim lengths stride_in stride_out b % 2 ^ 32 := by
  unfold outplace_iOffset outplace_oOffset kernel2_iOffset kernel2_oOffset batchOffsets
  have h := batchLoop_wrap (2 ^ 32) 2 lengths stride_in stride_out (dim - 2) b 0 0
  rw [Nat.zero_mod] at h
  rw [h]
  simp only [id, Nat.mod_add_mod]
  exact ⟨trivial, trivial⟩

/-- Accumulators reduced modulo `M` hold the unbounded offsets reduced modulo `M`. -/
theorem batchOffsets_mod (M base dim : Nat) (lengths stride_in stride_out : Nat → Nat)
    (b : Nat) :
    batchOffsets (fun x => x % M) base dim lengths stride_in stride_out b =
      ((batchOffsets id base dim lengths stride_in stride_out b).1 % M,
        (batchOffsets id base dim lengths stride_in stride_out b).2 % M) := by
  unfold batchOffsets
  have h := batchLoop_wrap M base lengths stride_in stride_out (dim - base) b 0 0
  rw [Nat.zero_mod] at h
  rw [h]
  simp only [id, Nat.mod_add_mod]

end OutplaceLemmas

/-! ## Scheme C with 16 by 16 work-groups -/

section Var1Lemmas

variable {T Tbl : Type}

theorem var1_twiddle_off (tw : TwiddleMul Tbl T) (tl : Option Tbl) (twl dir : Int)
    (idx : Nat) (v : T) (h3 : twl ≠ 3) (h4 : twl ≠ 4) :
    var1_twiddle tw tl twl dir idx v = v := by
  simp [var1_twiddle, h3, h4]

theorem var1_dest_eq (ttd : TransTileDir) (numGroupsY stride_o dist_o gx gy a b : Nat) :
    var1_oOffset ttd numGroupsY stride_o dist_o gx gy 16 16 + (b + stride_o * a) =
      spec_var1_dest ttd numGroupsY stride_o dist_o gx gy a b := by
  unfold var1_oOffset spec_var1_dest
  dsimp only
  split <;> ring

theorem var1_src_eq (ttd : TransTileDir) (numGroupsY stride_i dist_i gx gy a b : Nat) :
    var1_iOffset ttd numGroupsY stride_i dist_i gx gy 16 16 + (a + stride_i * b) =
      spec_var1_src ttd numGroupsY stride_i dist_i gx gy a b := by
  unfold var1_iOffset spec_var1_src
  dsimp only
  split <;> ring

/-- The two phases of a 16 by 16 work-group of `transpose_var1` with twiddle off: the address
of destination cell `(a, b)` ends up holding `v` when every cell stored there was staged
with `v`. -/
theorem var1_phases_output_of (tw : TwiddleMul Tbl T) (dir twl : Int) (ttd : TransTileDir)
    (tl : Option Tbl) (pmComplexIn : Nat → T) (iOffset oOffset stride_i stride_o cdi : Nat)
    (blkX blkY : Nat) (s : State T) (h3 : twl ≠ 3) (h4 : twl ≠ 4) (k : Nat) (v : T)
    (hex : ∃ a b, a < 64 ∧ b < 64 ∧ k = oOffset + (b + stride_o * a))
    (hall : ∀ a b, a < 64 → b < 64 → k = oOffset + (b + stride_o * a) →
      pmComplexIn (iOffset + (a + stride_i * b)) = v) :
    ((workers blkX blkY 0 16 16).foldl (fun s w =>
      forLoop (var1_store oOffset stride_o w) 16 1 16 0 s)
      ((workers blkX blkY 0 16 16).foldl (fun s w =>
        forLoop (var1_load tw dir twl ttd tl pmComplexIn iOffset stride_i cdi w) 16 1 16 0 s)
        s)).output k = v := by
  refine staged_block_output (var1_load tw dir twl ttd tl pmComplexIn iOffset stride_i cdi)
    (var1_store oOffset stride_o)
    (fun p => (p.1.hipThreadIdx_x + p.1.hipBlockDim_x * (p.1.hipThreadIdx_y % (p.1.hipBlockDim_y / 4)),
      p.1.hipThreadIdx_y / (p.1.hipBlockDim_y / 4) + p.2 * (p.1.hipBlockDim_y / 4)))
    (fun p => (p.1.hipThreadIdx_y / (16 / (p.1.hipBlockDim_y / 4)) +
        p.2 * (p.1.hipBlockDim_y / 4 * (p.1.hipBlockDim_x * 4 / (p.1.hipBlockDim_y / 4 * 16))),
      p.1.hipThreadIdx_x + p.1.hipBlockDim_x * (p.1.hipThreadIdx_y % (16 / (p.1.hipBlockDim_y / 4)))))
    (fun p => pmComplexIn (iOffset +
      (p.1.hipThreadIdx_x + p.1.hipBlockDim_x * (p.1.hipThreadIdx_y % (p.1.hipBlockDim_y / 4)) +
        stride_i * (p.1.hipThreadIdx_y / (p.1.hipBlockDim_y / 4) + p.2 * (p.1.hipBlockDim_y / 4)))))
    (fun p => oOffset +
      (p.1.hipThreadIdx_x + p.1.hipBlockDim_x * (p.1.hipThreadIdx_y % (16 / (p.1.hipBlockDim_y / 4))) +
        stride_o * (p.1.hipThreadIdx_y / (16 / (p.1.hipBlockDim_y / 4)) +
          p.2 * (p.1.hipBlockDim_y / 4 * (p.1.hipBlockDim_x * 4 / (p.1.hipBlockDim_y / 4 * 16))))))
    ?_ (fun _ _ _ => rfl) (fun _ _ _ => rfl) _ _ s k v ?_ ?_
  · intro w i t
    unfold var1_load
    simp only [var1_twiddle_off tw tl twl dir _ _ h3 h4, ite_self]
  · obtain ⟨a, b, ha, hb, rfl⟩ := hex
    obtain ⟨p, hp, h1, h2, _, _, h5, h6⟩ := cover64 blkX blkY b a hb ha
    refine ⟨p, hp, ?_⟩
    dsimp only
    rw [h5, h6]
    simp only [Nat.reduceDiv, Nat.reduceMul, Nat.mul_one]
    have e1 : p.1.hipThreadIdx_x + 16 * (p.1.hipThreadIdx_y % 4) = b := by omega
    rw [e1, h2]
  · intro p hp hk
    obtain ⟨b1, b2, _, _, b5, b6⟩ := mem_micro64 blkX blkY p hp
    dsimp only at hk ⊢
    rw [b5, b6] at hk ⊢
    simp only [Nat.reduceDiv, Nat.reduceMul, Nat.mul_one] at hk ⊢
    have e1 : p.1.hipThreadIdx_x + 16 * (p.1.hipThreadIdx_y % 4) =
        p.1.hipThreadIdx_x + (p.1.hipThreadIdx_y % 4) * 16 := by omega
    rw [e1] at hk ⊢
    refine ⟨?_, ?_⟩
    · obtain ⟨q, hq, h1, h2, _, _, h5, h6⟩ := cover64 blkX blkY _ _ b2 b1
      refine ⟨q, hq, ?_⟩
      rw [h5, h6]
      simp only [Nat.reduceDiv]
      have e2 : q.1.hipThreadIdx_x + 16 * (q.1.hipThreadIdx_y % 4) =
          q.1.hipThreadIdx_x + (q.1.hipThreadIdx_y % 4) * 16 := by omega
      rw [e2, h1, h2]
    · intro q hq hc
      obtain ⟨_, _, _, _, c5, c6⟩ := mem_micro64 blkX blkY q hq
      rw [c5, c6] at hc ⊢
      simp only [Nat.reduceDiv] at hc ⊢
      have hc1 := (Prod.mk.inj hc).1
      have hc2 := (Prod.mk.inj hc).2
      rw [hc1, hc2]
      exact hall _ _ b2 b1 hk.symm

theorem var1_phases_frame (tw : TwiddleMul Tbl T) (dir twl : Int) (ttd : TransTileDir)
    (tl : Option Tbl) (pmComplexIn : Nat → T) (iOffset oOffset stride_i stride_o cdi : Nat)
    (blkX blkY : Nat) (s : State T) (k : Nat)
    (h : ∀ a b, a < 64 → b < 64 → k ≠ oOffset + (b + stride_o * a)) :
    ((workers blkX blkY 0 16 16).foldl (fun s w =>
      forLoop (var1_store oOffset stride_o w) 16 1 16 0 s)
      ((workers blkX blkY 0 16 16).foldl (fun s w =>
        forLoop (var1_load tw dir twl ttd tl pmComplexIn iOffset stride_i cdi w) 16 1 16 0 s)
        s)).output k = s.output k := by
  refine staged_block_frame (var1_load tw dir twl ttd tl pmComplexIn iOffset stride_i cdi)
    (var1_store oOffset stride_o)
    (fun p => oOffset +
      (p.1.hipThreadIdx_x + p.1.hipBlockDim_x * (p.1.hipThreadIdx_y % (16 / (p.1.hipBlockDim_y / 4))) +
        stride_o * (p.1.hipThreadIdx_y / (16 / (p.1.hipBlockDim_y / 4)) +
          p.2 * (p.1.hipBlockDim_y / 4 * (p.1.hipBlockDim_x * 4 / (p.1.hipBlockDim_y / 4 * 16))))))
    (fun t p => t.shared (p.1.hipThreadIdx_y / (16 / (p.1.hipBlockDim_y / 4)) +
        p.2 * (p.1.hipBlockDim_y / 4 * (p.1.hipBlockDim_x * 4 / (p.1.hipBlockDim_y / 4 * 16))))
      (p.1.hipThreadIdx_x + p.1.hipBlockDim_x * (p.1.hipThreadIdx_y % (16 / (p.1.hipBlockDim_y / 4)))))
    (fun _ _ _ => rfl) (fun _ _ _ => rfl) _ _ s k ?_
  intro p hp hk
  obtain ⟨b1, b2, _, _, b5, b6⟩ := mem_micro64 blkX blkY p hp
  dsimp only at hk
  rw [b5, b6] at hk
  simp only [Nat.reduceDiv, Nat.reduceMul, Nat.mul_one] at hk
  have e1 : p.1.hipThreadIdx_x + 16 * (p.1.hipThreadIdx_y % 4) =
      p.1.hipThreadIdx_x + (p.1.hipThreadIdx_y % 4) * 16 := by omega
  rw [e1] at hk
  exact h _ _ b2 b1 hk.symm

/-- The kernel body of `transpose_var1` on a 16 by 16 work-group. -/
theorem var1_16_eq (tw : TwiddleMul Tbl T) (dir twl : Int) (ttd : TransTileDir)
    (tl : Option Tbl) (pmComplexIn : Nat → T)
    (numGroupsY stride_i stride_o dist_i dist_o blkX blkY : Nat) (s : State T) :
    transpose_var1 tw dir twl ttd tl pmComplexIn numGroupsY stride_i stride_o dist_i dist_o
      blkX blkY 16 16 s =
    (workers blkX blkY 0 16 16).foldl (fun s w =>
      forLoop (var1_store (var1_oOffset ttd numGroupsY stride_o dist_o blkX blkY 16 16)
        stride_o w) 16 1 16 0 s)
      ((workers blkX blkY 0 16 16).foldl (fun s w =>
        forLoop (var1_load tw dir twl ttd tl pmComplexIn
          (var1_iOffset ttd numGroupsY stride_i dist_i blkX blkY 16 16) stride_i
          (blkY % numGroupsY) w) 16 1 16 0 s) s) := rfl

end Var1Lemmas

/-! ## The resolver started at an arbitrary dimension -/

theorem currentLength_eq_from (base : Nat) (lengths : Nat → Nat) (i : Nat) (hi : base ≤ i) :
    currentLength base lengths i = spec_radix_from base lengths i := by
  unfold currentLength spec_radix_from
  rw [forLoop_prod lengths i i base 1 (by omega) hi, Nat.one_mul]

theorem spec_radix_from_succ (base : Nat) (lengths : Nat → Nat) (j : Nat) (hj : base ≤ j) :
    spec_radix_from base lengths (j + 1) = spec_radix_from base lengths j * lengths j := by
  unfold spec_radix_from
  rw [Finset.prod_Ico_succ_top hj]

theorem spec_flatIndex_from_succ (base : Nat) (lengths c : Nat → Nat) (t : Nat)
    (ht : base ≤ t + 1) :
    spec_flatIndex_from base lengths c (t + 1) =
      spec_flatIndex_from base lengths c t + c (t + 1) * spec_radix_from base lengths (t + 1) := by
  unfold spec_flatIndex_from
  rw [Finset.sum_Icc_succ_top ht]

theorem spec_offset_from_succ (base : Nat) (stride c : Nat → Nat) (t : Nat)
    (ht : base ≤ t + 1) :
    spec_offset_from base stride c (t + 1) =
      spec_offset_from base stride c t + c (t + 1) * stride (t + 1) := by
  unfold spec_offset_from
  rw [Finset.sum_Icc_succ_top ht]

/-- Mixed-radix bound for a counter started at dimension `base`. -/
theorem spec_flatIndex_from_lt (base : Nat) (lengths c : Nat → Nat) (dim : Nat)
    (hc : ∀ j, base ≤ j → j < dim → c j < lengths j) :
    ∀ u, base + u < dim →
      spec_flatIndex_from base lengths c (base + u) < spec_radix_from base lengths (base + u + 1) := by
  intro u
  induction u with
  | zero =>
    intro h
    have h2 := hc base (le_refl _) h
    simp [spec_flatIndex_from, spec_radix_from]
    exact h2
  | succ u ih =>
    intro h
    have h1 := ih (by omega)
    have h2 := hc (base + u + 1) (by omega) (by omega)
    rw [show base + (u + 1) = base + u + 1 from rfl,
      spec_flatIndex_from_succ base lengths c (base + u) (by omega),
      spec_radix_from_succ base lengths (base + u + 1) (by omega)]
    calc spec_flatIndex_from base lengths c (base + u) +
          c (base + u + 1) * spec_radix_from base lengths (base + u + 1)
        < spec_radix_from base lengths (base + u + 1) +
            c (base + u + 1) * spec_radix_from base lengths (base + u + 1) := by omega
      _ = spec_radix_from base lengths (base + u + 1) * (c (base + u + 1) + 1) := by ring
      _ ≤ spec_radix_from base lengths (base + u + 1) * lengths (base + u + 1) :=
          Nat.mul_le_mul_left _ h2

theorem batchLoop_spec_from (base : Nat) (lengths stride_in stride_out c : Nat → Nat) (dim : Nat)
    (hc : ∀ j, base ≤ j → j < dim → c j < lengths j) :
    ∀ (cnt a b : Nat), base + cnt ≤ dim →
      batchLoop id base lengths stride_in stride_out cnt
          (spec_flatIndex_from base lengths c (base + cnt), a, b) =
        (c base, a + spec_offset_from base stride_in c (base + cnt) - c base * stride_in base,
          b + spec_offset_from base stride_out c (base + cnt) - c base * stride_out base) := by
  intro cnt
  induction cnt with
  | zero =>
    intro a b _
    simp [batchLoop, spec_flatIndex_from, spec_offset_from, spec_radix_from]
  | succ cnt ih =>
    intro a b h
    have hlt := spec_flatIndex_from_lt base lengths c dim hc cnt (by omega)
    have hpos : 0 < spec_radix_from base lengths (base + cnt + 1) := by omega
    have hdiv : spec_flatIndex_from base lengths c (base + cnt + 1) /
        spec_radix_from base lengths (base + cnt + 1) = c (base + cnt + 1) := by
      rw [spec_flatIndex_from_succ base lengths c (base + cnt) (by omega),
        Nat.add_mul_div_right _ _ hpos, Nat.div_eq_of_lt hlt, Nat.zero_add]
    have hmod : spec_flatIndex_from base lengths c (base + cnt + 1) %
        spec_radix_from base lengths (base + cnt + 1) =
        spec_flatIndex_from base lengths c (base + cnt) := by
      rw [spec_flatIndex_from_succ base lengths c (base + cnt) (by omega),
        Nat.add_mul_mod_self_right, Nat.mod_eq_of_lt hlt]
    rw [show base + (cnt + 1) = base + cnt + 1 from rfl]
    simp only [batchLoop, id]
    rw [currentLength_eq_from base lengths (base + cnt + 1) (by omega), hdiv, hmod,
      ih _ _ (by omega), spec_offset_from_succ base stride_in c (base + cnt) (by omega),
      spec_offset_from_succ base stride_out c (base + cnt) (by omega)]
    have e1 : c base * stride_in base ≤ spec_offset_from base stride_in c (base + cnt) := by
      unfold spec_offset_from
      exact Finset.single_le_sum (f := fun j => c j * stride_in j) (fun _ _ => Nat.zero_le _)
        (Finset.mem_Icc.2 ⟨le_refl _, by omega⟩)
    have e2 : c base * stride_out base ≤ spec_offset_from base stride_out c (base + cnt) := by
      unfold spec_offset_from
      exact Finset.single_le_sum (f := fun j => c j * stride_out j) (fun _ _ => Nat.zero_le _)
        (Finset.mem_Icc.2 ⟨le_refl _, by omega⟩)
    refine Prod.ext rfl (Prod.ext ?_ ?_) <;> dsimp only <;> omega

/-- The resolver started at dimension `base` equals mixed-radix flattening of the batch
coordinate `c_base .. c_dim`. -/
theorem batchOffsets_spec_from (base : Nat) (lengths stride_in stride_out c : Nat → Nat)
    (dim : Nat) (hdim : base ≤ dim) (hc : ∀ j, base ≤ j → j < dim → c j < lengths j) :
    batchOffsets id base dim lengths stride_in stride_out (spec_flatIndex_from base lengths c dim) =
      (spec_offset_from base stride_in c dim, spec_offset_from base stride_out c dim) := by
  unfold batchOffsets
  have h := batchLoop_spec_from base lengths stride_in stride_out c dim hc (dim - base) 0 0
    (by omega)
  rw [show base + (dim - base) = dim by omega] at h
  rw [h]
  have e1 : c base * stride_in base ≤ spec_offset_from base stride_in c dim := by
    unfold spec_offset_from
    exact Finset.single_le_sum (f := fun j => c j * stride_in j) (fun _ _ => Nat.zero_le _)
      (Finset.mem_Icc.2 ⟨le_refl _, hdim⟩)
  have e2 : c base * stride_out base ≤ spec_offset_from base stride_out c dim := by
    unfold spec_offset_from
    exact Finset.single_le_sum (f := fun j => c j * stride_out j) (fun _ _ => Nat.zero_le _)
      (Finset.mem_Icc.2 ⟨le_refl _, hdim⟩)
  refine Prod.ext ?_ ?_ <;> simp only [id] <;> omega

/-! ## The resolver over arrays of known extent -/

theorem readAt_ok (a : List Nat) (i : Nat) (h : i < a.length) :
    readAt a i = Except.ok (arr a i) := by
  unfold readAt arr
  rw [List.getElem?_eq_getElem h]
  simp [List.getD, List.getElem?_eq_getElem h]

theorem readAt_err (a : List Nat) (i : Nat) (h : a.length ≤ i) :
    readAt a i = Except.error i := by
  unfold readAt
  rw [List.getElem?_eq_none h]

theorem forLoop_checked (lengths : List Nat) (bound : Nat) (hb : bound ≤ lengths.length) :
    ∀ (fuel j acc : Nat),
      forLoop (fun j cl => cl.bind fun c => (readAt lengths j).map fun l => c * l) bound 1 fuel j
          (Except.ok acc) =
        Except.ok (forLoop (fun j cl => cl * arr lengths j) bound 1 fuel j acc) := by
  intro fuel
  induction fuel with
  | zero => intro j acc; rfl
  | succ fuel ih =>
    intro j acc
    by_cases h : j < bound
    · simp only [forLoop, h, if_true]
      rw [readAt_ok lengths j (by omega)]
      exact ih _ _
    · simp only [forLoop, h, if_false]

theorem currentLength_checked_ok (base : Nat) (lengths : List Nat) (i : Nat)
    (hi : i ≤ lengths.length) :
    currentLength_checked base lengths i = Except.ok (currentLength base (arr lengths) i) :=
  forLoop_checked lengths i hi i base 1

theorem batchLoop_checked_ok (wrap : Nat → Nat) (base : Nat)
    (lengths stride_in stride_out : List Nat) :
    ∀ (cnt : Nat) (st : Nat × Nat × Nat), base + cnt ≤ lengths.length →
      base + cnt < stride_in.length → base + cnt < stride_out.length →
      batchLoop_checked wrap base lengths stride_in stride_out cnt st =
        Except.ok (batchLoop wrap base (arr lengths) (arr stride_in) (arr stride_out) cnt st) := by
  intro cnt
  induction cnt with
  | zero => intro st _ _ _; rfl
  | succ cnt ih =>
    rintro ⟨cm, a, b⟩ h1 h2 h3
    simp only [batchLoop_checked, batchLoop]
    rw [currentLength_checked_ok base lengths _ (by omega), readAt_ok stride_in _ (by omega),
      readAt_ok stride_out _ (by omega)]
    exact ih _ (by omega) (by omega) (by omega)

/-- With `lengths` holding at least `dim` entries and both stride arrays at least `dim + 1`,
every read of the resolver is in range and the result is that of the resolver on the
arrays. -/
theorem batchOffsets_checked_ok (wrap : Nat → Nat) (base dim : Nat)
    (lengths stride_in stride_out : List Nat) (counter : Nat) (hdim : base ≤ dim)
    (h1 : dim ≤ lengths.length) (h2 : dim < stride_in.length) (h3 : dim < stride_out.length) :
    batchOffsets_checked wrap base dim lengths stride_in stride_out counter =
      Except.ok (batchOffsets wrap base dim (arr lengths) (arr stride_in) (arr stride_out)
        counter) := by
  unfold batchOffsets_checked batchOffsets
  rw [batchLoop_checked_ok wrap base lengths stride_in stride_out (dim - base) _ (by omega)
    (by omega) (by omega), readAt_ok stride_in base (by omega),
    readAt_ok stride_out base (by omega)]
  rfl

/-- With `stride_in` holding exactly `dim` entries the resolver reads `stride_in[dim]`, out of
range. -/
theorem batchOffsets_checked_err (wrap : Nat → Nat) (dim : Nat)
    (lengths stride_in stride_out : List Nat) (counter : Nat) (hdim : 2 ≤ dim)
    (h1 : dim ≤ lengths.length) (h2 : stride_in.length = dim) :
    batchOffsets_checked wrap 2 dim lengths stride_in stride_out counter = Except.error dim := by
  unfold batchOffsets_checked
  obtain ⟨cnt, rfl⟩ : ∃ cnt, dim = 2 + cnt := ⟨dim - 2, by omega⟩
  cases cnt with
  | zero =>
    simp only [Nat.add_zero, Nat.sub_self, batchLoop_checked]
    rw [readAt_err stride_in 2 (by omega)]
    rfl
  | succ cnt =>
    rw [show 2 + (cnt + 1) - 2 = cnt + 1 by omega]
    simp only [batchLoop_checked]
    rw [currentLength_checked_ok 2 lengths _ (by omega), readAt_err stride_in _ (by omega)]
    rfl

/-! ## Twiddle multiplication in Schemes B and C -/

section Var1TwiddleLemmas

variable {T Tbl : Type}

/-- The two phases of a 16 by 16 work-group of `transpose_var1`, any twiddle level: the
address of destination cell `(a, b)` ends up holding `v` when every cell stored there was
staged with `v`. -/
theorem var1_phases_output_tw (tw : TwiddleMul Tbl T) (dir twl : Int) (ttd : TransTileDir)
    (tl : Option Tbl) (pmComplexIn : Nat → T) (iOffset oOffset stride_i stride_o cdi : Nat)
    (blkX blkY : Nat) (s : State T) (k : Nat) (v : T)
    (hex : ∃ a b, a < 64 ∧ b < 64 ∧ k = oOffset + (b + stride_o * a))
    (hall : ∀ a b, a < 64 → b < 64 → k = oOffset + (b + stride_o * a) →
      var1_value tw dir twl ttd tl pmComplexIn iOffset stride_i blkX cdi a b = v) :
    ((workers blkX blkY 0 16 16).foldl (fun s w =>
      forLoop (var1_store oOffset stride_o w) 16 1 16 0 s)
      ((workers blkX blkY 0 16 16).foldl (fun s w =>
        forLoop (var1_load tw dir twl ttd tl pmComplexIn iOffset stride_i cdi w) 16 1 16 0 s)
        s)).output k = v := by
  refine staged_block_output (var1_load tw dir twl ttd tl pmComplexIn iOffset stride_i cdi)
    (var1_store oOffset stride_o)
    (fun p => (p.1.hipThreadIdx_x + p.1.hipBlockDim_x * (p.1.hipThreadIdx_y % (p.1.hipBlockDim_y / 4)),
      p.1.hipThreadIdx_y / (p.1.hipBlockDim_y / 4) + p.2 * (p.1.hipBlockDim_y / 4)))
    (fun p => (p.1.hipThreadIdx_y / (16 / (p.1.hipBlockDim_y / 4)) +
        p.2 * (p.1.hipBlockDim_y / 4 * (p.1.hipBlockDim_x * 4 / (p.1.hipBlockDim_y / 4 * 16))),
      p.1.hipThreadIdx_x + p.1.hipBlockDim_x * (p.1.hipThreadIdx_y % (16 / (p.1.hipBlockDim_y / 4)))))
    (fun p =>
      if ttd = TransTileDir.TTD_IP_HOR then
        var1_twiddle tw tl twl dir
          ((p.1.hipBlockIdx_x * (p.1.hipBlockDim_x * 4) +
              (p.1.hipThreadIdx_x + p.1.hipBlockDim_x * (p.1.hipThreadIdx_y % (p.1.hipBlockDim_y / 4)))) *
            (cdi * (p.1.hipBlockDim_y / 4) * 16 +
              (p.1.hipThreadIdx_y / (p.1.hipBlockDim_y / 4) + p.2 * (p.1.hipBlockDim_y / 4))))
          (pmComplexIn (iOffset +
            (p.1.hipThreadIdx_x + p.1.hipBlockDim_x * (p.1.hipThreadIdx_y % (p.1.hipBlockDim_y / 4)) +
              stride_i * (p.1.hipThreadIdx_y / (p.1.hipBlockDim_y / 4) + p.2 * (p.1.hipBlockDim_y / 4)))))
      else
        var1_twiddle tw tl twl dir
          ((p.1.hipBlockIdx_x * (p.1.hipBlockDim_y / 4) * 16 +
              (p.1.hipThreadIdx_y / (p.1.hipBlockDim_y / 4) + p.2 * (p.1.hipBlockDim_y / 4))) *
            (cdi * (p.1.hipBlockDim_x * 4) +
              (p.1.hipThreadIdx_x + p.1.hipBlockDim_x * (p.1.hipThreadIdx_y % (p.1.hipBlockDim_y / 4)))))
          (pmComplexIn (iOffset +
            (p.1.hipThreadIdx_x + p.1.hipBlockDim_x * (p.1.hipThreadIdx_y % (p.1.hipBlockDim_y / 4)) +
              stride_i * (p.1.hipThreadIdx_y / (p.1.hipBlockDim_y / 4) + p.2 * (p.1.hipBlockDim_y / 4))))))
    (fun p => oOffset +
      (p.1.hipThreadIdx_x + p.1.hipBlockDim_x * (p.1.hipThreadIdx_y % (16 / (p.1.hipBlockDim_y / 4))) +
        stride_o * (p.1.hipThreadIdx_y / (16 / (p.1.hipBlockDim_y / 4)) +
          p.2 * (p.1.hipBlockDim_y / 4 * (p.1.hipBlockDim_x * 4 / (p.1.hipBlockDim_y / 4 * 16))))))
    ?_ (fun _ _ _ => rfl) (fun _ _ _ => rfl) _ _ s k v ?_ ?_
  · intro w i t
    unfold var1_load
    rfl
  · obtain ⟨a, b, ha, hb, rfl⟩ := hex
    obtain ⟨p, hp, h1, h2, _, _, h5, h6⟩ := cover64 blkX blkY b a hb ha
    refine ⟨p, hp, ?_⟩
    dsimp only
    rw [h5, h6]
    simp only [Nat.reduceDiv, Nat.reduceMul, Nat.mul_one]
    have e1 : p.1.hipThreadIdx_x + 16 * (p.1.hipThreadIdx_y % 4) = b := by omega
    rw [e1, h2]
  · intro p hp hk
    obtain ⟨b1, b2, b3, _, b5, b6⟩ := mem_micro64 blkX blkY p hp
    dsimp only at hk ⊢
    rw [b5, b6] at hk ⊢
    simp only [Nat.reduceDiv, Nat.reduceMul, Nat.mul_one] at hk ⊢
    have e1 : p.1.hipThreadIdx_x + 16 * (p.1.hipThreadIdx_y % 4) =
        p.1.hipThreadIdx_x + (p.1.hipThreadIdx_y % 4) * 16 := by omega
    rw [e1] at hk ⊢
    refine ⟨?_, ?_⟩
    · obtain ⟨q, hq, h1, h2, _, _, h5, h6⟩ := cover64 blkX blkY _ _ b2 b1
      refine ⟨q, hq, ?_⟩
      rw [h5, h6]
      simp only [Nat.reduceDiv]
      have e2 : q.1.hipThreadIdx_x + 16 * (q.1.hipThreadIdx_y % 4) =
          q.1.hipThreadIdx_x + (q.1.hipThreadIdx_y % 4) * 16 := by omega
      rw [e2, h1, h2]
    · intro q hq hc
      obtain ⟨_, _, c3, _, c5, c6⟩ := mem_micro64 blkX blkY q hq
      rw [c5, c6] at hc
      rw [c3, c5, c6]
      simp only [Nat.reduceDiv, Nat.reduceMul] at hc ⊢
      have hc1 := (Prod.mk.inj hc).1
      have hc2 := (Prod.mk.inj hc).2
      rw [hc1, hc2]
      have := hall _ _ b2 b1 hk.symm
      unfold var1_value at this
      simp only [Nat.reduceDiv, Nat.reduceMul] at this
      exact this

/-- One 16 by 16 work-group of `transpose_var1` with `stride_o ≥ 64`: destination cell
`(a, b)` of its tile ends up holding the value staged in `lds[a][b]`. -/
theorem var1_block_output (tw : TwiddleMul Tbl T) (dir twl : Int) (ttd : TransTileDir)
    (tl : Option Tbl) (pmComplexIn : Nat → T)
    (numGroupsY stride_i stride_o dist_i dist_o gx gy : Nat) (s : State T)
    (hs : 64 ≤ stride_o) (a b : Nat) (ha : a < 64) (hb : b < 64) :
    (transpose_var1 tw dir twl ttd tl pmComplexIn numGroupsY stride_i stride_o dist_i dist_o
      gx gy 16 16 s).output
        (var1_oOffset ttd numGroupsY stride_o dist_o gx gy 16 16 + (b + stride_o * a)) =
      var1_value tw dir twl ttd tl pmComplexIn
        (var1_iOffset ttd numGroupsY stride_i dist_i gx gy 16 16) stride_i gx
        (gy % numGroupsY) a b := by
  rw [var1_16_eq]
  apply var1_phases_output_tw
  · exact ⟨a, b, ha, hb, rfl⟩
  · intro a' b' _ hb' hk
    have hk' : b + a * stride_o = b' + a' * stride_o := by
      have := Nat.add_left_cancel hk
      rw [Nat.mul_comm stride_o a, Nat.mul_comm stride_o a'] at this
      exact this
    obtain ⟨h1, h2⟩ := addr_inj (L := stride_o) (by omega) (by omega) hk'
    rw [h1, h2]

/-- One work-group of `transpose_kernel_outplace` at the 64 by 64 instantiation with
`stride_out[1] ≥ 64`: destination cell `(x, y)` of its tile ends up holding the value staged
in `lds[x][y]`. -/
theorem outplace64_block_output (tw : TwiddleMul Tbl T) (input : Nat → T) (tl : Option Tbl)
    (dim : Nat) (lengths stride_in stride_out : Nat → Nat) (blkX blkY : Nat) (s : State T)
    (hs : 64 ≤ stride_out 1) (x y : Nat) (hx : x < 64) (hy : y < 64) :
    (transpose_kernel_outplace tw 4 4 16 16 input tl dim lengths stride_in stride_out
      blkX blkY 16 16 s).output
        (outplace_oOffset dim lengths stride_in stride_out (blkX / (lengths 0 / 64)) +
          (stride_out 1 * (blkX % (lengths 0 / 64)) * 64 + blkY * 64) +
          (x * stride_out 1 + y)) =
      outplace_value tw input tl
        (outplace_iOffset dim lengths stride_in stride_out (blkX / (lengths 0 / 64)) +
          (stride_in 1 * blkY * 64 + blkX % (lengths 0 / 64) * 64)) (stride_in 1) x y := by
  apply outplace64_block_output_of
  · exact ⟨y, x, hy, hx, rfl⟩
  · intro x' y' hx' _ hk
    have hk' : y + x * stride_out 1 = x' + y' * stride_out 1 := by
      have := Nat.add_left_cancel hk
      omega
    obtain ⟨h1, h2⟩ := addr_inj (L := stride_out 1) (by omega) (by omega) hk'
    rw [h1, h2]

/-- On a 16 by 16 work-group both loops of `transpose_var1` compute the same `(xInd, yInd)`. -/
theorem var1_ind_eq (w : Worker) (t : Nat) (hx : w.hipBlockDim_x = 16)
    (hy : w.hipBlockDim_y = 16) : var1_store_ind w t = var1_load_ind w t := by
  simp [var1_store_ind, var1_load_ind, var1_groupingPerY, var1_transposeRatio, hx, hy]

end Var1TwiddleLemmas

/-! ## The staging-buffer accesses of Schemes B and C -/

section StagedTrace

variable {T Tbl : Type}

/-- The staging-buffer accesses of a work-group whose load loop touches cell `cellL` and whose
store loop touches cell `cellS`: those of the load phase, then those of the store phase, one
per (worker, pass) pair in execution order. -/
theorem staged_block_staged (ld st : Worker → Nat → State T → State T)
    (cellL cellS : Worker × Nat → Nat × Nat)
    (hld : ∀ w i s, (ld w i s).staged = s.staged ++ [cellL (w, i)])
    (hst : ∀ w i s, (st w i s).staged = s.staged ++ [cellS (w, i)])
    (ws : List Worker) (bound : Nat) (s : State T) :
    (ws.foldl (fun s w => forLoop (st w) bound 1 bound 0 s)
      (ws.foldl (fun s w => forLoop (ld w) bound 1 bound 0 s) s)).staged =
      s.staged ++ (microsteps ws (loopIdx bound 1 bound 0)).map cellL ++
        (microsteps ws (loopIdx bound 1 bound 0)).map cellS := by
  simp only [forLoop_eq_foldl]
  rw [foldl_microsteps, foldl_microsteps]
  have e1 := foldl_log (fun (s : State T) (p : Worker × Nat) => st p.1 p.2 s)
    (fun t => t.staged) (fun _ => True) (fun p => [cellS p])
    (microsteps ws (loopIdx bound 1 bound 0)) (fun _ _ _ _ => trivial)
    (fun t p _ _ => hst p.1 p.2 t)
    ((microsteps ws (loopIdx bound 1 bound 0)).foldl (fun s p => ld p.1 p.2 s) s) trivial
  have e2 := foldl_log (fun (s : State T) (p : Worker × Nat) => ld p.1 p.2 s)
    (fun t => t.staged) (fun _ => True) (fun p => [cellL p])
    (microsteps ws (loopIdx bound 1 bound 0)) (fun _ _ _ _ => trivial)
    (fun t p _ _ => hld p.1 p.2 t) s trivial
  have e3 : ∀ (f : Worker × Nat → Nat × Nat) (l : List (Worker × Nat)),
      l.flatMap (fun p => [f p]) = l.map f := by
    intro f l
    induction l with
    | nil => rfl
    | cons a l ih => simp [List.flatMap_cons, ih]
  dsimp only at e1 e2
  rw [e1, e2, e3, e3]

/-- Distinct (worker, pass) pairs of a 16 by 16 work-group with 16 passes have distinct
reshaped coordinates. -/
theorem micro64_inj (blkX blkY : Nat) (p q : Worker × Nat)
    (hp : p ∈ microsteps (workers blkX blkY 0 16 16) (loopIdx 16 1 16 0))
    (hq : q ∈ microsteps (workers blkX blkY 0 16 16) (loopIdx 16 1 16 0))
    (h1 : p.1.hipThreadIdx_x + (p.1.hipThreadIdx_y % 4) * 16 =
      q.1.hipThreadIdx_x + (q.1.hipThreadIdx_y % 4) * 16)
    (h2 : p.1.hipThreadIdx_y / 4 + p.2 * 4 = q.1.hipThreadIdx_y / 4 + q.2 * 4) : p = q := by
  rw [mem_microsteps, mem_workers, mem_passes (by decide)] at hp hq
  obtain ⟨⟨a1, a2, a3, a4, a5, a6, a7⟩, a8, _⟩ := hp
  obtain ⟨⟨b1, b2, b3, b4, b5, b6, b7⟩, b8, _⟩ := hq
  obtain ⟨⟨tx, ty, bx, bj, bz, dx, dy⟩, i⟩ := p
  obtain ⟨⟨tx', ty', bx', bj', bz', dx', dy'⟩, i'⟩ := q
  dsimp only at *
  subst a3 a4 a5 a6 a7 b3 b4 b5 b6 b7
  have e1 : tx = tx' := by omega
  have e2 : ty = ty' := by omega
  have e3 : i = i' := by omega
  subst e1 e2 e3
  rfl

theorem count_eq_one_of_nodup {α : Type} [BEq α] [LawfulBEq α] (a : α) :
    ∀ l : List α, l.Nodup → a ∈ l → l.count a = 1 := by
  intro l
  induction l with
  | nil => intro _ h; cases h
  | cons b l ih =>
    intro hn hm
    rw [List.nodup_cons] at hn
    rw [List.count_cons]
    by_cases hab : b = a
    · subst hab
      rw [List.count_eq_zero_of_not_mem hn.1]
      simp
    · have hm' : a ∈ l := by
        rcases List.mem_cons.1 hm with h | h
        · exact absurd h.symm hab
        · exact h
      rw [ih hn.2 hm']
      simp [hab]

/-- Every cell of the 64 by 64 tile is the reshaped coordinate of exactly one (worker, pass)
pair of a 16 by 16 work-group with 16 passes. -/
theorem micro64_count (blkX blkY : Nat) (f : Worker × Nat → Nat × Nat)
    (hf : ∀ p ∈ microsteps (workers blkX blkY 0 16 16) (loopIdx 16 1 16 0),
      f p = (p.1.hipThreadIdx_x + (p.1.hipThreadIdx_y % 4) * 16,
        p.1.hipThreadIdx_y / 4 + p.2 * 4))
    (x y : Nat) (hx : x < 64) (hy : y < 64) :
    ((microsteps (workers blkX blkY 0 16 16) (loopIdx 16 1 16 0)).map f).count (x, y) = 1 := by
  apply count_eq_one_of_nodup
  · apply List.Nodup.map_on
    · intro p hp q hq h
      rw [hf p hp, hf q hq] at h
      exact micro64_inj blkX blkY p q hp hq (Prod.mk.inj h).1 (Prod.mk.inj h).2
    · exact microsteps_nodup _ _ (workers_nodup _ _ _ _ _) (loopIdx_nodup _ _ (by decide) _ _)
  · obtain ⟨p, hp, h1, h2, _⟩ := cover64 blkX blkY x y hx hy
    rw [List.mem_map]
    refine ⟨p, hp, ?_⟩
    rw [hf p hp, h1, h2]

/-- The kernel body of `transpose_kernel_outplace` depends on the tile template parameters
through the macro-tile extents only. -/
theorem outplace_macro64 (tw : TwiddleMul Tbl T)
    (micro_tile_col_size micro_tile_row_size wg_col_size wg_row_size : Nat)
    (input : Nat → T) (tl : Option Tbl) (dim : Nat)
    (lengths stride_in stride_out : Nat → Nat) (blkX blkY : Nat) (s : State T)
    (hc : micro_tile_col_size * wg_col_size = 64) (hr : micro_tile_row_size * wg_row_size = 64) :
    transpose_kernel_outplace tw micro_tile_col_size micro_tile_row_size wg_col_size wg_row_size
      input tl dim lengths stride_in stride_out blkX blkY 16 16 s =
    transpose_kernel_outplace tw 4 4 16 16 input tl dim lengths stride_in stride_out
      blkX blkY 16 16 s := by
  rw [outplace64_eq]
  unfold transpose_kernel_outplace
  rw [hc, hr]

end StagedTrace

section StagedRuns

variable {T Tbl : Type}

/-- The staging-buffer accesses of one work-group of `transpose_kernel_outplace` at the 64 by
64 instantiation. -/
theorem outplace64_staged (tw : TwiddleMul Tbl T) (input : Nat → T) (tl : Option Tbl)
    (dim : Nat) (lengths stride_in stride_out : Nat → Nat) (blkX blkY : Nat) (s : State T) :
    (transpose_kernel_outplace tw 4 4 16 16 input tl dim lengths stride_in stride_out
      blkX blkY 16 16 s).staged =
      s.staged ++
        (microsteps (workers blkX blkY 0 16 16) (loopIdx 16 1 16 0)).map
          (fun p => outplace_subblock 4 p.1 p.2) ++
        (microsteps (workers blkX blkY 0 16 16) (loopIdx 16 1 16 0)).map
          (fun p => ((outplace_subblock 4 p.1 p.2).2, (outplace_subblock 4 p.1 p.2).1)) := by
  rw [outplace64_eq]
  exact staged_block_staged _ _ (fun p => outplace_subblock 4 p.1 p.2)
    (fun p => ((outplace_subblock 4 p.1 p.2).2, (outplace_subblock 4 p.1 p.2).1))
    (fun _ _ _ => rfl) (fun _ _ _ => rfl) _ _ s

/-- The staging-buffer accesses of one 16 by 16 work-group of `transpose_var1`. -/
theorem var1_staged (tw : TwiddleMul Tbl T) (dir twl : Int) (ttd : TransTileDir)
    (tl : Option Tbl) (pmComplexIn : Nat → T)
    (numGroupsY stride_i stride_o dist_i dist_o blkX blkY : Nat) (s : State T) :
    (transpose_var1 tw dir twl ttd tl pmComplexIn numGroupsY stride_i stride_o dist_i dist_o
      blkX blkY 16 16 s).staged =
      s.staged ++
        (microsteps (workers blkX blkY 0 16 16) (loopIdx 16 1 16 0)).map
          (fun p => var1_load_ind p.1 p.2) ++
        (microsteps (workers blkX blkY 0 16 16) (loopIdx 16 1 16 0)).map
          (fun p => ((var1_store_ind p.1 p.2).2, (var1_store_ind p.1 p.2).1)) := by
  rw [var1_16_eq]
  exact staged_block_staged _ _ (fun p => var1_load_ind p.1 p.2)
    (fun p => ((var1_store_ind p.1 p.2).2, (var1_store_ind p.1 p.2).1))
    (fun _ _ _ => rfl) (fun _ _ _ => rfl) _ _ s

theorem outplace_subblock64 (blkX blkY : Nat) (p : Worker × Nat)
    (hp : p ∈ microsteps (workers blkX blkY 0 16 16) (loopIdx 16 1 16 0)) :
    outplace_subblock 4 p.1 p.2 =
      (p.1.hipThreadIdx_x + (p.1.hipThreadIdx_y % 4) * 16,
        p.1.hipThreadIdx_y / 4 + p.2 * 4) := by
  obtain ⟨_, _, _, _, h5, h6⟩ := mem_micro64 blkX blkY p hp
  unfold outplace_subblock
  rw [h5, h6]

theorem var1_load_ind64 (blkX blkY : Nat) (p : Worker × Nat)
    (hp : p ∈ microsteps (workers blkX blkY 0 16 16) (loopIdx 16 1 16 0)) :
    var1_load_ind p.1 p.2 =
      (p.1.hipThreadIdx_x + (p.1.hipThreadIdx_y % 4) * 16,
        p.1.hipThreadIdx_y / 4 + p.2 * 4) := by
  obtain ⟨_, _, _, _, h5, h6⟩ := mem_micro64 blkX blkY p hp
  unfold var1_load_ind
  simp only [h5, h6, Nat.reduceDiv]
  rw [Nat.mul_comm 16]

/-- A swapped list of pairs holds the swapped pair as often as the list holds the pair. -/
theorem count_swap {α : Type} (f : α → Nat × Nat) (l : List α) (x y : Nat) :
    (l.map (fun p => ((f p).2, (f p).1))).count (x, y) = (l.map f).count (y, x) := by
  induction l with
  | nil => rfl
  | cons a l ih =>
    simp only [List.map_cons, List.count_cons, ih]
    congr 1
    by_cases h : f a = (y, x)
    · simp [h]
    · have : ¬ ((f a).2, (f a).1) = (x, y) := by
        intro e
        apply h
        have e1 := (Prod.mk.inj e).1
        have e2 := (Prod.mk.inj e).2
        exact Prod.ext e2 e1
      simp [h, this]

end StagedRuns

/-! ## Claims -/

/-- C1: for every `m = lengths[1] ≥ 1` and `n = lengths[0] ≥ 1` (multiples of `DIM_X` or not),
`transpose_kernel2` with `twl` outside `{2, 3, 4}`, run by work-groups of exactly
`DIM_X * DIM_Y` workers on the `ceil(n / DIM_X)` by `ceil(m / DIM_X)` grid of batch index `z`,
leaves `output[oOffset(z) + c * ld_out + r] = input[iOffset(z) + r * ld_in + c]` for every
row `r < m` and column `c < n`, where `ld_in = stride_in[1] ≥ n`, `ld_out = stride_out[1] ≥ m`
and the offsets are those of the batch-offset resolver. -/
theorem C1_kernel2_transposes_plane {T Tbl : Type} (tw : TwiddleMul Tbl T) (DIM_X DIM_Y : Nat)
    (input : Nat → T) (tl : Option Tbl) (dim : Nat) (lengths stride_in stride_out : Nat → Nat)
    (twl dir : Int) (z dimX dimY : Nat) (s : State T)
    (hX : 1 ≤ DIM_X) (hY : 1 ≤ DIM_Y) (_hm : 1 ≤ lengths 1) (_hn : 1 ≤ lengths 0)
    (h2 : twl ≠ 2) (h3 : twl ≠ 3) (h4 : twl ≠ 4) (hwg : dimX * dimY = DIM_X * DIM_Y)
    (_hin : lengths 0 ≤ stride_in 1) (hout : lengths 1 ≤ stride_out 1)
    (r c : Nat) (hr : r < lengths 1) (hc : c < lengths 0) :
    (transpose_kernel2_launch tw DIM_X DIM_Y input tl dim lengths stride_in stride_out twl dir
      (ceilDiv (lengths 0) DIM_X) (ceilDiv (lengths 1) DIM_X) [z] dimX dimY s).output
        (kernel2_oOffset dim lengths stride_in stride_out z + c * stride_out 1 + r) =
      input (kernel2_iOffset dim lengths stride_in stride_out z + r * stride_in 1 + c) := by
  rw [kernel2_plane_output tw DIM_X DIM_Y input tl dim lengths stride_in stride_out twl dir
    z dimX dimY s hX hY hwg hout r c hr hc]
  exact kernel2_value_off tw input tl twl dir _ _ r c h2 h3 h4

/-- C1 at a 100 by 100 matrix with `DIM_X = 64`, `DIM_Y = 16`: the last row and column, in the
partial tiles. -/
theorem C1_kernel2_transposes_plane_witness :
    (transpose_kernel2_launch twEx 64 16 inEx none 2 (arr [100, 100]) (arr [1, 100])
      (arr [1, 100]) 0 0 (ceilDiv (arr [100, 100] 0) 64) (ceilDiv (arr [100, 100] 1) 64) [0]
      64 16 stEx).output
        (kernel2_oOffset 2 (arr [100, 100]) (arr [1, 100]) (arr [1, 100]) 0 +
          99 * arr [1, 100] 1 + 99) =
      inEx (kernel2_iOffset 2 (arr [100, 100]) (arr [1, 100]) (arr [1, 100]) 0 +
        99 * arr [1, 100] 1 + 99) :=
  C1_kernel2_transposes_plane twEx 64 16 inEx none 2 (arr [100, 100]) (arr [1, 100])
    (arr [1, 100]) 0 0 0 64 16 stEx (by decide) (by decide) (by decide) (by decide)
    (by decide) (by decide) (by decide) (by decide) (by decide) (by decide) 99 99
    (by decide) (by decide)

/-- C2: for every `DIM_X, DIM_Y ≥ 1`, tile extents `1 ≤ m ≤ DIM_X`, `1 ≤ n ≤ DIM_X` and leading
dimensions `ld_in ≥ n`, `ld_out ≥ m`, `transpose_tile_device` run by a work-group of exactly
`DIM_X * DIM_Y` workers with `twl` outside `{2, 3, 4}` ends with
`output[r + c * ld_out] = input[c + r * ld_in]` for every `r < m`, `c < n`; in particular the
4 by 4 input `[[1,2,3,4],[5,6,7,8],[9,10,11,12],[13,14,15,16]]` yields
`[[1,5,9,13],[2,6,10,14],[3,7,11,15],[4,8,12,16]]`. -/
theorem C2_tile_device_transposes :
    (∀ {T Tbl : Type} (tw : TwiddleMul Tbl T) (DIM_X DIM_Y : Nat) (input : Nat → T)
      (inp outp m n gx gy ld_in ld_out : Nat) (tl : Option Tbl) (twl dir : Int)
      (blkX blkY blkZ dimX dimY : Nat) (s : State T),
      1 ≤ DIM_X → 1 ≤ DIM_Y → 1 ≤ m → m ≤ DIM_X → 1 ≤ n → n ≤ DIM_X → n ≤ ld_in →
      m ≤ ld_out → dimX * dimY = DIM_X * DIM_Y → twl ≠ 2 → twl ≠ 3 → twl ≠ 4 →
      ∀ r c, r < m → c < n →
        (transpose_tile_device tw DIM_X DIM_Y input inp outp m n gx gy ld_in ld_out tl twl dir
          (workers blkX blkY blkZ dimX dimY) s).output (outp + (r + c * ld_out)) =
          input (inp + (c + r * ld_in))) ∧
    (∀ {Tbl : Type} (tw : TwiddleMul Tbl Int) (DIM_X DIM_Y gx gy : Nat) (tl : Option Tbl)
      (twl dir : Int) (blkX blkY blkZ dimX dimY : Nat) (s : State Int),
      4 ≤ DIM_X → 1 ≤ DIM_Y → dimX * dimY = DIM_X * DIM_Y → twl ≠ 2 → twl ≠ 3 → twl ≠ 4 →
      readMatrix (transpose_tile_device tw DIM_X DIM_Y
        (matrixBuf [[1, 2, 3, 4], [5, 6, 7, 8], [9, 10, 11, 12], [13, 14, 15, 16]])
        0 0 4 4 gx gy 4 4 tl twl dir (workers blkX blkY blkZ dimX dimY) s).output 4 4 4 =
        [[1, 5, 9, 13], [2, 6, 10, 14], [3, 7, 11, 15], [4, 8, 12, 16]]) := by
  have gen : ∀ {T Tbl : Type} (tw : TwiddleMul Tbl T) (DIM_X DIM_Y : Nat) (input : Nat → T)
      (inp outp m n gx gy ld_in ld_out : Nat) (tl : Option Tbl) (twl dir : Int)
      (blkX blkY blkZ dimX dimY : Nat) (s : State T),
      1 ≤ DIM_X → 1 ≤ DIM_Y → m ≤ DIM_X → n ≤ DIM_X →
      m ≤ ld_out → dimX * dimY = DIM_X * DIM_Y → twl ≠ 2 → twl ≠ 3 → twl ≠ 4 →
      ∀ r c, r < m → c < n →
        (transpose_tile_device tw DIM_X DIM_Y input inp outp m n gx gy ld_in ld_out tl twl dir
          (workers blkX blkY blkZ dimX dimY) s).output (outp + (r + c * ld_out)) =
          input (inp + (c + r * ld_in)) := by
    intro T Tbl tw DIM_X DIM_Y input inp outp m n gx gy ld_in ld_out tl twl dir blkX blkY blkZ
      dimX dimY s hX hY hm hn hld hwg h2 h3 h4 r c hr hc
    rw [tile_device_output tw DIM_X DIM_Y input inp outp m n gx gy ld_in ld_out tl twl dir
      blkX blkY blkZ dimX dimY s hX hY hwg hm hn hld r c hr hc]
    exact twiddle_step_off tw tl twl dir _ _ h2 h3 h4
  refine ⟨fun tw DIM_X DIM_Y input inp outp m n gx gy ld_in ld_out tl twl dir blkX blkY blkZ
      dimX dimY s hX hY _ hm _ hn _ hld hwg h2 h3 h4 r c hr hc =>
    gen tw DIM_X DIM_Y input inp outp m n gx gy ld_in ld_out tl twl dir blkX blkY blkZ
      dimX dimY s hX hY hm hn hld hwg h2 h3 h4 r c hr hc, ?_⟩
  intro Tbl tw DIM_X DIM_Y gx gy tl twl dir blkX blkY blkZ dimX dimY s hX hY hwg h2 h3 h4
  have H : ∀ i j, i < 4 → j < 4 →
      (transpose_tile_device tw DIM_X DIM_Y
        (matrixBuf [[1, 2, 3, 4], [5, 6, 7, 8], [9, 10, 11, 12], [13, 14, 15, 16]])
        0 0 4 4 gx gy 4 4 tl twl dir (workers blkX blkY blkZ dimX dimY) s).output (i * 4 + j) =
      matrixBuf [[1, 2, 3, 4], [5, 6, 7, 8], [9, 10, 11, 12], [13, 14, 15, 16]] (j * 4 + i) := by
    intro i j hi hj
    have := gen tw DIM_X DIM_Y
      (matrixBuf [[1, 2, 3, 4], [5, 6, 7, 8], [9, 10, 11, 12], [13, 14, 15, 16]])
      0 0 4 4 gx gy 4 4 tl twl dir blkX blkY blkZ dimX dimY s (by omega) hY (by omega)
      (by omega) (le_refl _) hwg h2 h3 h4 j i hj hi
    rw [show i * 4 + j = 0 + (j + i * 4) by omega, this]
    congr 1
    omega
  simp only [readMatrix, List.range_succ, List.range_zero, List.nil_append, List.cons_append,
    List.map_cons, List.map_nil]
  rw [H 0 0, H 0 1, H 0 2, H 0 3, H 1 0, H 1 1, H 1 2, H 1 3, H 2 0, H 2 1, H 2 2, H 2 3,
    H 3 0, H 3 1, H 3 2, H 3 3] <;> first | rfl | omega

/-- C2 at a 3 by 2 tile inside a 4 by 4 staging buffer, `DIM_Y = 2`. -/
theorem C2_tile_device_transposes_witness :
    (transpose_tile_device twEx 4 2 inEx 5 9 3 2 0 0 6 7 none 0 1
      (workers 0 0 0 4 2) stEx).output (9 + (2 + 1 * 7)) = inEx (5 + (1 + 2 * 6)) :=
  C2_tile_device_transposes.1 twEx 4 2 inEx 5 9 3 2 0 0 6 7 none 0 1 0 0 0 4 2 stEx
    (by decide) (by decide) (by decide) (by decide) (by decide) (by decide) (by decide)
    (by decide) (by decide) (by decide) (by decide) (by decide) 2 1 (by decide) (by decide)

/-- C5: the batch-offset resolver of `transpose_kernel2` equals mixed-radix flattening.  For
every `dim ≥ 2`, lengths with `lengths[j] ≥ 1` for `2 ≤ j < dim` and coordinates `c_2 .. c_dim`
with `c_j < lengths[j]` for `2 ≤ j < dim` (`c_dim` unconstrained), at the flat index
`∑ c_j * ∏ lengths[k]` (`2 ≤ k < j`) the resolver returns `iOffset = ∑ c_j * stride_in[j]` and
`oOffset = ∑ c_j * stride_out[j]`, over unbounded integers. -/
theorem C5_resolver_is_mixed_radix (dim : Nat) (lengths stride_in stride_out c : Nat → Nat)
    (hdim : 2 ≤ dim) (_hlen : ∀ j, 2 ≤ j → j < dim → 1 ≤ lengths j)
    (hc : ∀ j, 2 ≤ j → j < dim → c j < lengths j) :
    kernel2_iOffset dim lengths stride_in stride_out (spec_flatIndex lengths c dim) =
        spec_offset stride_in c dim ∧
      kernel2_oOffset dim lengths stride_in stride_out (spec_flatIndex lengths c dim) =
        spec_offset stride_out c dim := by
  unfold kernel2_iOffset kernel2_oOffset
  rw [batchOffsets_spec lengths stride_in stride_out c dim hdim hc]
  exact ⟨rfl, rfl⟩

/-- C5 at `dim = 4`, batch lengths `3, 5`, coordinate `(c_2, c_3, c_4) = (1, 4, 2)`. -/
theorem C5_resolver_is_mixed_radix_witness :
    kernel2_iOffset 4 (arr [8, 8, 3, 5]) (arr [1, 8, 64, 192, 960]) (arr [1, 8, 70, 210, 1050])
        (spec_flatIndex (arr [8, 8, 3, 5]) (arr [0, 0, 1, 4, 2]) 4) =
        spec_offset (arr [1, 8, 64, 192, 960]) (arr [0, 0, 1, 4, 2]) 4 ∧
      kernel2_oOffset 4 (arr [8, 8, 3, 5]) (arr [1, 8, 64, 192, 960])
        (arr [1, 8, 70, 210, 1050])
        (spec_flatIndex (arr [8, 8, 3, 5]) (arr [0, 0, 1, 4, 2]) 4) =
        spec_offset (arr [1, 8, 70, 210, 1050]) (arr [0, 0, 1, 4, 2]) 4 :=
  C5_resolver_is_mixed_radix 4 (arr [8, 8, 3, 5]) (arr [1, 8, 64, 192, 960])
    (arr [1, 8, 70, 210, 1050]) (arr [0, 0, 1, 4, 2]) (by decide)
    (by intro j h1 h2; interval_cases j <;> decide)
    (by intro j h1 h2; interval_cases j <;> decide)

/-- C6: round trip for Scheme A.  For every `m, n ≥ 1` and every `m` by `n` row-major matrix
`A` (leading dimension `n`), running `transpose_kernel2` with twiddle disabled on `A` with
`lengths = [n, m]` to obtain the `n` by `m` matrix `B` (leading dimension `m`), and then
running it again on `B` with `lengths = [m, n]` and the leading dimensions swapped, produces
a buffer equal to `A` element for element. -/
theorem C6_kernel2_round_trip {T Tbl : Type} (tw : TwiddleMul Tbl T) (DIM_X DIM_Y : Nat)
    (A : Nat → T) (tl : Option Tbl) (m n : Nat)
    (lengths1 stride_in1 stride_out1 lengths2 stride_in2 stride_out2 : Nat → Nat)
    (twl dir : Int) (dimX dimY : Nat) (s1 s2 : State T)
    (hX : 1 ≤ DIM_X) (hY : 1 ≤ DIM_Y) (_hm : 1 ≤ m) (_hn : 1 ≤ n)
    (h2 : twl ≠ 2) (h3 : twl ≠ 3) (h4 : twl ≠ 4) (hwg : dimX * dimY = DIM_X * DIM_Y)
    (hL1 : lengths1 0 = n ∧ lengths1 1 = m) (hS1 : stride_in1 1 = n ∧ stride_out1 1 = m)
    (hL2 : lengths2 0 = m ∧ lengths2 1 = n) (hS2 : stride_in2 1 = m ∧ stride_out2 1 = n)
    (k : Nat) (hk : k < m * n) :
    (transpose_kernel2_launch tw DIM_X DIM_Y
      (transpose_kernel2_launch tw DIM_X DIM_Y A tl 2 lengths1 stride_in1 stride_out1 twl dir
        (ceilDiv n DIM_X) (ceilDiv m DIM_X) [0] dimX dimY s1).output
      tl 2 lengths2 stride_in2 stride_out2 twl dir
      (ceilDiv m DIM_X) (ceilDiv n DIM_X) [0] dimX dimY s2).output k = A k := by
  have hnpos : 0 < n := by
    rcases Nat.eq_zero_or_pos n with h | h
    · subst h; simp at hk
    · exact h
  have hr : k / n < m := by
    rw [Nat.div_lt_iff_lt_mul hnpos]
    exact hk
  have hc : k % n < n := Nat.mod_lt _ hnpos
  have hkdec : k = k / n * n + k % n := by
    have := Nat.div_add_mod k n
    have h' : k / n * n = n * (k / n) := Nat.mul_comm _ _
    omega
  have o1 := kernel2_offsets_zero 2 lengths1 stride_in1 stride_out1
  have o2 := kernel2_offsets_zero 2 lengths2 stride_in2 stride_out2
  have run2 := kernel2_plane_output tw DIM_X DIM_Y
    (transpose_kernel2_launch tw DIM_X DIM_Y A tl 2 lengths1 stride_in1 stride_out1 twl dir
      (ceilDiv n DIM_X) (ceilDiv m DIM_X) [0] dimX dimY s1).output
    tl 2 lengths2 stride_in2 stride_out2 twl dir 0 dimX dimY s2 hX hY hwg
    (by rw [hL2.2, hS2.2]) (k % n) (k / n) (by rw [hL2.2]; exact hc) (by rw [hL2.1]; exact hr)
  rw [kernel2_value_off tw _ tl twl dir _ _ _ _ h2 h3 h4, o2.1, o2.2, hL2.1, hL2.2, hS2.1,
    hS2.2, Nat.zero_add, Nat.zero_add, ← hkdec] at run2
  rw [run2]
  have run1 := kernel2_plane_output tw DIM_X DIM_Y A tl 2 lengths1 stride_in1 stride_out1
    twl dir 0 dimX dimY s1 hX hY hwg (by rw [hL1.2, hS1.2]) (k / n) (k % n)
    (by rw [hL1.2]; exact hr) (by rw [hL1.1]; exact hc)
  rw [kernel2_value_off tw _ tl twl dir _ _ _ _ h2 h3 h4, o1.1, o1.2, hL1.1, hL1.2, hS1.1,
    hS1.2, Nat.zero_add, Nat.zero_add, ← hkdec] at run1
  exact run1

/-- C6 at a 5 by 3 matrix with `DIM_X = 2`, `DIM_Y = 1`: the last element. -/
theorem C6_kernel2_round_trip_witness :
    (transpose_kernel2_launch twEx 2 1
      (transpose_kernel2_launch twEx 2 1 inEx none 2 (arr [3, 5]) (arr [1, 3]) (arr [1, 5]) 0 0
        (ceilDiv 3 2) (ceilDiv 5 2) [0] 2 1 stEx).output
      none 2 (arr [5, 3]) (arr [1, 5]) (arr [1, 3]) 0 0
      (ceilDiv 5 2) (ceilDiv 3 2) [0] 2 1 stEx).output 14 = inEx 14 :=
  C6_kernel2_round_trip twEx 2 1 inEx none 5 3 (arr [3, 5]) (arr [1, 3]) (arr [1, 5])
    (arr [5, 3]) (arr [1, 5]) (arr [1, 3]) 0 0 2 1 stEx stEx (by decide) (by decide)
    (by decide) (by decide) (by decide) (by decide) (by decide) (by decide) (by decide)
    (by decide) (by decide) (by decide) 14 (by decide)

/-- C7: batch independence for `transpose_kernel2` with twiddle disabled.  For every batch
index `k`, if two input buffers agree on batch `k`'s source plane, then after a full-grid run
over any number of batches `Z ≥ 1` the two output buffers agree on batch `k`'s destination
plane, and that plane equals what a run of batch `k` alone writes, provided the destination
planes of distinct batch indices are disjoint. -/
theorem C7_kernel2_batch_independence {T Tbl : Type} (tw : TwiddleMul Tbl T)
    (DIM_X DIM_Y : Nat) (in1 in2 : Nat → T) (tl : Option Tbl) (dim : Nat)
    (lengths stride_in stride_out : Nat → Nat) (twl dir : Int) (Z k dimX dimY : Nat)
    (s1 s2 s3 : State T)
    (hX : 1 ≤ DIM_X) (hY : 1 ≤ DIM_Y) (h2 : twl ≠ 2) (h3 : twl ≠ 3) (h4 : twl ≠ 4)
    (hwg : dimX * dimY = DIM_X * DIM_Y)
    (_hin : lengths 0 ≤ stride_in 1) (hout : lengths 1 ≤ stride_out 1) (hk : k < Z)
    (hagree : ∀ r c, r < lengths 1 → c < lengths 0 →
      in1 (kernel2_iOffset dim lengths stride_in stride_out k + r * stride_in 1 + c) =
        in2 (kernel2_iOffset dim lengths stride_in stride_out k + r * stride_in 1 + c))
    (hdisj : ∀ z z', z < Z → z' < Z → z ≠ z' → ∀ r c r' c',
      r < lengths 1 → c < lengths 0 → r' < lengths 1 → c' < lengths 0 →
      kernel2_oOffset dim lengths stride_in stride_out z + c * stride_out 1 + r ≠
        kernel2_oOffset dim lengths stride_in stride_out z' + c' * stride_out 1 + r')
    (r c : Nat) (hr : r < lengths 1) (hc : c < lengths 0) :
    (transpose_kernel2_launch tw DIM_X DIM_Y in1 tl dim lengths stride_in stride_out twl dir
      (ceilDiv (lengths 0) DIM_X) (ceilDiv (lengths 1) DIM_X) (List.range Z) dimX dimY
      s1).output (kernel2_oOffset dim lengths stride_in stride_out k + c * stride_out 1 + r) =
    (transpose_kernel2_launch tw DIM_X DIM_Y in2 tl dim lengths stride_in stride_out twl dir
      (ceilDiv (lengths 0) DIM_X) (ceilDiv (lengths 1) DIM_X) (List.range Z) dimX dimY
      s2).output (kernel2_oOffset dim lengths stride_in stride_out k + c * stride_out 1 + r) ∧
    (transpose_kernel2_launch tw DIM_X DIM_Y in1 tl dim lengths stride_in stride_out twl dir
      (ceilDiv (lengths 0) DIM_X) (ceilDiv (lengths 1) DIM_X) (List.range Z) dimX dimY
      s1).output (kernel2_oOffset dim lengths stride_in stride_out k + c * stride_out 1 + r) =
    (transpose_kernel2_launch tw DIM_X DIM_Y in1 tl dim lengths stride_in stride_out twl dir
      (ceilDiv (lengths 0) DIM_X) (ceilDiv (lengths 1) DIM_X) [k] dimX dimY
      s3).output (kernel2_oOffset dim lengths stride_in stride_out k + c * stride_out 1 + r) := by
  have full : ∀ (inp : Nat → T) (s : State T),
      (transpose_kernel2_launch tw DIM_X DIM_Y inp tl dim lengths stride_in stride_out twl dir
        (ceilDiv (lengths 0) DIM_X) (ceilDiv (lengths 1) DIM_X) (List.range Z) dimX dimY
        s).output (kernel2_oOffset dim lengths stride_in stride_out k + c * stride_out 1 + r) =
      inp (kernel2_iOffset dim lengths stride_in stride_out k + r * stride_in 1 + c) := by
    intro inp s
    apply kernel2_launch_output_of tw DIM_X DIM_Y inp tl dim lengths stride_in stride_out
      twl dir (List.range Z) dimX dimY s hX hY hwg
    · exact ⟨k, List.mem_range.2 hk, r, c, hr, hc, rfl⟩
    · intro z hz R C hR hC heq
      rw [List.mem_range] at hz
      by_cases hzk : z = k
      · subst hzk
        have h : r + c * stride_out 1 = R + C * stride_out 1 := by omega
        obtain ⟨e1, e2⟩ := addr_inj (L := stride_out 1) (by omega) (by omega) h
        rw [← e1, ← e2]
        exact kernel2_value_off tw inp tl twl dir _ _ r c h2 h3 h4
      · exact absurd heq.symm (hdisj z k hz hk hzk R C r c hR hC hr hc)
  rw [full in1 s1, full in2 s2,
    kernel2_plane_output tw DIM_X DIM_Y in1 tl dim lengths stride_in stride_out twl dir
      k dimX dimY s3 hX hY hwg hout r c hr hc,
    kernel2_value_off tw in1 tl twl dir _ _ r c h2 h3 h4]
  exact ⟨hagree r c hr hc, rfl⟩

/-- C7 at two batches of 2 by 3 matrices, `DIM_X = 2`, `DIM_Y = 1`, batch `k = 0`: the two
source buffers differ on batch `1`. -/
theorem C7_kernel2_batch_independence_witness :
    (transpose_kernel2_launch twEx 2 1 inEx none 3 (arr [3, 2, 2]) (arr [1, 3, 6])
      (arr [1, 2, 6]) 0 0 (ceilDiv (arr [3, 2, 2] 0) 2) (ceilDiv (arr [3, 2, 2] 1) 2)
      (List.range 2) 2 1 stEx).output
        (kernel2_oOffset 3 (arr [3, 2, 2]) (arr [1, 3, 6]) (arr [1, 2, 6]) 0 +
          2 * arr [1, 2, 6] 1 + 1) =
    (transpose_kernel2_launch twEx 2 1 inEx2 none 3 (arr [3, 2, 2]) (arr [1, 3, 6])
      (arr [1, 2, 6]) 0 0 (ceilDiv (arr [3, 2, 2] 0) 2) (ceilDiv (arr [3, 2, 2] 1) 2)
      (List.range 2) 2 1 stEx).output
        (kernel2_oOffset 3 (arr [3, 2, 2]) (arr [1, 3, 6]) (arr [1, 2, 6]) 0 +
          2 * arr [1, 2, 6] 1 + 1) ∧
    (transpose_kernel2_launch twEx 2 1 inEx none 3 (arr [3, 2, 2]) (arr [1, 3, 6])
      (arr [1, 2, 6]) 0 0 (ceilDiv (arr [3, 2, 2] 0) 2) (ceilDiv (arr [3, 2, 2] 1) 2)
      (List.range 2) 2 1 stEx).output
        (kernel2_oOffset 3 (arr [3, 2, 2]) (arr [1, 3, 6]) (arr [1, 2, 6]) 0 +
          2 * arr [1, 2, 6] 1 + 1) =
    (transpose_kernel2_launch twEx 2 1 inEx none 3 (arr [3, 2, 2]) (arr [1, 3, 6])
      (arr [1, 2, 6]) 0 0 (ceilDiv (arr [3, 2, 2] 0) 2) (ceilDiv (arr [3, 2, 2] 1) 2)
      [0] 2 1 stEx).output
        (kernel2_oOffset 3 (arr [3, 2, 2]) (arr [1, 3, 6]) (arr [1, 2, 6]) 0 +
          2 * arr [1, 2, 6] 1 + 1) :=
  C7_kernel2_batch_independence twEx 2 1 inEx inEx2 none 3 (arr [3, 2, 2]) (arr [1, 3, 6])
    (arr [1, 2, 6]) 0 0 2 0 2 1 stEx stEx stEx (by decide) (by decide) (by decide) (by decide)
    (by decide) (by decide) (by decide) (by decide) (by decide)
    (by
      intro r c hr hc
      have hr' : r < 2 := hr
      have hc' : c < 3 := hc
      interval_cases r <;> interval_cases c <;> rfl)
    (by
      intro z z' hz hz' hne r c r' c' hr hc hr' hc'
      have e0 : kernel2_oOffset 3 (arr [3, 2, 2]) (arr [1, 3, 6]) (arr [1, 2, 6]) 0 = 0 := rfl
      have e1 : kernel2_oOffset 3 (arr [3, 2, 2]) (arr [1, 3, 6]) (arr [1, 2, 6]) 1 = 6 := rfl
      have hs : arr [1, 2, 6] 1 = 2 := rfl
      have hr2 : r < 2 := hr
      have hc2 : c < 3 := hc
      have hr2' : r' < 2 := hr'
      have hc2' : c' < 3 := hc'
      rw [hs]
      interval_cases z <;> interval_cases z' <;> simp only [e0, e1] <;> omega)
    1 2 (by decide) (by decide)

/-- C8: twiddle correctness in the tile transfer primitive.  For `twl` in `{2, 3, 4}`,
`m, n ≤ DIM_X` and a work-group of `DIM_X * DIM_Y` workers, the value `transpose_tile_device`
writes to `output[r + c * ld_out]` is `input[c + r * ld_in]` passed exactly once through the
level-`twl` twiddle multiply at table index `(gx + c) * (gy + r)`: the forward multiply when
`dir = -1`, the inverse multiply for every other `dir`; the write-back pass stores the staged
value as it is.  Stated on the record of stores (every store is of this form and every tile
element has its store) and, for `ld_out ≥ m`, on the final destination buffer. -/
theorem C8_tile_device_twiddle {T Tbl : Type} (tw : TwiddleMul Tbl T) (DIM_X DIM_Y : Nat)
    (input : Nat → T) (inp outp m n gx gy ld_in ld_out : Nat) (tl : Option Tbl)
    (twl dir : Int) (lvl blkX blkY blkZ dimX dimY : Nat) (s : State T)
    (hlvl : lvl = 2 ∨ lvl = 3 ∨ lvl = 4) (htwl : twl = lvl)
    (hX : 1 ≤ DIM_X) (hY : 1 ≤ DIM_Y) (hm : m ≤ DIM_X) (hn : n ≤ DIM_X)
    (hwg : dimX * dimY = DIM_X * DIM_Y) :
    (∃ new : List (Access × T),
      (transpose_tile_device tw DIM_X DIM_Y input inp outp m n gx gy ld_in ld_out tl twl dir
        (workers blkX blkY blkZ dimX dimY) s).stores = s.stores ++ new ∧
      (∀ e ∈ new, ∃ r c, r < m ∧ c < n ∧ e.1.addr = outp + (r + c * ld_out) ∧
        e.2 = if dir = -1
          then tw.FWD lvl tl ((gx + c) * (gy + r)) (input (inp + (c + r * ld_in)))
          else tw.INV lvl tl ((gx + c) * (gy + r)) (input (inp + (c + r * ld_in)))) ∧
      (∀ r c, r < m → c < n → ∃ e ∈ new, e.1.addr = outp + (r + c * ld_out) ∧
        e.2 = if dir = -1
          then tw.FWD lvl tl ((gx + c) * (gy + r)) (input (inp + (c + r * ld_in)))
          else tw.INV lvl tl ((gx + c) * (gy + r)) (input (inp + (c + r * ld_in))))) ∧
    (m ≤ ld_out → ∀ r c, r < m → c < n →
      (transpose_tile_device tw DIM_X DIM_Y input inp outp m n gx gy ld_in ld_out tl twl dir
        (workers blkX blkY blkZ dimX dimY) s).output (outp + (r + c * ld_out)) =
        if dir = -1
          then tw.FWD lvl tl ((gx + c) * (gy + r)) (input (inp + (c + r * ld_in)))
          else tw.INV lvl tl ((gx + c) * (gy + r)) (input (inp + (c + r * ld_in)))) := by
  have hval : ∀ r c, tile_value tw input inp gx gy ld_in tl twl dir c r =
      if dir = -1
        then tw.FWD lvl tl ((gx + c) * (gy + r)) (input (inp + (c + r * ld_in)))
        else tw.INV lvl tl ((gx + c) * (gy + r)) (input (inp + (c + r * ld_in))) := by
    intro r c
    unfold tile_value
    exact twiddle_step_on tw tl twl dir _ _ lvl hlvl htwl
  refine ⟨⟨_, tile_device_stores tw DIM_X DIM_Y input inp outp m n gx gy ld_in ld_out tl twl
    dir _ s, ?_, ?_⟩, ?_⟩
  · intro e he
    rw [List.mem_flatMap] at he
    obtain ⟨⟨w, i⟩, _, he⟩ := he
    rw [mem_tile_store_ev] at he
    obtain ⟨hg, rfl⟩ := he
    unfold tile_store_guard at hg
    dsimp only at hg ⊢
    refine ⟨w.tx1 DIM_X, w.ty1 DIM_X + i, hg.1, hg.2, by rw [Nat.add_comm i], ?_⟩
    rw [tile_shared_at_barrier tw DIM_X DIM_Y input inp m n gx gy ld_in tl twl dir
      blkX blkY blkZ dimX dimY s hX hY hwg hn _ _ hg.1 hg.2, hval]
  · intro r c hr hc
    obtain ⟨w, hw, i, hdvd, hle, hx, hy⟩ :=
      workers_cover DIM_X DIM_Y blkX blkY blkZ dimX dimY hX hY hwg r c (by omega)
    refine ⟨(⟨w, i, outp + (w.tx1 DIM_X + (i + w.ty1 DIM_X) * ld_out)⟩,
      (tile_load_phase tw DIM_X DIM_Y input inp m n gx gy ld_in tl twl dir
        (workers blkX blkY blkZ dimX dimY) s).shared (w.ty1 DIM_X + i) (w.tx1 DIM_X)),
      ?_, ?_, ?_⟩
    · rw [List.mem_flatMap]
      refine ⟨(w, i), ?_, ?_⟩
      · rw [mem_microsteps, mem_passes hY]
        exact ⟨hw, by dsimp only; omega, hdvd⟩
      · rw [mem_tile_store_ev]
        exact ⟨⟨by dsimp only; omega, by dsimp only; omega⟩, rfl⟩
    · dsimp only
      rw [hx, Nat.add_comm i, hy]
    · dsimp only
      rw [hx, hy, tile_shared_at_barrier tw DIM_X DIM_Y input inp m n gx gy ld_in tl twl dir
        blkX blkY blkZ dimX dimY s hX hY hwg hn _ _ hr hc, hval]
  · intro hld r c hr hc
    rw [tile_device_output tw DIM_X DIM_Y input inp outp m n gx gy ld_in ld_out tl twl dir
      blkX blkY blkZ dimX dimY s hX hY hwg hm hn hld r c hr hc, hval]

/-- C8 at a 3 by 2 tile with origin `(gx, gy) = (4, 8)`, level 3, forward direction: the
destination buffer after the run. -/
theorem C8_tile_device_twiddle_witness :
    (transpose_tile_device twEx 4 2 inEx 5 9 3 2 4 8 6 7 none 3 (-1)
      (workers 0 0 0 4 2) stEx).output (9 + (2 + 1 * 7)) =
      if (-1 : Int) = -1
        then twEx.FWD 3 none ((4 + 1) * (8 + 2)) (inEx (5 + (1 + 2 * 6)))
        else twEx.INV 3 none ((4 + 1) * (8 + 2)) (inEx (5 + (1 + 2 * 6))) :=
  (C8_tile_device_twiddle twEx 4 2 inEx 5 9 3 2 4 8 6 7 none 3 (-1) 3 0 0 0 4 2 stEx
    (by decide) (by decide) (by decide) (by decide) (by decide) (by decide)
    (by decide)).2 (by decide) 2 1 (by decide) (by decide)

/-- C3: in `transpose_kernel2` over the covering grid of one batch index (`ceil(n / DIM_X)` by
`ceil(m / DIM_X)` work-groups of `DIM_X * DIM_Y` workers, `ld_in ≥ n`, `ld_out ≥ m`), the
loads recorded by the run, one per (work-group, worker, pass) triple that passes the bounds
check, hit pairwise distinct addresses and exactly the `m * n` source addresses; likewise the
stores hit pairwise distinct addresses and exactly the destination addresses. -/
theorem C3_kernel2_access_bijection {T Tbl : Type} (tw : TwiddleMul Tbl T) (DIM_X DIM_Y : Nat)
    (input : Nat → T) (tl : Option Tbl) (dim : Nat) (lengths stride_in stride_out : Nat → Nat)
    (twl dir : Int) (z dimX dimY : Nat) (s : State T)
    (hX : 1 ≤ DIM_X) (hY : 1 ≤ DIM_Y) (hwg : dimX * dimY = DIM_X * DIM_Y)
    (hin : lengths 0 ≤ stride_in 1) (hout : lengths 1 ≤ stride_out 1) :
    ∃ newL newS : List Access,
      (transpose_kernel2_launch tw DIM_X DIM_Y input tl dim lengths stride_in stride_out twl dir
        (ceilDiv (lengths 0) DIM_X) (ceilDiv (lengths 1) DIM_X) [z] dimX dimY s).loads =
        s.loads ++ newL ∧
      (transpose_kernel2_launch tw DIM_X DIM_Y input tl dim lengths stride_in stride_out twl dir
        (ceilDiv (lengths 0) DIM_X) (ceilDiv (lengths 1) DIM_X) [z] dimX dimY s).stores.map
        Prod.fst = s.stores.map Prod.fst ++ newS ∧
      (newL.map Access.addr).Nodup ∧
      (∀ a, a ∈ newL.map Access.addr ↔ ∃ r c, r < lengths 1 ∧ c < lengths 0 ∧
        a = kernel2_iOffset dim lengths stride_in stride_out z + r * stride_in 1 + c) ∧
      (newS.map Access.addr).Nodup ∧
      (∀ a, a ∈ newS.map Access.addr ↔ ∃ r c, r < lengths 1 ∧ c < lengths 0 ∧
        a = kernel2_oOffset dim lengths stride_in stride_out z + c * stride_out 1 + r) := by
  obtain ⟨rl, rs, _⟩ := kernel2_launch_record tw DIM_X DIM_Y input tl dim lengths stride_in
    stride_out twl dir (ceilDiv (lengths 0) DIM_X) (ceilDiv (lengths 1) DIM_X) [z] dimX dimY s
  have hgz : ∀ b ∈ grid (ceilDiv (lengths 0) DIM_X) (ceilDiv (lengths 1) DIM_X) [z],
      b.2.2 = z := by
    intro b hb
    rw [mem_grid] at hb
    exact List.mem_singleton.1 hb.2.2
  refine ⟨_, _, rl, rs, ?_, ?_, ?_, ?_⟩
  · apply nodup_addr_of_inj _ _ (grid_nodup _ _ _ (List.nodup_singleton z))
    · intro b _
      exact kernel2_loads_nodup DIM_X DIM_Y dim lengths stride_in stride_out dimX dimY hY b
    · intro b hb b' hb' e he e' he' ha
      exact kernel2_load_inj hX hY hwg hin ((hgz b hb).trans (hgz b' hb').symm) he he' ha
  · intro a
    rw [List.mem_map]
    constructor
    · rintro ⟨e, he, rfl⟩
      rw [List.mem_flatMap] at he
      obtain ⟨b, hb, he⟩ := he
      rw [mem_kernel2_loads] at he
      obtain ⟨_, _, ⟨g1, g2⟩, hadr⟩ := he
      refine ⟨_, _, (kernel2_mm_lt g2).2, (kernel2_nn_lt g1).2, ?_⟩
      rw [hadr, hgz b hb]
    · rintro ⟨r, c, hr, hc, rfl⟩
      obtain ⟨e, he, ha⟩ := kernel2_loads_onto DIM_X DIM_Y dim lengths stride_in stride_out
        z dimX dimY hX hY hwg r c hr hc
      exact ⟨e, he, ha⟩
  · apply nodup_addr_of_inj _ _ (grid_nodup _ _ _ (List.nodup_singleton z))
    · intro b _
      exact kernel2_stores_nodup DIM_X DIM_Y dim lengths stride_in stride_out dimX dimY hY b
    · intro b hb b' hb' e he e' he' ha
      exact kernel2_store_inj hX hY hwg hout ((hgz b hb).trans (hgz b' hb').symm) he he' ha
  · intro a
    rw [List.mem_map]
    constructor
    · rintro ⟨e, he, rfl⟩
      rw [List.mem_flatMap] at he
      obtain ⟨b, hb, he⟩ := he
      rw [mem_kernel2_stores] at he
      obtain ⟨_, _, ⟨g1, g2⟩, hadr⟩ := he
      refine ⟨_, _, (kernel2_mm_lt g1).2, (kernel2_nn_lt g2).2, ?_⟩
      rw [hadr, hgz b hb]
    · rintro ⟨r, c, hr, hc, rfl⟩
      obtain ⟨e, he, ha⟩ := kernel2_stores_onto DIM_X DIM_Y dim lengths stride_in stride_out
        z dimX dimY hX hY hwg r c hr hc
      exact ⟨e, he, ha⟩

/-- C3 at a 5 by 3 matrix with `DIM_X = 2`, `DIM_Y = 1`, started from an empty record: no
address is loaded twice and none is stored twice. -/
theorem C3_kernel2_access_bijection_witness :
    ((transpose_kernel2_launch twEx 2 1 inEx none 2 (arr [3, 5]) (arr [1, 3]) (arr [1, 5]) 0 0
      (ceilDiv (arr [3, 5] 0) 2) (ceilDiv (arr [3, 5] 1) 2) [0] 2 1 stEx).loads.map
      Access.addr).Nodup ∧
    (((transpose_kernel2_launch twEx 2 1 inEx none 2 (arr [3, 5]) (arr [1, 3]) (arr [1, 5]) 0 0
      (ceilDiv (arr [3, 5] 0) 2) (ceilDiv (arr [3, 5] 1) 2) [0] 2 1 stEx).stores.map
      Prod.fst).map Access.addr).Nodup := by
  obtain ⟨newL, newS, h1, h2, h3, _, h5, _⟩ :=
    C3_kernel2_access_bijection twEx 2 1 inEx none 2 (arr [3, 5]) (arr [1, 3]) (arr [1, 5]) 0 0
      0 2 1 stEx (by decide) (by decide) (by decide) (by decide) (by decide)
  rw [h1, h2]
  exact ⟨h3, h5⟩

/-- C4: in `transpose_kernel2`, for a work-group with `hipBlockIdx_x < ceil(n / DIM_X)` and
`hipBlockIdx_y < ceil(m / DIM_X)`, the tile extents satisfy `1 ≤ mm ≤ DIM_X`,
`1 ≤ nn ≤ DIM_X`, `hipBlockIdx_y * DIM_X + mm ≤ m` and `hipBlockIdx_x * DIM_X + nn ≤ n`;
every load recorded reads a source element with global row `< m` and column `< n`, every
store recorded writes a destination element with row `< n` and column `< m`, every
staging-buffer index is `< DIM_X`; and a load (store) is recorded only for a worker and pass
whose coordinate lies inside the actual source (destination) tile, so workers outside it
perform no load and no store. -/
theorem C4_kernel2_accesses_in_bounds {T Tbl : Type} (tw : TwiddleMul Tbl T)
    (DIM_X DIM_Y : Nat) (input : Nat → T) (tl : Option Tbl) (dim : Nat)
    (lengths stride_in stride_out : Nat → Nat) (twl dir : Int)
    (blkX blkY blkZ dimX dimY : Nat) (s : State T)
    (hbx : blkX < ceilDiv (lengths 0) DIM_X) (hbj : blkY < ceilDiv (lengths 1) DIM_X) :
    (1 ≤ kernel2_mm DIM_X lengths blkY ∧ kernel2_mm DIM_X lengths blkY ≤ DIM_X ∧
      1 ≤ kernel2_nn DIM_X lengths blkX ∧ kernel2_nn DIM_X lengths blkX ≤ DIM_X ∧
      blkY * DIM_X + kernel2_mm DIM_X lengths blkY ≤ lengths 1 ∧
      blkX * DIM_X + kernel2_nn DIM_X lengths blkX ≤ lengths 0) ∧
    ∃ (newL newS : List Access) (newC : List (Nat × Nat)),
      (transpose_kernel2 tw DIM_X DIM_Y input tl dim lengths stride_in stride_out twl dir
        blkX blkY blkZ dimX dimY s).loads = s.loads ++ newL ∧
      (transpose_kernel2 tw DIM_X DIM_Y input tl dim lengths stride_in stride_out twl dir
        blkX blkY blkZ dimX dimY s).stores.map Prod.fst = s.stores.map Prod.fst ++ newS ∧
      (transpose_kernel2 tw DIM_X DIM_Y input tl dim lengths stride_in stride_out twl dir
        blkX blkY blkZ dimX dimY s).staged = s.staged ++ newC ∧
      (∀ e ∈ newL,
        e.who.tx1 DIM_X < kernel2_nn DIM_X lengths blkX ∧
        e.who.ty1 DIM_X + e.pass < kernel2_mm DIM_X lengths blkY ∧
        blkY * DIM_X + (e.who.ty1 DIM_X + e.pass) < lengths 1 ∧
        blkX * DIM_X + e.who.tx1 DIM_X < lengths 0 ∧
        e.addr = kernel2_iOffset dim lengths stride_in stride_out blkZ +
          (blkY * DIM_X + (e.who.ty1 DIM_X + e.pass)) * stride_in 1 +
          (blkX * DIM_X + e.who.tx1 DIM_X)) ∧
      (∀ e ∈ newS,
        e.who.tx1 DIM_X < kernel2_mm DIM_X lengths blkY ∧
        e.who.ty1 DIM_X + e.pass < kernel2_nn DIM_X lengths blkX ∧
        blkX * DIM_X + (e.who.ty1 DIM_X + e.pass) < lengths 0 ∧
        blkY * DIM_X + e.who.tx1 DIM_X < lengths 1 ∧
        e.addr = kernel2_oOffset dim lengths stride_in stride_out blkZ +
          (blkX * DIM_X + (e.who.ty1 DIM_X + e.pass)) * stride_out 1 +
          (blkY * DIM_X + e.who.tx1 DIM_X)) ∧
      (∀ q ∈ newC, q.1 < DIM_X ∧ q.2 < DIM_X) := by
  have h1 := mul_lt_of_lt_ceilDiv hbx
  have h2 := mul_lt_of_lt_ceilDiv hbj
  have hX : 0 < DIM_X := by
    rcases Nat.eq_zero_or_pos DIM_X with h | h
    · subst h; simp [ceilDiv] at hbx
    · exact h
  obtain ⟨rl, rs, rc⟩ := kernel2_block_record tw DIM_X DIM_Y input tl dim lengths stride_in
    stride_out twl dir blkX blkY blkZ dimX dimY s
  refine ⟨?_, _, _, _, rl, rs, rc, ?_, ?_, ?_⟩
  · unfold kernel2_mm kernel2_nn
    omega
  · intro e he
    rw [mem_kernel2_loads] at he
    obtain ⟨_, _, ⟨g1, g2⟩, hadr⟩ := he
    exact ⟨g1, g2, (kernel2_mm_lt g2).2, (kernel2_nn_lt g1).2, hadr⟩
  · intro e he
    rw [mem_kernel2_stores] at he
    obtain ⟨_, _, ⟨g1, g2⟩, hadr⟩ := he
    exact ⟨g1, g2, (kernel2_nn_lt g2).2, (kernel2_mm_lt g1).2, hadr⟩
  · intro q hq
    exact mem_kernel2_staged DIM_X DIM_Y lengths dimX dimY _ q hq

/-- C4 at the corner work-group `(1, 1)` of a 100 by 100 matrix with `DIM_X = 64`: the partial
tile is 36 by 36. -/
theorem C4_kernel2_accesses_in_bounds_witness :
    1 ≤ kernel2_mm 64 (arr [100, 100]) 1 ∧ kernel2_mm 64 (arr [100, 100]) 1 ≤ 64 ∧
      1 ≤ kernel2_nn 64 (arr [100, 100]) 1 ∧ kernel2_nn 64 (arr [100, 100]) 1 ≤ 64 ∧
      1 * 64 + kernel2_mm 64 (arr [100, 100]) 1 ≤ arr [100, 100] 1 ∧
      1 * 64 + kernel2_nn 64 (arr [100, 100]) 1 ≤ arr [100, 100] 0 :=
  (C4_kernel2_accesses_in_bounds twEx 64 16 inEx none 2 (arr [100, 100]) (arr [1, 100])
    (arr [1, 100]) 0 0 1 1 0 64 16 stEx (by decide) (by decide)).1

/-- C9, as stated, fails: take two batches of 64 by 64 matrices, `lengths = [64, 64, 2]`,
leading dimensions `stride_in[1] = stride_out[1] = 64`, batch strides `stride_in[2] = 4096`
and `stride_out[2] = 0`.  All offsets are below `2^32`, but both batches have the same
destination plane while their source planes differ, so no destination buffer satisfies
`output[oOffset(b) + C * ld_out + R] = input[iOffset(b) + R * ld_in + C]` for every flat batch
index `b`. -/
theorem C9_outplace_counterexample :
    (64 ∣ arr [64, 64, 2] 0 ∧ 0 < arr [64, 64, 2] 0 ∧ 64 ∣ arr [64, 64, 2] 1 ∧
      0 < arr [64, 64, 2] 1 ∧ arr [64, 64, 2] 0 ≤ arr [1, 64, 4096] 1 ∧
      arr [64, 64, 2] 1 ≤ arr [1, 64, 0] 1 ∧
      kernel2_iOffset 3 (arr [64, 64, 2]) (arr [1, 64, 4096]) (arr [1, 64, 0]) 0 < 2 ^ 32 ∧
      kernel2_oOffset 3 (arr [64, 64, 2]) (arr [1, 64, 4096]) (arr [1, 64, 0]) 0 < 2 ^ 32 ∧
      kernel2_iOffset 3 (arr [64, 64, 2]) (arr [1, 64, 4096]) (arr [1, 64, 0]) 1 < 2 ^ 32 ∧
      kernel2_oOffset 3 (arr [64, 64, 2]) (arr [1, 64, 4096]) (arr [1, 64, 0]) 1 < 2 ^ 32) ∧
    ¬ (∀ b R C, b < 2 → R < arr [64, 64, 2] 1 → C < arr [64, 64, 2] 0 →
      (transpose_kernel_outplace_launch twEx 4 4 16 16 inEx none 3 (arr [64, 64, 2])
        (arr [1, 64, 4096]) (arr [1, 64, 0]) (2 * (arr [64, 64, 2] 0 / 64))
        (arr [64, 64, 2] 1 / 64) 16 16 stEx).output
          (kernel2_oOffset 3 (arr [64, 64, 2]) (arr [1, 64, 4096]) (arr [1, 64, 0]) b +
            C * arr [1, 64, 0] 1 + R) =
        inEx (kernel2_iOffset 3 (arr [64, 64, 2]) (arr [1, 64, 4096]) (arr [1, 64, 0]) b +
          R * arr [1, 64, 4096] 1 + C)) := by
  refine ⟨by decide, ?_⟩
  intro h
  have h1 := h 0 0 0 (by decide) (by decide) (by decide)
  have h2 := h 1 0 0 (by decide) (by decide) (by decide)
  have e : kernel2_oOffset 3 (arr [64, 64, 2]) (arr [1, 64, 4096]) (arr [1, 64, 0]) 1 +
      0 * arr [1, 64, 0] 1 + 0 =
      kernel2_oOffset 3 (arr [64, 64, 2]) (arr [1, 64, 4096]) (arr [1, 64, 0]) 0 +
        0 * arr [1, 64, 0] 1 + 0 := by decide
  rw [e] at h2
  have h3 := h1.symm.trans h2
  revert h3
  decide

/-- C9, amended: for `transpose_kernel_outplace` instantiated with a 64 by 64 macro-tile
(micro-tile 4 by 4, work-group 16 by 16) and launched with 16 by 16 work-groups,
`twiddles_large` null, `lengths[0]` and `lengths[1]` positive multiples of 64,
`gridDim.x = batches * (lengths[0] / 64)` and `gridDim.y = lengths[1] / 64`, with offsets
below `2^32`, and provided distinct `(b, R, C)` have distinct destination addresses
`oOffset(b) + C * ld_out + R`, the result satisfies
`output[oOffset(b) + C * ld_out + R] = input[iOffset(b) + R * ld_in + C]` for every flat batch
index `b < batches`, row `R < lengths[1]` and column `C < lengths[0]`. -/
theorem C9_outplace_transposes {T Tbl : Type} (tw : TwiddleMul Tbl T) (input : Nat → T)
    (dim : Nat) (lengths stride_in stride_out : Nat → Nat) (batches : Nat) (s : State T)
    (h0 : 64 ∣ lengths 0) (_h0pos : 0 < lengths 0) (h1 : 64 ∣ lengths 1)
    (_h1pos : 0 < lengths 1)
    (hoff : ∀ b, b < batches →
      kernel2_iOffset dim lengths stride_in stride_out b < 2 ^ 32 ∧
      kernel2_oOffset dim lengths stride_in stride_out b < 2 ^ 32)
    (hinj : ∀ b R C b' R' C', b < batches → R < lengths 1 → C < lengths 0 →
      b' < batches → R' < lengths 1 → C' < lengths 0 →
      kernel2_oOffset dim lengths stride_in stride_out b + C * stride_out 1 + R =
        kernel2_oOffset dim lengths stride_in stride_out b' + C' * stride_out 1 + R' →
      b = b' ∧ R = R' ∧ C = C')
    (b R C : Nat) (hb : b < batches) (hR : R < lengths 1) (hC : C < lengths 0) :
    (transpose_kernel_outplace_launch tw 4 4 16 16 input none dim lengths stride_in stride_out
      (batches * (lengths 0 / 64)) (lengths 1 / 64) 16 16 s).output
        (kernel2_oOffset dim lengths stride_in stride_out b + C * stride_out 1 + R) =
      input (kernel2_iOffset dim lengths stride_in stride_out b + R * stride_in 1 + C) := by
  obtain ⟨nx, hnx⟩ := h0
  obtain ⟨ny, hny⟩ := h1
  have hbpm : lengths 0 / 64 = nx := by omega
  have hrows : lengths 1 / 64 = ny := by omega
  have hwrap : ∀ b', b' < batches →
      outplace_iOffset dim lengths stride_in stride_out b' =
        kernel2_iOffset dim lengths stride_in stride_out b' ∧
      outplace_oOffset dim lengths stride_in stride_out b' =
        kernel2_oOffset dim lengths stride_in stride_out b' := by
    intro b' hb'
    obtain ⟨e1, e2⟩ := outplace_offsets_mod dim lengths stride_in stride_out b'
    rw [e1, e2, Nat.mod_eq_of_lt (hoff b' hb').1, Nat.mod_eq_of_lt (hoff b' hb').2]
    exact ⟨rfl, rfl⟩
  have hblk : ∀ blk : Nat × Nat × Nat, blk ∈ grid (batches * nx) ny [0] →
      blk.1 / nx < batches ∧ blk.1 % nx < nx ∧ blk.2.1 < ny := by
    intro blk hblk
    rw [mem_grid] at hblk
    have hnxpos : 0 < nx := by
      rcases Nat.eq_zero_or_pos nx with h | h
      · rw [h] at hblk; simp at hblk
      · exact h
    refine ⟨?_, Nat.mod_lt _ hnxpos, hblk.2.1⟩
    rw [Nat.div_lt_iff_lt_mul hnxpos]
    exact hblk.1
  unfold transpose_kernel_outplace_launch
  rw [hbpm, hrows]
  refine foldl_write _ (fun t => t.output
      (kernel2_oOffset dim lengths stride_in stride_out b + C * stride_out 1 + R))
    (fun _ => True)
    (fun blk : Nat × Nat × Nat => ∃ x y, x < 64 ∧ y < 64 ∧
      kernel2_oOffset dim lengths stride_in stride_out b + C * stride_out 1 + R =
        outplace_oOffset dim lengths stride_in stride_out (blk.1 / (lengths 0 / 64)) +
          (stride_out 1 * (blk.1 % (lengths 0 / 64)) * 64 + blk.2.1 * 64) +
          (y * stride_out 1 + x))
    _ _ (fun _ _ _ _ => trivial) ?_ ?_ s trivial (Or.inl ?_)
  · rintro t ⟨bx, bj, bz⟩ hblk' _ hW
    obtain ⟨g1, g2, g3⟩ := hblk (bx, bj, bz) hblk'
    dsimp only at g1 g2 g3 hW ⊢
    apply outplace64_block_output_of tw input none dim lengths stride_in stride_out bx bj t _ _
      hW
    intro x y hx hy hk
    rw [hbpm] at hk ⊢
    obtain ⟨w1, w2⟩ := hwrap (bx / nx) g1
    rw [w1]
    rw [w2] at hk
    obtain ⟨e1, e2, e3⟩ := hinj b R C (bx / nx) (bj * 64 + x) (bx % nx * 64 + y) hb hR hC g1
      (by omega) (by omega) (by rw [hk]; ring)
    unfold outplace_value
    simp only [Option.isSome_none, Bool.false_eq_true, if_false]
    rw [e1, e2, e3]
    congr 1
    ring
  · rintro t ⟨bx, bj, bz⟩ _ _ hn
    apply outplace64_block_frame
    intro x y hx hy hk
    exact hn ⟨x, y, hx, hy, hk⟩
  · have hnxpos : 0 < nx := by omega
    have hq : (C / 64 + b * nx) / nx = b := by
      rw [Nat.add_mul_div_right _ _ hnxpos, Nat.div_eq_of_lt (by omega), Nat.zero_add]
    have hm : (C / 64 + b * nx) % nx = C / 64 := by
      rw [Nat.add_mul_mod_self_right, Nat.mod_eq_of_lt (by omega)]
    refine ⟨(C / 64 + b * nx, R / 64, 0), ?_, R % 64, C % 64, Nat.mod_lt _ (by decide),
      Nat.mod_lt _ (by decide), ?_⟩
    · rw [mem_grid]
      refine ⟨?_, by dsimp only; omega, List.mem_singleton.2 rfl⟩
      dsimp only
      have : (b + 1) * nx ≤ batches * nx := Nat.mul_le_mul_right _ hb
      have e : (b + 1) * nx = b * nx + nx := by ring
      omega
    · dsimp only
      rw [hbpm, hq, hm, (hwrap b hb).2]
      have e1 : C * stride_out 1 = stride_out 1 * (C / 64) * 64 + C % 64 * stride_out 1 := by
        have := Nat.div_add_mod C 64
        calc C * stride_out 1 = (64 * (C / 64) + C % 64) * stride_out 1 := by rw [this]
          _ = stride_out 1 * (C / 64) * 64 + C % 64 * stride_out 1 := by ring
      rw [e1]
      omega

/-- C9 at two batches of 64 by 64 matrices, leading dimensions 64 and batch strides 4096:
destination element `(C, R) = (63, 5)` of batch 1. -/
theorem C9_outplace_transposes_witness :
    (transpose_kernel_outplace_launch twEx 4 4 16 16 inEx none 3 (arr [64, 64, 2])
      (arr [1, 64, 4096]) (arr [1, 64, 4096]) (2 * (arr [64, 64, 2] 0 / 64))
      (arr [64, 64, 2] 1 / 64) 16 16 stEx).output
        (kernel2_oOffset 3 (arr [64, 64, 2]) (arr [1, 64, 4096]) (arr [1, 64, 4096]) 1 +
          63 * arr [1, 64, 4096] 1 + 5) =
      inEx (kernel2_iOffset 3 (arr [64, 64, 2]) (arr [1, 64, 4096]) (arr [1, 64, 4096]) 1 +
        5 * arr [1, 64, 4096] 1 + 63) :=
  C9_outplace_transposes twEx inEx 3 (arr [64, 64, 2]) (arr [1, 64, 4096]) (arr [1, 64, 4096])
    2 stEx (by decide) (by decide) (by decide) (by decide)
    (by
      intro b hb
      interval_cases b <;> decide)
    (by
      intro b R C b' R' C' hb hR hC hb' hR' hC' h
      have hR2 : R < 64 := hR
      have hC2 : C < 64 := hC
      have hR2' : R' < 64 := hR'
      have hC2' : C' < 64 := hC'
      have e0 : kernel2_oOffset 3 (arr [64, 64, 2]) (arr [1, 64, 4096]) (arr [1, 64, 4096]) 0 =
          0 := rfl
      have e1 : kernel2_oOffset 3 (arr [64, 64, 2]) (arr [1, 64, 4096]) (arr [1, 64, 4096]) 1 =
          4096 := rfl
      have es : arr [1, 64, 4096] 1 = 64 := rfl
      rw [es] at h
      interval_cases b <;> interval_cases b' <;> simp only [e0, e1] at h <;>
        exact ⟨by omega, by omega, by omega⟩)
    1 5 63 (by decide) (by decide) (by decide)

/-- C10, as stated, fails: for a single work-group `(0, 0)`, `numGroupsY = 1`,
`stride_i = 64`, zero distances and `stride_o = 1`, the destination addresses of
`(a, b) = (0, 1)` and `(1, 0)` coincide while their sources differ, so no destination buffer
satisfies the stated equation for every `a, b < 64`. -/
theorem C10_var1_counterexample :
    ¬ (∀ gx gy a b, gx < 1 → gy < 1 → a < 64 → b < 64 →
      (transpose_var1_launch twEx 0 0 TransTileDir.TTD_IP_HOR none inEx 1 64 1 0 0 1 1 16 16
        stEx).output (gy / 1 * 0 + (64 * gx + a) * 1 + 64 * (gy % 1) + b) =
        inEx (gy / 1 * 0 + (64 * (gy % 1) + b) * 64 + 64 * gx + a)) := by
  intro h
  have h1 := h 0 0 0 1 (by decide) (by decide) (by decide) (by decide)
  have h2 := h 0 0 1 0 (by decide) (by decide) (by decide) (by decide)
  have e : 0 / 1 * 0 + (64 * 0 + 0) * 1 + 64 * (0 % 1) + 1 =
      0 / 1 * 0 + (64 * 0 + 1) * 1 + 64 * (0 % 1) + 0 := rfl
  rw [e] at h1
  have h3 := h1.symm.trans h2
  simp [inEx] at h3

/-- C10, amended: for `transpose_var1` run with 16 by 16 work-groups and `twl` outside
`{3, 4}`, provided distinct (work-group, `a`, `b`) of the work-groups run have distinct
destination addresses, for every work-group `(gx, gy)` run, with `q = gy / numGroupsY` and
`k = gy % numGroupsY`, and every `a, b < 64`: when `ttd = TTD_IP_HOR`,
`pmComplexOut[q * dist_o + (64 * gx + a) * stride_o + 64 * k + b] =
pmComplexIn[q * dist_i + (64 * k + b) * stride_i + 64 * gx + a]`; otherwise
`pmComplexOut[q * dist_o + (64 * k + a) * stride_o + 64 * gx + b] =
pmComplexIn[q * dist_i + (64 * gx + b) * stride_i + 64 * k + a]`.  The work-groups run are
any list `blocks`: a whole grid, or a single work-group, for which the proviso is
`stride_o ≥ 64`. -/
theorem C10_var1_transposes {T Tbl : Type} (tw : TwiddleMul Tbl T) (dir twl : Int)
    (ttd : TransTileDir) (tl : Option Tbl) (pmComplexIn : Nat → T)
    (numGroupsY stride_i stride_o dist_i dist_o : Nat) (blocks : List (Nat × Nat × Nat))
    (s : State T) (h3 : twl ≠ 3) (h4 : twl ≠ 4)
    (hinj : ∀ g a b g' a' b', g ∈ blocks → a < 64 → b < 64 → g' ∈ blocks → a' < 64 → b' < 64 →
      spec_var1_dest ttd numGroupsY stride_o dist_o g.1 g.2.1 a b =
        spec_var1_dest ttd numGroupsY stride_o dist_o g'.1 g'.2.1 a' b' →
      g.1 = g'.1 ∧ g.2.1 = g'.2.1 ∧ a = a' ∧ b = b')
    (g : Nat × Nat × Nat) (a b : Nat) (hg : g ∈ blocks) (ha : a < 64) (hb : b < 64) :
    (ttd = TransTileDir.TTD_IP_HOR →
      (transpose_var1_run tw dir twl ttd tl pmComplexIn numGroupsY stride_i stride_o dist_i
        dist_o blocks 16 16 s).output
          (g.2.1 / numGroupsY * dist_o + (64 * g.1 + a) * stride_o +
            64 * (g.2.1 % numGroupsY) + b) =
        pmComplexIn (g.2.1 / numGroupsY * dist_i + (64 * (g.2.1 % numGroupsY) + b) * stride_i +
          64 * g.1 + a)) ∧
    (ttd ≠ TransTileDir.TTD_IP_HOR →
      (transpose_var1_run tw dir twl ttd tl pmComplexIn numGroupsY stride_i stride_o dist_i
        dist_o blocks 16 16 s).output
          (g.2.1 / numGroupsY * dist_o + (64 * (g.2.1 % numGroupsY) + a) * stride_o +
            64 * g.1 + b) =
        pmComplexIn (g.2.1 / numGroupsY * dist_i + (64 * g.1 + b) * stride_i +
          64 * (g.2.1 % numGroupsY) + a)) := by
  have key : (transpose_var1_run tw dir twl ttd tl pmComplexIn numGroupsY stride_i stride_o
      dist_i dist_o blocks 16 16 s).output
        (spec_var1_dest ttd numGroupsY stride_o dist_o g.1 g.2.1 a b) =
      pmComplexIn (spec_var1_src ttd numGroupsY stride_i dist_i g.1 g.2.1 a b) := by
    unfold transpose_var1_run
    refine foldl_write _
      (fun t => t.output (spec_var1_dest ttd numGroupsY stride_o dist_o g.1 g.2.1 a b))
      (fun _ => True)
      (fun blk : Nat × Nat × Nat => ∃ a' b', a' < 64 ∧ b' < 64 ∧
        spec_var1_dest ttd numGroupsY stride_o dist_o g.1 g.2.1 a b =
          var1_oOffset ttd numGroupsY stride_o dist_o blk.1 blk.2.1 16 16 + (b' + stride_o * a'))
      _ _ (fun _ _ _ _ => trivial) ?_ ?_ s trivial (Or.inl ?_)
    · rintro t blk hblk _ hW
      dsimp only at hW ⊢
      rw [var1_16_eq]
      apply var1_phases_output_of tw dir twl ttd tl pmComplexIn _ _ stride_i stride_o _ blk.1
        blk.2.1 t h3 h4 _ _ hW
      intro a' b' ha' hb' hk
      rw [var1_dest_eq] at hk
      obtain ⟨e1, e2, e3, e4⟩ := hinj g a b blk a' b' hg ha hb hblk ha' hb' hk
      rw [var1_src_eq, e1, e2, e3, e4]
    · rintro t blk _ _ hn
      dsimp only
      rw [var1_16_eq]
      apply var1_phases_frame
      intro a' b' ha' hb' hk
      exact hn ⟨a', b', ha', hb', hk⟩
    · exact ⟨g, hg, a, b, ha, hb, by rw [var1_dest_eq]⟩
  constructor
  · intro h
    simpa only [spec_var1_dest, spec_var1_src, h, if_true] using key
  · intro h
    simpa only [spec_var1_dest, spec_var1_src, h, if_false] using key

/-- C10 for the single work-group `(2, 3)` with `numGroupsY = 2`, `stride_i = 128`,
`stride_o = 64`, in the vertical direction: destination element `(a, b) = (63, 5)`. -/
theorem C10_var1_transposes_witness :
    (transpose_var1_run twEx 0 0 TransTileDir.TTD_IP_VER none inEx 2 128 64 9000 7000
      [(2, 3, 0)] 16 16 stEx).output
        (3 / 2 * 7000 + (64 * (3 % 2) + 63) * 64 + 64 * 2 + 5) =
      inEx (3 / 2 * 9000 + (64 * 2 + 5) * 128 + 64 * (3 % 2) + 63) :=
  (C10_var1_transposes twEx 0 0 TransTileDir.TTD_IP_VER none inEx 2 128 64 9000 7000
    [(2, 3, 0)] stEx (by decide) (by decide)
    (by
      intro g a b g' a' b' hg ha hb hg' ha' hb' h
      rw [List.mem_singleton] at hg hg'
      subst hg hg'
      simp [spec_var1_dest] at h
      refine ⟨rfl, rfl, ?_, ?_⟩ <;> omega)
    (2, 3, 0) 63 5 (List.mem_singleton.2 rfl) (by decide) (by decide)).2 (by decide)

/-- C11, as stated, fails in both directions.  With a table supplied and `twl = 0` (the call
made by `transpose_kernel2_scheme`), `transpose_tile_device` on a 2 by 2 tile leaves
`output[1 + 1 * 2] = input[1 + 1 * 2]`, which is none of the level-2, 3 or 4 products of that
element.  With a null table and `twl = 2`, `dir = -1`, the same run leaves the level-2 forward
product taken with the null table, which differs from the element. -/
theorem C11_tile_twiddle_gate_counterexample :
    ((transpose_tile_device twEx 4 2 inEx 0 0 2 2 0 0 2 2 (some ()) 0 (-1)
        (workers 0 0 0 4 2) stEx).output (0 + (1 + 1 * 2)) = inEx (0 + (1 + 1 * 2)) ∧
      ∀ k, k = 2 ∨ k = 3 ∨ k = 4 →
        twEx.FWD k (some ()) ((0 + 1) * (0 + 1)) (inEx (0 + (1 + 1 * 2))) ≠
          inEx (0 + (1 + 1 * 2)) ∧
        twEx.INV k (some ()) ((0 + 1) * (0 + 1)) (inEx (0 + (1 + 1 * 2))) ≠
          inEx (0 + (1 + 1 * 2))) ∧
    ((transpose_tile_device twEx 4 2 inEx 0 0 2 2 0 0 2 2 none 2 (-1)
        (workers 0 0 0 4 2) stEx).output (0 + (1 + 1 * 2)) =
        twEx.FWD 2 none ((0 + 1) * (0 + 1)) (inEx (0 + (1 + 1 * 2))) ∧
      twEx.FWD 2 none ((0 + 1) * (0 + 1)) (inEx (0 + (1 + 1 * 2))) ≠
        inEx (0 + (1 + 1 * 2))) := by
  refine ⟨⟨?_, ?_⟩, ?_, ?_⟩
  · rw [tile_device_output twEx 4 2 inEx 0 0 2 2 0 0 2 2 (some ()) 0 (-1) 0 0 0 4 2 stEx
      (by decide) (by decide) (by decide) (by decide) (by decide) (by decide) 1 1
      (by decide) (by decide)]
    rfl
  · rintro k (rfl | rfl | rfl) <;> decide
  · rw [tile_device_output twEx 4 2 inEx 0 0 2 2 0 0 2 2 none 2 (-1) 0 0 0 4 2 stEx
      (by decide) (by decide) (by decide) (by decide) (by decide) (by decide) 1 1
      (by decide) (by decide)]
    rfl
  · decide

/-- C11, amended: in `transpose_tile_device` phase multiplication is controlled by `twl`, not
by the table pointer.  For every table pointer `tl`, null or not, a work-group of
`DIM_X * DIM_Y` workers and a tile with `n ≤ DIM_X`, the staging buffer at the barrier holds,
for every row `r < m` and column `c < n`: the loaded element itself when `twl` is outside
`{2, 3, 4}`; and for `twl` in `{2, 3, 4}` the result of the level-`twl` macro called with `tl`
at index `(gx + c) * (gy + r)`, forward when `dir = -1`, inverse otherwise. -/
theorem C11_tile_twiddle_gate {T Tbl : Type} (tw : TwiddleMul Tbl T) (DIM_X DIM_Y : Nat)
    (input : Nat → T) (inp m n gx gy ld_in : Nat) (tl : Option Tbl) (twl dir : Int)
    (blkX blkY blkZ dimX dimY : Nat) (s : State T)
    (hX : 1 ≤ DIM_X) (hY : 1 ≤ DIM_Y) (hn : n ≤ DIM_X) (hwg : dimX * dimY = DIM_X * DIM_Y)
    (r c : Nat) (hr : r < m) (hc : c < n) :
    (twl ≠ 2 → twl ≠ 3 → twl ≠ 4 →
      (tile_load_phase tw DIM_X DIM_Y input inp m n gx gy ld_in tl twl dir
        (workers blkX blkY blkZ dimX dimY) s).shared c r = input (inp + (c + r * ld_in))) ∧
    (∀ lvl : Nat, lvl = 2 ∨ lvl = 3 ∨ lvl = 4 → twl = lvl →
      (tile_load_phase tw DIM_X DIM_Y input inp m n gx gy ld_in tl twl dir
        (workers blkX blkY blkZ dimX dimY) s).shared c r =
        if dir = -1
          then tw.FWD lvl tl ((gx + c) * (gy + r)) (input (inp + (c + r * ld_in)))
          else tw.INV lvl tl ((gx + c) * (gy + r)) (input (inp + (c + r * ld_in)))) := by
  have h := tile_shared_at_barrier tw DIM_X DIM_Y input inp m n gx gy ld_in tl twl dir
    blkX blkY blkZ dimX dimY s hX hY hwg hn r c hr hc
  unfold tile_value at h
  constructor
  · intro h2 h3 h4
    rw [h, twiddle_step_off tw tl twl dir _ _ h2 h3 h4]
  · intro lvl hlvl htwl
    rw [h, twiddle_step_on tw tl twl dir _ _ lvl hlvl htwl]

/-- C11 on a 3 by 2 tile with a table supplied and `twl = 0`: the staged element is the loaded
element. -/
theorem C11_tile_twiddle_gate_witness :
    (tile_load_phase twEx 4 2 inEx 5 3 2 4 8 6 (some ()) 0 (-1)
      (workers 0 0 0 4 2) stEx).shared 1 2 = inEx (5 + (1 + 2 * 6)) :=
  (C11_tile_twiddle_gate twEx 4 2 inEx 5 3 2 4 8 6 (some ()) 0 (-1) 0 0 0 4 2 stEx
    (by decide) (by decide) (by decide) (by decide) 2 1 (by decide) (by decide)).1
    (by decide) (by decide) (by decide)

/-- C12, as stated, fails: with `dim = 2`, flat batch index `1` and `stride_in[2] = 64`,
`stride_out[2] = 80`, the resolver of `transpose_kernel2` returns the offsets `64` and `80`;
and on stride arrays that hold two entries only it reads index `2`, out of range, instead of
returning `0`. -/
theorem C12_resolver_dim2_counterexample :
    kernel2_iOffset 2 (arr [8, 8]) (arr [1, 8, 64]) (arr [1, 8, 80]) 1 = 64 ∧
      kernel2_oOffset 2 (arr [8, 8]) (arr [1, 8, 64]) (arr [1, 8, 80]) 1 = 80 ∧
      kernel2_offsets_checked 2 [8, 8] [1, 8] [1, 8] 1 = Except.error 2 :=
  ⟨rfl, rfl, rfl⟩

/-- C12, amended: when `dim = 2` the loop of the batch-offset resolver of `transpose_kernel2`
runs zero times, and the statements after the loop leave `iOffset = z * stride_in[2]` and
`oOffset = z * stride_out[2]` for flat batch index `z`; both are `0` for `z = 0`. -/
theorem C12_resolver_dim2 (lengths stride_in stride_out : Nat → Nat) (z : Nat) :
    batchLoop id 2 lengths stride_in stride_out (2 - 2) (z, 0, 0) = (z, 0, 0) ∧
      kernel2_iOffset 2 lengths stride_in stride_out z = z * stride_in 2 ∧
      kernel2_oOffset 2 lengths stride_in stride_out z = z * stride_out 2 ∧
      kernel2_iOffset 2 lengths stride_in stride_out 0 = 0 ∧
      kernel2_oOffset 2 lengths stride_in stride_out 0 = 0 := by
  refine ⟨rfl, ?_, ?_, ?_, ?_⟩
  · simp [kernel2_iOffset, batchOffsets, batchLoop]
  · simp [kernel2_oOffset, batchOffsets, batchLoop]
  · simp [kernel2_iOffset, batchOffsets, batchLoop]
  · simp [kernel2_oOffset, batchOffsets, batchLoop]

/-- C13, as stated, fails: with `dim = 3` and `lengths`, `stride_in`, `stride_out` holding
exactly three entries, both resolvers read index `3` of a stride array, out of range.  The
read is not idle: two stride arrays that agree on the indices `0 .. 2` and differ at index `3`
yield different offsets for flat batch index `2`. -/
theorem C13_resolver_reads_counterexample :
    kernel2_offsets_checked 3 [4, 4, 2] [1, 4, 16] [1, 4, 16] 2 = Except.error 3 ∧
    outplace_offsets_checked 3 [4, 4, 2] [1, 4, 16] [1, 4, 16] 2 = Except.error 3 ∧
    kernel2_iOffset 3 (arr [4, 4, 2]) (arr [1, 4, 16, 100]) (arr [1, 4, 16, 100]) 2 = 100 ∧
    kernel2_iOffset 3 (arr [4, 4, 2]) (arr [1, 4, 16, 200]) (arr [1, 4, 16, 100]) 2 = 200 :=
  ⟨rfl, rfl, rfl, rfl⟩

/-- C13, amended: with `lengths` holding exactly `dim` entries and `stride_in`, `stride_out`
each holding `dim + 1` entries (indices `0 .. dim`), every array index the batch-offset
resolvers of `transpose_kernel2` and of `transpose_kernel_outplace` read is in range, for
every `dim ≥ 2` and every flat batch index, and the resolvers return their offsets; the
highest stride index read is `dim`: with stride arrays of exactly `dim` entries both
resolvers read `stride_in[dim]` out of range, for every `dim ≥ 2` and every flat batch
index. -/
theorem C13_resolver_reads (dim : Nat) (lengths stride_in stride_out : List Nat) (z : Nat)
    (hdim : 2 ≤ dim) (hl : lengths.length = dim) :
    (stride_in.length = dim + 1 → stride_out.length = dim + 1 →
      kernel2_offsets_checked dim lengths stride_in stride_out z =
        Except.ok (kernel2_iOffset dim (arr lengths) (arr stride_in) (arr stride_out) z,
          kernel2_oOffset dim (arr lengths) (arr stride_in) (arr stride_out) z) ∧
      outplace_offsets_checked dim lengths stride_in stride_out z =
        Except.ok (outplace_iOffset dim (arr lengths) (arr stride_in) (arr stride_out) z,
          outplace_oOffset dim (arr lengths) (arr stride_in) (arr stride_out) z)) ∧
    (stride_in.length = dim → stride_out.length = dim →
      kernel2_offsets_checked dim lengths stride_in stride_out z = Except.error dim ∧
      outplace_offsets_checked dim lengths stride_in stride_out z = Except.error dim) := by
  constructor
  · intro h2 h3
    unfold kernel2_offsets_checked outplace_offsets_checked
    rw [batchOffsets_checked_ok id 2 dim lengths stride_in stride_out z hdim (by omega)
      (by omega) (by omega),
      batchOffsets_checked_ok _ 2 dim lengths stride_in stride_out z hdim (by omega)
      (by omega) (by omega)]
    exact ⟨rfl, rfl⟩
  · intro h2 _
    unfold kernel2_offsets_checked outplace_offsets_checked
    rw [batchOffsets_checked_err id dim lengths stride_in stride_out z hdim (by omega) h2,
      batchOffsets_checked_err _ dim lengths stride_in stride_out z hdim (by omega) h2]
    exact ⟨rfl, rfl⟩

/-- C13 at `dim = 4` with five stride entries: the reads are in range. -/
theorem C13_resolver_reads_witness :
    kernel2_offsets_checked 4 [8, 8, 3, 5] [1, 8, 64, 192, 960] [1, 8, 70, 210, 1050] 7 =
      Except.ok (kernel2_iOffset 4 (arr [8, 8, 3, 5]) (arr [1, 8, 64, 192, 960])
          (arr [1, 8, 70, 210, 1050]) 7,
        kernel2_oOffset 4 (arr [8, 8, 3, 5]) (arr [1, 8, 64, 192, 960])
          (arr [1, 8, 70, 210, 1050]) 7) :=
  ((C13_resolver_reads 4 [8, 8, 3, 5] [1, 8, 64, 192, 960] [1, 8, 70, 210, 1050] 7
    (by decide) rfl).1 rfl rfl).1

/-- C14: for a 16 by 16 work-group and a 64 by 64 macro-tile in `transpose_kernel_outplace`,
`reshape_factor = 4` and `unroll_factor = 16`; the map
`(local_x, local_y, pass) ↦ (local_x + (local_y % 4) * 16, local_y / 4 + pass * 4)` sends
`[0,16)³` into `[0,64)²`, is injective there and reaches every cell; and in the run of a
work-group the load loop accesses `lds[subblock_idx_0][subblock_idx_1]` once per (worker,
pass) pair, each cell of the 64 by 64 tile exactly once, and the store loop reads each cell
back exactly once. -/
theorem C14_outplace_reshape_bijection {T Tbl : Type} (tw : TwiddleMul Tbl T)
    (micro_tile_col_size micro_tile_row_size wg_col_size wg_row_size : Nat)
    (input : Nat → T) (tl : Option Tbl) (dim : Nat)
    (lengths stride_in stride_out : Nat → Nat) (blkX blkY : Nat) (s : State T)
    (hc : micro_tile_col_size * wg_col_size = 64) (hr : micro_tile_row_size * wg_row_size = 64) :
    (outplace_reshape_factor micro_tile_col_size wg_col_size 16 = 4 ∧
      outplace_unroll_factor micro_tile_col_size micro_tile_row_size wg_col_size wg_row_size
        16 16 = 16) ∧
    (∀ lx ly p, lx < 16 → ly < 16 → p < 16 →
      lx + (ly % 4) * 16 < 64 ∧ ly / 4 + p * 4 < 64) ∧
    (∀ lx ly p lx' ly' p', lx < 16 → ly < 16 → p < 16 → lx' < 16 → ly' < 16 → p' < 16 →
      lx + (ly % 4) * 16 = lx' + (ly' % 4) * 16 → ly / 4 + p * 4 = ly' / 4 + p' * 4 →
      lx = lx' ∧ ly = ly' ∧ p = p') ∧
    (∀ x y, x < 64 → y < 64 → ∃ lx ly p, lx < 16 ∧ ly < 16 ∧ p < 16 ∧
      lx + (ly % 4) * 16 = x ∧ ly / 4 + p * 4 = y) ∧
    ((transpose_kernel_outplace tw micro_tile_col_size micro_tile_row_size wg_col_size
        wg_row_size input tl dim lengths stride_in stride_out blkX blkY 16 16 s).staged =
      s.staged ++
        (microsteps (workers blkX blkY 0 16 16) (loopIdx 16 1 16 0)).map
          (fun p => (p.1.hipThreadIdx_x + (p.1.hipThreadIdx_y % 4) * 16,
            p.1.hipThreadIdx_y / 4 + p.2 * 4)) ++
        (microsteps (workers blkX blkY 0 16 16) (loopIdx 16 1 16 0)).map
          (fun p => (p.1.hipThreadIdx_y / 4 + p.2 * 4,
            p.1.hipThreadIdx_x + (p.1.hipThreadIdx_y % 4) * 16))) ∧
    (∀ x y, x < 64 → y < 64 →
      ((microsteps (workers blkX blkY 0 16 16) (loopIdx 16 1 16 0)).map
        (fun p => (p.1.hipThreadIdx_x + (p.1.hipThreadIdx_y % 4) * 16,
          p.1.hipThreadIdx_y / 4 + p.2 * 4))).count (x, y) = 1 ∧
      ((microsteps (workers blkX blkY 0 16 16) (loopIdx 16 1 16 0)).map
        (fun p => (p.1.hipThreadIdx_y / 4 + p.2 * 4,
          p.1.hipThreadIdx_x + (p.1.hipThreadIdx_y % 4) * 16))).count (x, y) = 1) := by
  refine ⟨⟨?_, ?_⟩, ?_, ?_, ?_, ?_, ?_⟩
  · unfold outplace_reshape_factor
    rw [hc]
  · unfold outplace_unroll_factor outplace_reshape_factor
    rw [hc, hr]
  · intro lx ly p h1 h2 h3
    constructor <;> omega
  · intro lx ly p lx' ly' p' h1 h2 h3 h4 h5 h6 e1 e2
    refine ⟨?_, ?_, ?_⟩ <;> omega
  · intro x y hx hy
    exact ⟨x % 16, (y % 4) * 4 + x / 16, y / 4, by omega, by omega, by omega, by omega, by omega⟩
  · rw [outplace_macro64 tw _ _ _ _ input tl dim lengths stride_in stride_out blkX blkY s hc hr,
      outplace64_staged]
    congr 1
    · congr 1
      apply List.map_congr_left
      intro p hp
      exact outplace_subblock64 blkX blkY p hp
    · apply List.map_congr_left
      intro p hp
      rw [outplace_subblock64 blkX blkY p hp]
  · intro x y hx hy
    constructor
    · exact micro64_count blkX blkY _ (fun _ _ => rfl) x y hx hy
    · have := count_swap (fun p : Worker × Nat =>
        (p.1.hipThreadIdx_x + (p.1.hipThreadIdx_y % 4) * 16, p.1.hipThreadIdx_y / 4 + p.2 * 4))
        (microsteps (workers blkX blkY 0 16 16) (loopIdx 16 1 16 0)) x y
      dsimp only at this
      rw [this]
      exact micro64_count blkX blkY _ (fun _ _ => rfl) y x hy hx

/-- C14 at micro-tiles of 4 by 4 and work-group tiles of 16 by 16: the constants. -/
theorem C14_outplace_reshape_bijection_witness :
    outplace_reshape_factor 4 16 16 = 4 ∧ outplace_unroll_factor 4 4 16 16 16 16 = 16 :=
  (C14_outplace_reshape_bijection twEx 4 4 16 16 inEx none 2 (arr [64, 64]) (arr [1, 64])
    (arr [1, 64]) 0 0 stEx (by decide) (by decide)).1

/-- C15, as stated, fails: on a 16 by 16 work-group no worker and no pass exist for which the
write-back loop of `transpose_var1` computes an `(xInd, yInd)` other than the load loop's. -/
theorem C15_var1_reshape_counterexample :
    ¬ ∃ lx ly gx gy gz t, lx < 16 ∧ ly < 16 ∧
      var1_store_ind ⟨lx, ly, gx, gy, gz, 16, 16⟩ t ≠
        var1_load_ind ⟨lx, ly, gx, gy, gz, 16, 16⟩ t := by
  rintro ⟨lx, ly, gx, gy, gz, t, _, _, h⟩
  exact h (var1_ind_eq _ t rfl rfl)

/-- C15, amended: in `transpose_var1` with a 16 by 16 work-group the write-back pass uses the
same reshape as the load pass.  `groupingPerY = 4` equals the load modulus `wgTileExtent.y`,
`transposeRatio = 1` makes the row step `wgTileExtent.y * transposeRatio = 4`, and for every
worker and pass both loops compute
`(xInd, yInd) = (localIndex.x + 16 * (localIndex.y % 4), localIndex.y / 4 + t * 4)`: the load
loop accesses `lds[xInd][yInd]`, the write-back loop `lds[yInd][xInd]`. -/
theorem C15_var1_reshape {T Tbl : Type} (tw : TwiddleMul Tbl T) (dir twl : Int)
    (ttd : TransTileDir) (tl : Option Tbl) (pmComplexIn : Nat → T)
    (iOffset oOffset stride_i stride_o cdi : Nat) (w : Worker) (t : Nat) (s : State T)
    (hx : w.hipBlockDim_x = 16) (hy : w.hipBlockDim_y = 16) :
    var1_groupingPerY w.hipBlockDim_y = w.hipBlockDim_y / 4 ∧
    var1_groupingPerY w.hipBlockDim_y = 4 ∧
    var1_transposeRatio w.hipBlockDim_x w.hipBlockDim_y = 1 ∧
    var1_load_ind w t =
      (w.hipThreadIdx_x + 16 * (w.hipThreadIdx_y % 4), w.hipThreadIdx_y / 4 + t * 4) ∧
    var1_store_ind w t = var1_load_ind w t ∧
    (var1_load tw dir twl ttd tl pmComplexIn iOffset stride_i cdi w t s).staged =
      s.staged ++ [var1_load_ind w t] ∧
    (var1_store oOffset stride_o w t s).staged =
      s.staged ++ [((var1_load_ind w t).2, (var1_load_ind w t).1)] := by
  have e1 : var1_store_ind w t = var1_load_ind w t := var1_ind_eq w t hx hy
  refine ⟨?_, ?_, ?_, ?_, e1, rfl, ?_⟩
  · simp [var1_groupingPerY, hy]
  · simp [var1_groupingPerY, hy]
  · simp [var1_transposeRatio, hx, hy]
  · simp [var1_load_ind, hx, hy]
  · rw [← e1]
    rfl

/-- C15 for worker `(5, 7)` of work-group `(2, 3)` in pass `9`. -/
theorem C15_var1_reshape_witness :
    var1_store_ind ⟨5, 7, 2, 3, 0, 16, 16⟩ 9 = var1_load_ind ⟨5, 7, 2, 3, 0, 16, 16⟩ 9 :=
  (C15_var1_reshape twEx 0 0 TransTileDir.TTD_IP_HOR none inEx 0 0 64 64 0
    ⟨5, 7, 2, 3, 0, 16, 16⟩ 9 stEx rfl rfl).2.2.2.2.1

/-- C16, as stated, fails: with `twl = 3`, `dir = -1`, `TTD_IP_HOR`, `numGroupsY = 1` and a
multiplier that returns the table index it is given, the element with local coordinates
`(xInd, yInd) = (1, 4)` is multiplied at index `(64 + 1) * 4 = 260` in work-group `(1, 0)` and
at index `1 * 4 = 4` in work-group `(0, 0)`. -/
theorem C16_var1_twiddle_index_counterexample :
    (transpose_var1 twIdx (-1) 3 TransTileDir.TTD_IP_HOR (some ()) inEx 1 64 64 0 0
      1 0 16 16 stEx).output
        (var1_oOffset TransTileDir.TTD_IP_HOR 1 64 0 1 0 16 16 + (4 + 64 * 1)) = 260 ∧
    (transpose_var1 twIdx (-1) 3 TransTileDir.TTD_IP_HOR (some ()) inEx 1 64 64 0 0
      0 0 16 16 stEx).output
        (var1_oOffset TransTileDir.TTD_IP_HOR 1 64 0 0 0 16 16 + (4 + 64 * 1)) = 4 := by
  constructor
  · rw [var1_block_output twIdx (-1) 3 TransTileDir.TTD_IP_HOR (some ()) inEx 1 64 64 0 0 1 0
      stEx (by decide) 1 4 (by decide) (by decide)]
    rfl
  · rw [var1_block_output twIdx (-1) 3 TransTileDir.TTD_IP_HOR (some ()) inEx 1 64 64 0 0 0 0
      stEx (by decide) 1 4 (by decide) (by decide)]
    rfl

/-- C16, amended: in `transpose_var1` with `twl` in `{3, 4}` the twiddle table index of a
loaded element is the product of its coordinates in the whole matrix, which depends on the
work-group: `(64 * groupIndex.x + xInd) * (64 * currDimIndex + yInd)` when
`ttd = TTD_IP_HOR` and `(64 * groupIndex.x + yInd) * (64 * currDimIndex + xInd)` otherwise,
with `currDimIndex = groupIndex.y % numGroupsY`.  Stated for one pass of the load loop of any
worker of a 16 by 16 work-group (the value left in `lds[xInd][yInd]` is the level-`twl`
product at that index, forward when `dir = -1`, inverse otherwise), and for the run of a
work-group `(gx, gy)` with `stride_o ≥ 64`: the element loaded from
`tileIn[xInd + stride_i * yInd]` reaches `tileOut[yInd + stride_o * xInd]` multiplied at that
index, for every `xInd, yInd < 64`. -/
theorem C16_var1_twiddle_index {T Tbl : Type} (tw : TwiddleMul Tbl T) (dir twl : Int)
    (ttd : TransTileDir) (tl : Option Tbl) (pmComplexIn : Nat → T) (lvl : Nat)
    (hlvl : lvl = 3 ∨ lvl = 4) (htwl : twl = lvl) :
    (∀ (iOffset stride_i currDimIndex : Nat) (w : Worker) (t : Nat) (s : State T),
      w.hipBlockDim_x = 16 → w.hipBlockDim_y = 16 →
      (var1_load tw dir twl ttd tl pmComplexIn iOffset stride_i currDimIndex w t s).shared
          (var1_load_ind w t).1 (var1_load_ind w t).2 =
        if dir = -1
          then tw.FWD lvl tl
            (if ttd = TransTileDir.TTD_IP_HOR
              then (64 * w.hipBlockIdx_x + (var1_load_ind w t).1) *
                (64 * currDimIndex + (var1_load_ind w t).2)
              else (64 * w.hipBlockIdx_x + (var1_load_ind w t).2) *
                (64 * currDimIndex + (var1_load_ind w t).1))
            (pmComplexIn (iOffset + ((var1_load_ind w t).1 + stride_i * (var1_load_ind w t).2)))
          else tw.INV lvl tl
            (if ttd = TransTileDir.TTD_IP_HOR
              then (64 * w.hipBlockIdx_x + (var1_load_ind w t).1) *
                (64 * currDimIndex + (var1_load_ind w t).2)
              else (64 * w.hipBlockIdx_x + (var1_load_ind w t).2) *
                (64 * currDimIndex + (var1_load_ind w t).1))
            (pmComplexIn
              (iOffset + ((var1_load_ind w t).1 + stride_i * (var1_load_ind w t).2)))) ∧
    (∀ (numGroupsY stride_i stride_o dist_i dist_o gx gy : Nat) (s : State T),
      64 ≤ stride_o → ∀ xInd yInd, xInd < 64 → yInd < 64 →
      (transpose_var1 tw dir twl ttd tl pmComplexIn numGroupsY stride_i stride_o dist_i dist_o
        gx gy 16 16 s).output
          (var1_oOffset ttd numGroupsY stride_o dist_o gx gy 16 16 + (yInd + stride_o * xInd)) =
        if dir = -1
          then tw.FWD lvl tl
            (if ttd = TransTileDir.TTD_IP_HOR
              then (64 * gx + xInd) * (64 * (gy % numGroupsY) + yInd)
              else (64 * gx + yInd) * (64 * (gy % numGroupsY) + xInd))
            (pmComplexIn (var1_iOffset ttd numGroupsY stride_i dist_i gx gy 16 16 +
              (xInd + stride_i * yInd)))
          else tw.INV lvl tl
            (if ttd = TransTileDir.TTD_IP_HOR
              then (64 * gx + xInd) * (64 * (gy % numGroupsY) + yInd)
              else (64 * gx + yInd) * (64 * (gy % numGroupsY) + xInd))
            (pmComplexIn (var1_iOffset ttd numGroupsY stride_i dist_i gx gy 16 16 +
              (xInd + stride_i * yInd)))) := by
  have hon : ∀ idx v, var1_twiddle tw tl twl dir idx v =
      if dir = -1 then tw.FWD lvl tl idx v else tw.INV lvl tl idx v := by
    intro idx v
    subst htwl
    rcases hlvl with rfl | rfl <;> simp [var1_twiddle]
  have a1 : ∀ k : Nat, k * (16 * 4) = 64 * k := fun k => by omega
  have a2 : ∀ k : Nat, k * (16 / 4) * 16 = 64 * k := fun k => by omega
  constructor
  · intro iOffset stride_i cdi w t s hx hy
    unfold var1_load var1_load_ind
    simp only [write2, and_self, if_true, hx, hy, hon, a1, a2]
    by_cases h : ttd = TransTileDir.TTD_IP_HOR
    · simp only [h, if_true]
    · simp only [h, if_false]
  · intro numGroupsY stride_i stride_o dist_i dist_o gx gy s hs xInd yInd hx hy
    rw [var1_block_output tw dir twl ttd tl pmComplexIn numGroupsY stride_i stride_o
      dist_i dist_o gx gy s hs xInd yInd hx hy]
    unfold var1_value
    by_cases h : ttd = TransTileDir.TTD_IP_HOR
    · simp only [h, if_true, hon, a1, a2]
    · simp only [h, if_false, hon, a1, a2]

/-- C16 for work-group `(2, 3)` with `numGroupsY = 2`, level 4, forward, vertical direction:
the element with `(xInd, yInd) = (63, 5)`. -/
theorem C16_var1_twiddle_index_witness :
    (transpose_var1 twEx (-1) 4 TransTileDir.TTD_IP_VER none inEx 2 128 64 9000 7000
      2 3 16 16 stEx).output
        (var1_oOffset TransTileDir.TTD_IP_VER 2 64 7000 2 3 16 16 + (5 + 64 * 63)) =
      if (-1 : Int) = -1
        then twEx.FWD 4 none
          (if TransTileDir.TTD_IP_VER = TransTileDir.TTD_IP_HOR
            then (64 * 2 + 63) * (64 * (3 % 2) + 5)
            else (64 * 2 + 5) * (64 * (3 % 2) + 63))
          (inEx (var1_iOffset TransTileDir.TTD_IP_VER 2 128 9000 2 3 16 16 + (63 + 128 * 5)))
        else twEx.INV 4 none
          (if TransTileDir.TTD_IP_VER = TransTileDir.TTD_IP_HOR
            then (64 * 2 + 63) * (64 * (3 % 2) + 5)
            else (64 * 2 + 5) * (64 * (3 % 2) + 63))
          (inEx (var1_iOffset TransTileDir.TTD_IP_VER 2 128 9000 2 3 16 16 + (63 + 128 * 5))) :=
  (C16_var1_twiddle_index twEx (-1) 4 TransTileDir.TTD_IP_VER none inEx 4 (Or.inr rfl)
    (by decide)).2 2 128 64 9000 7000 2 3 stEx (by decide) 63 5 (by decide) (by decide)

/-- C17: in `transpose_kernel_outplace` a loaded element is multiplied exactly when
`twiddles_large` is non-null, by the level-3 forward macro at table index
`subblock_idx_0 * subblock_idx_1`.  The pair `(subblock_idx_0, subblock_idx_1)` is computed
from the worker's local index, the block shape and the pass only; the kernel has no direction
or level input.  Stated for one pass of the load loop of any worker, and for the run of any
work-group `(blkX, blkY)` of the 64 by 64 instantiation with `stride_out[1] ≥ 64`: the
element loaded into `lds[x][y]` reaches cell `(x, y)` of the destination tile unchanged when
the table is null and multiplied at index `x * y` when it is not, whatever the position of
the work-group. -/
theorem C17_outplace_twiddle {T Tbl : Type} (tw : TwiddleMul Tbl T) (input : Nat → T)
    (tl : Option Tbl) :
    (∀ (inp ld rf : Nat) (w : Worker) (i : Nat) (t : State T),
      (outplace_subblock rf w i =
        (w.hipThreadIdx_x + (w.hipThreadIdx_y % rf) * w.hipBlockDim_x,
          w.hipThreadIdx_y / rf + i * (w.hipBlockDim_y / rf))) ∧
      (tl = none →
        (outplace_load tw input tl inp ld rf w i t).shared
          (outplace_subblock rf w i).1 (outplace_subblock rf w i).2 =
          input (inp + ((outplace_subblock rf w i).2 * ld + (outplace_subblock rf w i).1))) ∧
      (tl ≠ none →
        (outplace_load tw input tl inp ld rf w i t).shared
          (outplace_subblock rf w i).1 (outplace_subblock rf w i).2 =
          tw.FWD 3 tl ((outplace_subblock rf w i).1 * (outplace_subblock rf w i).2)
            (input (inp + ((outplace_subblock rf w i).2 * ld + (outplace_subblock rf w i).1))))) ∧
    (∀ (dim : Nat) (lengths stride_in stride_out : Nat → Nat) (blkX blkY : Nat) (s : State T),
      64 ≤ stride_out 1 → ∀ x y, x < 64 → y < 64 →
      (tl = none →
        (transpose_kernel_outplace tw 4 4 16 16 input tl dim lengths stride_in stride_out
          blkX blkY 16 16 s).output
            (outplace_oOffset dim lengths stride_in stride_out (blkX / (lengths 0 / 64)) +
              (stride_out 1 * (blkX % (lengths 0 / 64)) * 64 + blkY * 64) +
              (x * stride_out 1 + y)) =
          input (outplace_iOffset dim lengths stride_in stride_out (blkX / (lengths 0 / 64)) +
            (stride_in 1 * blkY * 64 + blkX % (lengths 0 / 64) * 64) +
            (y * stride_in 1 + x))) ∧
      (tl ≠ none →
        (transpose_kernel_outplace tw 4 4 16 16 input tl dim lengths stride_in stride_out
          blkX blkY 16 16 s).output
            (outplace_oOffset dim lengths stride_in stride_out (blkX / (lengths 0 / 64)) +
              (stride_out 1 * (blkX % (lengths 0 / 64)) * 64 + blkY * 64) +
              (x * stride_out 1 + y)) =
          tw.FWD 3 tl (x * y)
            (input (outplace_iOffset dim lengths stride_in stride_out (blkX / (lengths 0 / 64)) +
              (stride_in 1 * blkY * 64 + blkX % (lengths 0 / 64) * 64) +
              (y * stride_in 1 + x))))) := by
  refine ⟨?_, ?_⟩
  · intro inp ld rf w i t
    refine ⟨rfl, ?_, ?_⟩
    · intro h
      subst h
      simp [outplace_load, outplace_subblock, write2]
    · intro h
      have h1 : tl.isSome = true := Option.isSome_iff_ne_none.2 h
      simp [outplace_load, outplace_subblock, write2, h1]
  · intro dim lengths stride_in stride_out blkX blkY s hs x y hx hy
    have key := outplace64_block_output tw input tl dim lengths stride_in stride_out blkX blkY
      s hs x y hx hy
    constructor
    · intro h
      rw [key]
      subst h
      simp [outplace_value]
    · intro h
      have h1 : tl.isSome = true := Option.isSome_iff_ne_none.2 h
      rw [key]
      simp [outplace_value, h1]

/-- C17 for work-group `(3, 2)` of a 128-column matrix with a table supplied: destination cell
`(63, 5)` of its tile. -/
theorem C17_outplace_twiddle_witness :
    (transpose_kernel_outplace twEx 4 4 16 16 inEx (some ()) 2 (arr [128, 192]) (arr [1, 128])
      (arr [1, 192]) 3 2 16 16 stEx).output
        (outplace_oOffset 2 (arr [128, 192]) (arr [1, 128]) (arr [1, 192])
            (3 / (arr [128, 192] 0 / 64)) +
          (arr [1, 192] 1 * (3 % (arr [128, 192] 0 / 64)) * 64 + 2 * 64) +
          (63 * arr [1, 192] 1 + 5)) =
      twEx.FWD 3 (some ()) (63 * 5)
        (inEx (outplace_iOffset 2 (arr [128, 192]) (arr [1, 128]) (arr [1, 192])
            (3 / (arr [128, 192] 0 / 64)) +
          (arr [1, 128] 1 * 2 * 64 + 3 % (arr [128, 192] 0 / 64) * 64) +
          (5 * arr [1, 128] 1 + 63))) :=
  ((C17_outplace_twiddle twEx inEx (some ())).2 2 (arr [128, 192]) (arr [1, 128])
    (arr [1, 192]) 3 2 stEx (by decide) 63 5 (by decide) (by decide)).2 (by decide)

/-- C18: in `transpose_kernel2_scheme`, `scheme = 1` selects
`(m, n, ld_in, ld_out) = (lengths[2], lengths[0] * lengths[1], stride_in[2], stride_out[1])`
and every other value selects
`(lengths[1] * lengths[2], lengths[0], stride_in[1], stride_out[2])`; in both cases
`m * n = lengths[0] * lengths[1] * lengths[2]`; these are the extents and leading dimensions
the kernel hands to the tile transfer primitive; and the batch offset is resolved with
dimension 3 as the base of the mixed-radix counter: for `dim ≥ 3` and coordinates
`c_3 .. c_dim` with `c_j < lengths[j]` for `3 ≤ j < dim`, at the flat index
`∑ c_j * ∏ lengths[k]` (`3 ≤ k < j`) the offsets are `∑ c_j * stride_in[j]` and
`∑ c_j * stride_out[j]` (`3 ≤ j ≤ dim`), the last remainder being multiplied by `stride[3]`
(for `dim = 3` the offsets are `z * stride[3]`). -/
theorem C18_kernel2_scheme_selection {T Tbl : Type} (tw : TwiddleMul Tbl T) (DIM_X DIM_Y : Nat)
    (input : Nat → T) (tl : Option Tbl) (dim : Nat) (lengths stride_in stride_out : Nat → Nat)
    (scheme : Int) (blkX blkY blkZ dimX dimY : Nat) (s : State T) :
    (scheme = 1 →
      scheme_m scheme lengths = lengths 2 ∧ scheme_n scheme lengths = lengths 0 * lengths 1 ∧
      scheme_ld_in scheme stride_in = stride_in 2 ∧
      scheme_ld_out scheme stride_out = stride_out 1) ∧
    (scheme ≠ 1 →
      scheme_m scheme lengths = lengths 1 * lengths 2 ∧ scheme_n scheme lengths = lengths 0 ∧
      scheme_ld_in scheme stride_in = stride_in 1 ∧
      scheme_ld_out scheme stride_out = stride_out 2) ∧
    scheme_m scheme lengths * scheme_n scheme lengths = lengths 0 * lengths 1 * lengths 2 ∧
    transpose_kernel2_scheme tw DIM_X DIM_Y input tl dim lengths stride_in stride_out scheme
        blkX blkY blkZ dimX dimY s =
      transpose_tile_device tw DIM_X DIM_Y input
        (blkX * DIM_X + blkY * DIM_X * scheme_ld_in scheme stride_in +
          scheme_iOffset dim lengths stride_in stride_out blkZ)
        (blkX * DIM_X * scheme_ld_out scheme stride_out + blkY * DIM_X +
          scheme_oOffset dim lengths stride_in stride_out blkZ)
        (min (scheme_m scheme lengths - blkY * DIM_X) DIM_X)
        (min (scheme_n scheme lengths - blkX * DIM_X) DIM_X)
        (blkX * DIM_X) (blkY * DIM_X) (scheme_ld_in scheme stride_in)
        (scheme_ld_out scheme stride_out) tl 0 0 (workers blkX blkY blkZ dimX dimY) s ∧
    (3 ≤ dim → ∀ c : Nat → Nat, (∀ j, 3 ≤ j → j < dim → c j < lengths j) →
      scheme_iOffset dim lengths stride_in stride_out (spec_flatIndex_from 3 lengths c dim) =
        spec_offset_from 3 stride_in c dim ∧
      scheme_oOffset dim lengths stride_in stride_out (spec_flatIndex_from 3 lengths c dim) =
        spec_offset_from 3 stride_out c dim) ∧
    (scheme_iOffset 3 lengths stride_in stride_out blkZ = blkZ * stride_in 3 ∧
      scheme_oOffset 3 lengths stride_in stride_out blkZ = blkZ * stride_out 3) := by
  refine ⟨?_, ?_, ?_, rfl, ?_, ?_, ?_⟩
  · intro h
    simp [scheme_m, scheme_n, scheme_ld_in, scheme_ld_out, h]
  · intro h
    simp [scheme_m, scheme_n, scheme_ld_in, scheme_ld_out, h]
  · unfold scheme_m scheme_n
    split <;> ring
  · intro hdim c hc
    unfold scheme_iOffset scheme_oOffset
    rw [batchOffsets_spec_from 3 lengths stride_in stride_out c dim hdim hc]
    exact ⟨rfl, rfl⟩
  · simp [scheme_iOffset, batchOffsets, batchLoop]
  · simp [scheme_oOffset, batchOffsets, batchLoop]

/-- C18 at `dim = 5`, batch lengths `lengths[3] = 3`, `lengths[4] = 5`, coordinate
`(c_3, c_4, c_5) = (1, 4, 2)`, scheme 1. -/
theorem C18_kernel2_scheme_selection_witness :
    scheme_iOffset 5 (arr [8, 8, 4, 3, 5]) (arr [1, 8, 64, 256, 768, 3840])
        (arr [1, 8, 70, 280, 840, 4200])
        (spec_flatIndex_from 3 (arr [8, 8, 4, 3, 5]) (arr [0, 0, 0, 1, 4, 2]) 5) =
      spec_offset_from 3 (arr [1, 8, 64, 256, 768, 3840]) (arr [0, 0, 0, 1, 4, 2]) 5 :=
  ((C18_kernel2_scheme_selection twEx 4 2 inEx none 5 (arr [8, 8, 4, 3, 5])
    (arr [1, 8, 64, 256, 768, 3840]) (arr [1, 8, 70, 280, 840, 4200])
    1 0 0 0 4 2 stEx).2.2.2.2.1 (by decide) (arr [0, 0, 0, 1, 4, 2])
    (by intro j h1 h2; interval_cases j <;> decide)).1

/-- C19: in `transpose_var1` with a 16 by 16 work-group every staging-buffer access
`lds[a][b]` of the load pass and of the write-back pass has `a < 64` and `b < 64`, and
`lds[63][63]` is accessed.  With 8-byte elements `TWIDTH = 64` and every access is within the
buffer; with 16-byte elements `TWIDTH = 32` and the access `lds[63][63]` is not; and among
the element sizes that are positive multiples of 8 bytes, the accesses are all within
`TWIDTH = 64 / (sizeof(T) / 8)` exactly for 8 bytes. -/
theorem C19_var1_staging_extent {T Tbl : Type} (tw : TwiddleMul Tbl T) (dir twl : Int)
    (ttd : TransTileDir) (tl : Option Tbl) (pmComplexIn : Nat → T)
    (numGroupsY stride_i stride_o dist_i dist_o gx gy : Nat) (s : State T) :
    ∃ acc : List (Nat × Nat),
      (transpose_var1 tw dir twl ttd tl pmComplexIn numGroupsY stride_i stride_o dist_i dist_o
        gx gy 16 16 s).staged = s.staged ++ acc ∧
      (∀ c ∈ acc, c.1 < 64 ∧ c.2 < 64) ∧
      (63, 63) ∈ acc ∧
      (var1_TWIDTH 8 = 64 ∧ ∀ c ∈ acc, c.1 < var1_TWIDTH 8 ∧ c.2 < var1_TWIDTH 8) ∧
      (var1_TWIDTH 16 = 32 ∧ ∃ c ∈ acc, var1_TWIDTH 16 ≤ c.1) ∧
      (∀ sizeofT, 8 ∣ sizeofT → 0 < sizeofT →
        ((∀ c ∈ acc, c.1 < var1_TWIDTH sizeofT ∧ c.2 < var1_TWIDTH sizeofT) ↔
          sizeofT = 8)) := by
  have hin : ∀ c ∈ (microsteps (workers gx gy 0 16 16) (loopIdx 16 1 16 0)).map
        (fun p => var1_load_ind p.1 p.2) ++
      (microsteps (workers gx gy 0 16 16) (loopIdx 16 1 16 0)).map
        (fun p => ((var1_store_ind p.1 p.2).2, (var1_store_ind p.1 p.2).1)),
      c.1 < 64 ∧ c.2 < 64 := by
    intro c hc
    rw [List.mem_append, List.mem_map, List.mem_map] at hc
    rcases hc with ⟨p, hp, rfl⟩ | ⟨p, hp, rfl⟩
    · obtain ⟨b1, b2, _⟩ := mem_micro64 gx gy p hp
      rw [var1_load_ind64 gx gy p hp]
      exact ⟨b1, b2⟩
    · obtain ⟨b1, b2, _, _, b5, b6⟩ := mem_micro64 gx gy p hp
      rw [var1_ind_eq p.1 p.2 b5 b6, var1_load_ind64 gx gy p hp]
      exact ⟨b2, b1⟩
  have h63 : (63, 63) ∈ (microsteps (workers gx gy 0 16 16) (loopIdx 16 1 16 0)).map
        (fun p => var1_load_ind p.1 p.2) ++
      (microsteps (workers gx gy 0 16 16) (loopIdx 16 1 16 0)).map
        (fun p => ((var1_store_ind p.1 p.2).2, (var1_store_ind p.1 p.2).1)) := by
    obtain ⟨p, hp, h1, h2, _⟩ := cover64 gx gy 63 63 (by decide) (by decide)
    rw [List.mem_append, List.mem_map]
    left
    refine ⟨p, hp, ?_⟩
    rw [var1_load_ind64 gx gy p hp, h1, h2]
  refine ⟨_, by rw [var1_staged, List.append_assoc], hin, h63, ⟨rfl, hin⟩,
    ⟨rfl, (63, 63), h63, by decide⟩, ?_⟩
  intro sizeofT h8 hpos
  constructor
  · intro h
    have h1 := (h (63, 63) h63).1
    unfold var1_TWIDTH at h1
    obtain ⟨k, rfl⟩ := h8
    rw [Nat.mul_div_cancel_left k (by decide)] at h1
    have hk : k = 1 := by
      rcases Nat.lt_or_ge k 2 with h2 | h2
      · omega
      · have : 64 / k ≤ 64 / 2 := Nat.div_le_div_left h2 (by decide)
        omega
    omega
  · intro h
    subst h
    exact hin

/-- C19 for work-group `(0, 0)` of a horizontal run. -/
theorem C19_var1_staging_extent_witness :
    ∃ acc : List (Nat × Nat),
      (transpose_var1 twEx 0 0 TransTileDir.TTD_IP_HOR none inEx 1 64 64 0 0
        0 0 16 16 stEx).staged = stEx.staged ++ acc ∧
      (∀ c ∈ acc, c.1 < 64 ∧ c.2 < 64) ∧
      (63, 63) ∈ acc ∧
      (var1_TWIDTH 8 = 64 ∧ ∀ c ∈ acc, c.1 < var1_TWIDTH 8 ∧ c.2 < var1_TWIDTH 8) ∧
      (var1_TWIDTH 16 = 32 ∧ ∃ c ∈ acc, var1_TWIDTH 16 ≤ c.1) ∧
      (∀ sizeofT, 8 ∣ sizeofT → 0 < sizeofT →
        ((∀ c ∈ acc, c.1 < var1_TWIDTH sizeofT ∧ c.2 < var1_TWIDTH sizeofT) ↔
          sizeofT = 8)) :=
  C19_var1_staging_extent twEx 0 0 TransTileDir.TTD_IP_HOR none inEx 1 64 64 0 0 0 0 stEx

/-- C20: for every `dim`, lengths, stride arrays and flat batch index `b`, the offsets
`transpose_kernel_outplace` accumulates in `unsigned int` variables are the offsets of the
resolver of `transpose_kernel2` reduced modulo `2^32`, whether the latter are taken over
unbounded integers or accumulated modulo `2^64`; and an offset of the one equals the offset
of the other exactly when the latter is below `2^32`. -/
theorem C20_resolvers_agree_mod (dim : Nat) (lengths stride_in stride_out : Nat → Nat)
    (b : Nat) :
    (outplace_iOffset dim lengths stride_in stride_out b =
        kernel2_iOffset dim lengths stride_in stride_out b % 2 ^ 32 ∧
      outplace_oOffset dim lengths stride_in stride_out b =
        kernel2_oOffset dim lengths stride_in stride_out b % 2 ^ 32) ∧
    (outplace_iOffset dim lengths stride_in stride_out b =
        kernel2_iOffset64 dim lengths stride_in stride_out b % 2 ^ 32 ∧
      outplace_oOffset dim lengths stride_in stride_out b =
        kernel2_oOffset64 dim lengths stride_in stride_out b % 2 ^ 32) ∧
    ((outplace_iOffset dim lengths stride_in stride_out b =
        kernel2_iOffset dim lengths stride_in stride_out b ↔
        kernel2_iOffset dim lengths stride_in stride_out b < 2 ^ 32) ∧
      (outplace_oOffset dim lengths stride_in stride_out b =
        kernel2_oOffset dim lengths stride_in stride_out b ↔
        kernel2_oOffset dim lengths stride_in stride_out b < 2 ^ 32)) ∧
    ((outplace_iOffset dim lengths stride_in stride_out b =
        kernel2_iOffset64 dim lengths stride_in stride_out b ↔
        kernel2_iOffset64 dim lengths stride_in stride_out b < 2 ^ 32) ∧
      (outplace_oOffset dim lengths stride_in stride_out b =
        kernel2_oOffset64 dim lengths stride_in stride_out b ↔
        kernel2_oOffset64 dim lengths stride_in stride_out b < 2 ^ 32)) := by
  obtain ⟨hi, ho⟩ := outplace_offsets_mod dim lengths stride_in stride_out b
  have h64 := batchOffsets_mod (2 ^ 64) 2 dim lengths stride_in stride_out b
  have key : ∀ x : Nat, x % 2 ^ 64 % 2 ^ 32 = x % 2 ^ 32 := fun x =>
    Nat.mod_mod_of_dvd x (by norm_num)
  have iff : ∀ x y : Nat, x = y % 2 ^ 32 → (x = y ↔ y < 2 ^ 32) := by
    intro x y h
    constructor
    · intro e
      have := Nat.mod_lt y (show 0 < 2 ^ 32 by norm_num)
      omega
    · intro e
      rw [h, Nat.mod_eq_of_lt e]
  have hi64 : outplace_iOffset dim lengths stride_in stride_out b =
      kernel2_iOffset64 dim lengths stride_in stride_out b % 2 ^ 32 := by
    unfold kernel2_iOffset64
    rw [h64, key, hi]; rfl
  have ho64 : outplace_oOffset dim lengths stride_in stride_out b =
      kernel2_oOffset64 dim lengths stride_in stride_out b % 2 ^ 32 := by
    unfold kernel2_oOffset64
    rw [h64, key, ho]; rfl
  exact ⟨⟨hi, ho⟩, ⟨hi64, ho64⟩, ⟨iff _ _ hi, iff _ _ ho⟩, ⟨iff _ _ hi64, iff _ _ ho64⟩⟩

end Transpose
